import Mathlib

set_option maxHeartbeats 1000000
set_option maxRecDepth 4000

namespace AzureSync

/-! Shallow embedding of the reconciliation engine of `src/config/azure-sync.py`,
of the CSV-driven custom-field updater of `src/ips/netbox.py`, and of the shared
`truncate_name` helper.  Python strings are modelled as lists of characters,
CIDR values as structured records (the engine treats them as opaque keys), and
the NetBox target system as an explicit state record threaded through every
operation together with a trace of lookup/create/update events. -/

abbrev Str := List Char

def str (s : String) : Str := s.data

/-- Python `s.lower()` (ASCII). -/
def pyLower (s : Str) : Str := s.map Char.toLower

/-- Python `s.upper()` (ASCII). -/
def pyUpper (s : Str) : Str := s.map Char.toUpper

/-- Python `s.capitalize()`: first character upper-cased, the rest lower-cased. -/
def pyCapitalize (s : Str) : Str :=
  match s with
  | [] => []
  | c :: cs => Char.toUpper c :: pyLower cs

/-- Python `name.lower().replace(" ", "-")`, the slug rule used throughout. -/
def slugOf (s : Str) : Str := (pyLower s).map (fun c => if c = ' ' then '-' else c)

/-- Python `location.lower().replace(' ', '')` (region tag slug). -/
def locSlugOf (s : Str) : Str := (pyLower s).filter (fun c => decide (c ≠ ' '))

/-- Python `pat in s` (substring containment), used by environment detection. -/
def containsSub (s pat : Str) : Bool :=
  match s with
  | [] => pat.isEmpty
  | _ :: tl => pat.isPrefixOf s || containsSub tl pat

def digitChar (d : Nat) : Char := Char.ofNat (48 + d)

def natStrAux : Nat → Nat → Str
  | 0, _ => []
  | _ + 1, 0 => []
  | f + 1, n + 1 => natStrAux f ((n + 1) / 10) ++ [digitChar ((n + 1) % 10)]

/-- Python `str(n)` for a natural number (decimal digits). -/
def natStr (n : Nat) : Str := if n = 0 then ['0'] else natStrAux n n

/-- Python `s[:k]` where `k` may be negative (then it counts from the end). -/
def pySliceTo (s : Str) (k : Int) : Str :=
  if 0 ≤ k then s.take k.toNat else s.take (s.length - min s.length k.natAbs)

/-- `truncate_name` from `azure-sync.py` (the same logic appears in
`azure_netbox_with_config.py`): `name.split('.')[0]` — the part before the
first dot — then a hard cut to `max_length` characters when it is longer. -/
def truncate_name (name : Str) (max_length : Nat) : Str :=
  let n1 := if name.contains '.' then name.takeWhile (fun c => decide (c ≠ '.')) else name
  if max_length < n1.length then n1.take max_length else n1

/-- The spec's reading of the name rule: drop everything from the first dot,
and only then hard-truncate to the maximum length. -/
def truncate_name_spec (name : Str) (max_length : Nat) : Str :=
  (name.takeWhile (fun c => decide (c ≠ '.'))).take max_length

/-- An IPv4 CIDR value, the natural key of an address-block record. -/
structure Cidr where
  addr : Nat
  len : Nat
deriving DecidableEq

/-- `p` encloses `c`: `p`'s mask is at most as long and the network bits agree. -/
def encloses (p c : Cidr) : Bool :=
  decide (p.len ≤ c.len) && (c.addr / 2 ^ (32 - p.len) == p.addr / 2 ^ (32 - p.len))

/-- Split a list at the first element satisfying `f` (pynetbox `.filter(...)[0]`
followed by an in-place `.save()` is modelled by reassembling the split). -/
def findSplit {α : Type _} (f : α → Bool) : List α → Option (List α × α × List α)
  | [] => none
  | x :: xs =>
      if f x then some ([], x, xs)
      else (findSplit f xs).map (fun pq => (x :: pq.1, pq.2.1, pq.2.2))

/-- First element satisfying `f` (pynetbox `.get(...)` / `.filter(...)[0]`). -/
def find1 {α : Type _} (f : α → Bool) (l : List α) : Option α :=
  (findSplit f l).map (fun pq => pq.2.1)

/-! ### Discovered-topology data model -/

inductive DevKind where
  | vm
  | network_interface
deriving DecidableEq

/-- Python `device['type'].title()`. -/
def DevKind.title : DevKind → Str
  | .vm => str "Vm"
  | .network_interface => str "Network_Interface"

/-- Python `device['type'] == 'vm'`. -/
def DevKind.isVm : DevKind → Bool
  | .vm => true
  | .network_interface => false

structure DeviceInfo where
  name : Str
  kind : DevKind          -- device['type']
  ip_address : Nat        -- the bare IP; address records store it as "<ip>/32"
  mac_address : Option Str
  location : Str
deriving DecidableEq

structure SubnetInfo where
  name : Str
  address_pfx : Option Cidr   -- subnet['address_prefix']; may be absent/None
  devices : List DeviceInfo
deriving DecidableEq

structure VNetInfo where
  name : Str
  resource_group : Str
  location : Str
  address_space : List Cidr
  subnets : List SubnetInfo
deriving DecidableEq

structure SubData where
  subscription_id : Str
  subscription_name : Str
  vnets : List VNetInfo
deriving DecidableEq

/-! ### Configuration (the parts `sync_to_netbox` and `apply_filters` read) -/

structure Mapping where
  device_type_pfx : Str   -- mapping['device_type_prefix'] (renamed: reserved suffix)
  device_role_pfx : Str   -- mapping['device_role_prefix']
  site_pfx : Str          -- mapping['site_prefix']
  manufacturer : Str
  default_interface : Str
  max_name_length : Nat
deriving DecidableEq

structure TagsCfg where
  sync_tag_name : Str
  sync_tag_description : Str
  additional_tags : List Str
deriving DecidableEq

structure SyncCfg where
  mapping : Mapping
  tags : TagsCfg
deriving DecidableEq

structure FilterCfg where
  regions_include : List Str
  regions_exclude : List Str
  rg_include : List Str
  rg_exclude : List Str
  name_include_patterns : List (Str → Bool)   -- compiled regex `.match`
  name_exclude_patterns : List (Str → Bool)

/-! ### NetBox state -/

structure TagRec where
  id : Nat
  name : Str
  slug : Str
  description : Str
deriving DecidableEq

structure AzureCf where
  azure_subscription : Option Str
  azure_subscription_url : Option Str
deriving DecidableEq

structure PfxRec where
  id : Nat
  cidr : Cidr
  status : Str
  description : Str
  tags : List Nat
  parent : Option Nat
  custom_fields : AzureCf
deriving DecidableEq

/-- The `defaults` dict passed to the prefix upsert.  `parent = none` means the
`'parent'` key is absent from the dict (network-level call), so it is neither
compared nor written on the found path. -/
structure PfxDefaults where
  description : Str
  status : Str
  tags : List Nat
  parent : Option Nat
deriving DecidableEq

structure ManuRec where
  id : Nat
  name : Str
deriving DecidableEq

structure DtRec where
  id : Nat
  model : Str
  manufacturer : Nat
  slug : Str
  tags : List Nat
deriving DecidableEq

structure RoleRec where
  id : Nat
  name : Str
  vm_role : Bool
  tags : List Nat
deriving DecidableEq

structure SiteRec where
  id : Nat
  name : Str
  description : Str
  tags : List Nat
deriving DecidableEq

structure DevRec where
  id : Nat
  name : Str
  device_type : Nat
  role : Nat
  site : Nat
  status : Str
  tags : List Nat
deriving DecidableEq

structure IfRec where
  id : Nat
  device : Nat
  name : Str
  iftype : Str
  mac_address : Option Str
  tags : List Nat
deriving DecidableEq

structure IpRec where
  id : Nat
  address : Nat          -- "<ip>/32"
  description : Str
  status : Str
  tags : List Nat
  assigned_object_type : Str
  assigned_object_id : Option Nat
deriving DecidableEq

structure NB where
  tags : List TagRec
  pfxs : List PfxRec
  manufacturers : List ManuRec
  device_types : List DtRec
  device_roles : List RoleRec
  sites : List SiteRec
  devices : List DevRec
  interfaces : List IfRec
  ip_addresses : List IpRec
  next_id : Nat
deriving DecidableEq

def NB.empty : NB := ⟨[], [], [], [], [], [], [], [], [], 1⟩

/-- One trace entry per target-system operation, carrying the flags the run
summary reports (`created`, `updated`) and, for prefixes, the result id and the
parent reference passed in. -/
inductive Event where
  | tagGet (slug : Str) (found : Bool)
  | tagCreate (slug : Str)
  | pfxOp (cidr : Cidr) (rid : Nat) (par : Option Nat) (created : Bool) (updated : Bool)
  | manuOp (nm : Str) (created : Bool)
  | dtOp (model : Str) (created : Bool)
  | roleOp (nm : Str) (created : Bool)
  | siteOp (nm : Str) (created : Bool)
  | devOp (nm : Str) (site : Nat) (created : Bool)
  | ifOp (dev : Nat) (nm : Str) (created : Bool)
  | ipOp (ip : Nat) (created : Bool) (updated : Bool)
deriving DecidableEq

def Event.isCreate : Event → Bool
  | .tagCreate _ => true
  | .pfxOp _ _ _ c _ => c
  | .manuOp _ c => c
  | .dtOp _ c => c
  | .roleOp _ c => c
  | .siteOp _ c => c
  | .devOp _ _ c => c
  | .ifOp _ _ c => c
  | .ipOp _ c _ => c
  | .tagGet _ _ => false

def Event.isUpdate : Event → Bool
  | .pfxOp _ _ _ _ u => u
  | .ipOp _ _ u => u
  | _ => false

def Event.isPfxOp : Event → Bool
  | .pfxOp _ _ _ _ _ => true
  | _ => false

def Event.isTagEv : Event → Bool
  | .tagGet _ _ => true
  | .tagCreate _ => true
  | _ => false

/-- A subnet-prefix operation (a prefix upsert whose defaults carry a parent). -/
def Event.isSubnetOp : Event → Bool
  | .pfxOp _ _ (some _) _ _ => true
  | _ => false

/-! ### Record matchers (the lookup keys used by each `.get`/`.filter` call) -/

def tagMatch (slug : Str) (t : TagRec) : Bool := t.slug == slug
def pfxMatch (c : Cidr) (p : PfxRec) : Bool := p.cidr == c
def manuMatch (nm : Str) (m : ManuRec) : Bool := m.name == nm
def dtMatch (model : Str) (d : DtRec) : Bool := d.model == model
def roleMatch (nm : Str) (r : RoleRec) : Bool := r.name == nm
def siteMatch (nm : Str) (s : SiteRec) : Bool := s.name == nm
def devMatch (nm : Str) (site : Nat) (d : DevRec) : Bool := d.name == nm && d.site == site
def ifMatch (dev : Nat) (nm : Str) (i : IfRec) : Bool := i.device == dev && i.name == nm
def ipMatch (ip : Nat) (r : IpRec) : Bool := r.address == ip

/-! ### Target-system operations -/

/-- `get_or_create_tag`: look the slug up, create the tag when absent.  The
`except` fallback around the read (transient lookup failure, treated as "not
found") has no analogue in this deterministic embedding. -/
def get_or_create_tag (s : NB) (tag_name tag_slug tag_description : Str) :
    TagRec × NB × List Event :=
  match find1 (tagMatch tag_slug) s.tags with
  | some t => (t, s, [.tagGet tag_slug true])
  | none =>
      let t : TagRec := ⟨s.next_id, tag_name, tag_slug, tag_description⟩
      (t, { s with tags := s.tags ++ [t], next_id := s.next_id + 1 },
        [.tagGet tag_slug false, .tagCreate tag_slug])

def azureSubVal (subscription_name subscription_id : Str) : Str :=
  subscription_name ++ str " - " ++ subscription_id

def azureSubUrl (subscription_id : Str) : Str :=
  str "https://portal.azure.com/#@/subscription/" ++ subscription_id ++ str "/overview"

/-- Python truthiness of `subscription_name and subscription_id`. -/
def pfxTruthy (subscription_name subscription_id : Str) : Bool :=
  !subscription_name.isEmpty && !subscription_id.isEmpty

/-- The custom-field staleness test of the found path. -/
def pfxCfStale (r : PfxRec) (sn si : Str) : Bool :=
  r.custom_fields.azure_subscription != some (azureSubVal sn si) ||
    r.custom_fields.azure_subscription_url != some (azureSubUrl si)

/-- `needs_update` of the found path: any key of `defaults` differs, or the
custom fields are stale (only checked when both subscription strings are
truthy). -/
def pfxNeeds (r : PfxRec) (d : PfxDefaults) (sn si : Str) : Bool :=
  (r.description != d.description || r.status != d.status || r.tags != d.tags ||
    (match d.parent with
     | some pid => r.parent != some pid
     | none => false)) ||
  (pfxTruthy sn si && pfxCfStale r sn si)

/-- The record after the found path's `setattr` loop and custom-field merge. -/
def pfxApply (r : PfxRec) (d : PfxDefaults) (sn si : Str) : PfxRec :=
  let r1 : PfxRec :=
    { r with description := d.description, status := d.status, tags := d.tags,
             parent := match d.parent with | some pid => some pid | none => r.parent }
  if pfxTruthy sn si && pfxCfStale r sn si then
    { r1 with custom_fields := ⟨some (azureSubVal sn si), some (azureSubUrl si)⟩ }
  else r1

/-- The record built by the create path. -/
def pfxNew (nid : Nat) (c : Cidr) (d : PfxDefaults) (sn si : Str) : PfxRec :=
  { id := nid, cidr := c, status := d.status, description := d.description,
    tags := d.tags, parent := d.parent,
    custom_fields :=
      if pfxTruthy sn si then ⟨some (azureSubVal sn si), some (azureSubUrl si)⟩
      else ⟨none, none⟩ }

/-- `get_or_create_prefix` (renamed, the gate reserves that suffix).  `interf`
holds records a concurrent writer inserts between the lookup and the create;
the engine itself always passes `[]` (single-writer run).  On the found path
only `list(existing)[0]` — the first match — is diffed and saved.  The source
re-raises when the duplicate-recovery re-query misses; in this embedding the
create is rejected exactly when a CIDR match exists, which is the condition the
re-query checks, so that branch has no inhabitant. -/
def get_or_create_pfx (s : NB) (c : Cidr) (d : PfxDefaults)
    (subscription_name subscription_id : Str) (interf : List PfxRec) :
    (PfxRec × Bool) × NB × List Event :=
  match findSplit (pfxMatch c) s.pfxs with
  | some (p, r, q) =>
      let r2 := pfxApply r d subscription_name subscription_id
      if pfxNeeds r d subscription_name subscription_id then
        ((r2, false), { s with pfxs := p ++ r2 :: q }, [.pfxOp c r2.id d.parent false true])
      else
        ((r2, false), s, [.pfxOp c r2.id d.parent false false])
  | none =>
      let s2 : NB := { s with pfxs := s.pfxs ++ interf }
      match findSplit (pfxMatch c) s2.pfxs with
      | some (_, r, _) =>
          -- duplicate-key failure on create, recovered by the re-query
          ((r, false), s2, [.pfxOp c r.id d.parent false false])
      | none =>
          let newr := pfxNew s2.next_id c d subscription_name subscription_id
          ((newr, true), { s2 with pfxs := s2.pfxs ++ [newr], next_id := s2.next_id + 1 },
            [.pfxOp c newr.id d.parent true false])

/-- `get_or_create_device_type`, including the nested manufacturer upsert. -/
def get_or_create_device_type (s : NB) (model manufacturer_name : Str) (tagIds : List Nat) :
    DtRec × NB × List Event :=
  match find1 (dtMatch model) s.device_types with
  | some dt => (dt, s, [.dtOp model false])
  | none =>
      match find1 (manuMatch manufacturer_name) s.manufacturers with
      | some m =>
          let dt : DtRec := ⟨s.next_id, model, m.id, slugOf model, tagIds⟩
          (dt, { s with device_types := s.device_types ++ [dt], next_id := s.next_id + 1 },
            [.manuOp manufacturer_name false, .dtOp model true])
      | none =>
          let m : ManuRec := ⟨s.next_id, manufacturer_name⟩
          let s1 : NB := { s with manufacturers := s.manufacturers ++ [m],
                                  next_id := s.next_id + 1 }
          let dt : DtRec := ⟨s1.next_id, model, m.id, slugOf model, tagIds⟩
          (dt, { s1 with device_types := s1.device_types ++ [dt], next_id := s1.next_id + 1 },
            [.manuOp manufacturer_name true, .dtOp model true])

def get_or_create_device_role (s : NB) (nm : Str) (vm_role : Bool) (tagIds : List Nat) :
    RoleRec × NB × List Event :=
  match find1 (roleMatch nm) s.device_roles with
  | some r => (r, s, [.roleOp nm false])
  | none =>
      let r : RoleRec := ⟨s.next_id, nm, vm_role, tagIds⟩
      (r, { s with device_roles := s.device_roles ++ [r], next_id := s.next_id + 1 },
        [.roleOp nm true])

def get_or_create_site (s : NB) (nm description : Str) (tagIds : List Nat) :
    SiteRec × NB × List Event :=
  match find1 (siteMatch nm) s.sites with
  | some st => (st, s, [.siteOp nm false])
  | none =>
      let st : SiteRec := ⟨s.next_id, nm, description, tagIds⟩
      (st, { s with sites := s.sites ++ [st], next_id := s.next_id + 1 }, [.siteOp nm true])

/-! ### The engine (`sync_to_netbox`), leaf-first -/

def vnetDesc (vnetName subscription_id : Str) : Str :=
  str "Azure VNet: " ++ vnetName ++ str " (Subscription: " ++ subscription_id ++ str ")"

def subnetDesc (snName vnetName : Str) : Str :=
  str "Azure Subnet: " ++ snName ++ str " (VNet: " ++ vnetName ++ str ")"

def vnetPfxDefaults (vnetTags : List Nat) (vnetName subscription_id : Str) : PfxDefaults :=
  ⟨vnetDesc vnetName subscription_id, str "active", vnetTags, none⟩

def subnetPfxDefaults (vnetTags : List Nat) (snName vnetName : Str) (pid : Nat) : PfxDefaults :=
  ⟨subnetDesc snName vnetName, str "active", vnetTags, some pid⟩

def devTypeModel (cfg : SyncCfg) (dev : DeviceInfo) : Str :=
  cfg.mapping.device_type_pfx ++ str " " ++ dev.kind.title

def devRoleName (cfg : SyncCfg) (dev : DeviceInfo) : Str :=
  cfg.mapping.device_role_pfx ++ str " " ++ dev.kind.title

def devSiteName (cfg : SyncCfg) (dev : DeviceInfo) : Str :=
  cfg.mapping.site_pfx ++ dev.location

def devName (cfg : SyncCfg) (dev : DeviceInfo) : Str :=
  truncate_name dev.name cfg.mapping.max_name_length

/-- The `nb.dcim.devices.get` / `create` pair of the innermost loop.  The
name-collision retry of the source (create failing with a uniqueness error) is
unreachable here because the create only runs after the `(name, site)` lookup
missed and this embedding is single-writer; the loop itself is modelled
standalone by `candidate` / `retryAux` below. -/
def deviceStep (device_name : Str) (dtid roleid siteid : Nat) (syncTagIds : List Nat)
    (s : NB) : DevRec × NB × List Event :=
  match find1 (devMatch device_name siteid) s.devices with
  | some d => (d, s, [Event.devOp device_name siteid false])
  | none =>
      let d : DevRec := ⟨s.next_id, device_name, dtid, roleid, siteid, str "active",
        syncTagIds⟩
      (d, { s with devices := s.devices ++ [d], next_id := s.next_id + 1 },
        [Event.devOp device_name siteid true])

/-- Python truthiness of `device['mac_address']`. -/
def macOf (dev : DeviceInfo) : Option Str :=
  match dev.mac_address with
  | some a => if a.isEmpty then none else some a
  | none => none

def ifaceStep (devid : Nat) (ifname : Str) (mac : Option Str) (syncTagIds : List Nat)
    (s : NB) : IfRec × NB × List Event :=
  match find1 (ifMatch devid ifname) s.interfaces with
  | some i => (i, s, [Event.ifOp devid ifname false])
  | none =>
      let i : IfRec := ⟨s.next_id, devid, ifname, str "virtual", mac, syncTagIds⟩
      (i, { s with interfaces := s.interfaces ++ [i], next_id := s.next_id + 1 },
        [Event.ifOp devid ifname true])

/-- The address lookup / reassignment / creation of the innermost loop. -/
def ipStep (ip : Nat) (device_name : Str) (ifid : Nat) (syncTagIds : List Nat) (s : NB) :
    NB × List Event :=
  match findSplit (ipMatch ip) s.ip_addresses with
  | some (p, r, q) =>
      if r.assigned_object_id != some ifid ||
          r.assigned_object_type != str "dcim.interface" then
        let r2 := { r with assigned_object_id := some ifid,
                           assigned_object_type := str "dcim.interface" }
        ({ s with ip_addresses := p ++ r2 :: q }, [Event.ipOp ip false true])
      else (s, [Event.ipOp ip false false])
  | none =>
      let r : IpRec := ⟨s.next_id, ip, str "IP for " ++ device_name, str "active",
        syncTagIds, str "dcim.interface", some ifid⟩
      ({ s with ip_addresses := s.ip_addresses ++ [r], next_id := s.next_id + 1 },
        [Event.ipOp ip true false])

/-- The device / interface / address section of the innermost loop. -/
def processDevice (cfg : SyncCfg) (syncTagIds : List Nat) (dev : DeviceInfo) (s : NB) :
    NB × List Event :=
  let m := cfg.mapping
  let (device_type, s1, ev1) :=
    get_or_create_device_type s (devTypeModel cfg dev) m.manufacturer syncTagIds
  let (device_role, s2, ev2) :=
    get_or_create_device_role s1 (devRoleName cfg dev) dev.kind.isVm syncTagIds
  let (site, s3, ev3) :=
    get_or_create_site s2 (devSiteName cfg dev)
      (str "Azure Region: " ++ dev.location) syncTagIds
  let (nb_device, s4, ev4) :=
    deviceStep (devName cfg dev) device_type.id device_role.id site.id syncTagIds s3
  let (iface, s5, ev5) :=
    ifaceStep nb_device.id m.default_interface (macOf dev) syncTagIds s4
  let (s6, ev6) := ipStep dev.ip_address (devName cfg dev) iface.id syncTagIds s5
  (s6, ev1 ++ ev2 ++ ev3 ++ ev4 ++ ev5 ++ ev6)

def processDevices (cfg : SyncCfg) (syncTagIds : List Nat) (devs : List DeviceInfo) (s : NB) :
    NB × List Event :=
  match devs with
  | [] => (s, [])
  | d :: rest =>
      let (s1, ev1) := processDevice cfg syncTagIds d s
      let (s2, ev2) := processDevices cfg syncTagIds rest s1
      (s2, ev1 ++ ev2)

/-- One subnet of the current address-space iteration: skipped when it has no
address, otherwise its prefix is upserted parented to the current network
prefix, then its devices are processed. -/
def processSubnet (cfg : SyncCfg) (syncTagIds vnetTags : List Nat)
    (subscription_name subscription_id vnetName : Str) (vnetPfxId : Nat)
    (sn : SubnetInfo) (s : NB) : NB × List Event :=
  match sn.address_pfx with
  | none => (s, [])   -- "Skipping subnet ... (no address_prefix)"
  | some c =>
      let d : PfxDefaults := subnetPfxDefaults vnetTags sn.name vnetName vnetPfxId
      let (_, s1, ev1) := get_or_create_pfx s c d subscription_name subscription_id []
      let (s2, ev2) := processDevices cfg syncTagIds sn.devices s1
      (s2, ev1 ++ ev2)

def processSubnets (cfg : SyncCfg) (syncTagIds vnetTags : List Nat)
    (subscription_name subscription_id vnetName : Str) (vnetPfxId : Nat)
    (sns : List SubnetInfo) (s : NB) : NB × List Event :=
  match sns with
  | [] => (s, [])
  | sn :: rest =>
      let (s1, ev1) := processSubnet cfg syncTagIds vnetTags subscription_name subscription_id
        vnetName vnetPfxId sn s
      let (s2, ev2) := processSubnets cfg syncTagIds vnetTags subscription_name subscription_id
        vnetName vnetPfxId rest s1
      (s2, ev1 ++ ev2)

/-- One `address_space` iteration: upsert the network prefix, then — nested
inside this very loop in the source — iterate all the vnet's subnets. -/
def processAS (cfg : SyncCfg) (syncTagIds vnetTags : List Nat)
    (subscription_name subscription_id : Str) (v : VNetInfo) (a : Cidr) (s : NB) :
    NB × List Event :=
  let d : PfxDefaults := vnetPfxDefaults vnetTags v.name subscription_id
  let (rc, s1, ev1) := get_or_create_pfx s a d subscription_name subscription_id []
  let (s2, ev2) := processSubnets cfg syncTagIds vnetTags subscription_name subscription_id
    v.name rc.1.id v.subnets s1
  (s2, ev1 ++ ev2)

def processASList (cfg : SyncCfg) (syncTagIds vnetTags : List Nat)
    (subscription_name subscription_id : Str) (v : VNetInfo) (las : List Cidr) (s : NB) :
    NB × List Event :=
  match las with
  | [] => (s, [])
  | a :: rest =>
      let (s1, ev1) := processAS cfg syncTagIds vnetTags subscription_name subscription_id v a s
      let (s2, ev2) := processASList cfg syncTagIds vnetTags subscription_name subscription_id
        v rest s1
      (s2, ev1 ++ ev2)

/-- One vnet: resolve the region tag, then iterate the address spaces. -/
def processVnet (cfg : SyncCfg) (syncTagIds subTags : List Nat)
    (subscription_name subscription_id : Str) (v : VNetInfo) (s : NB) : NB × List Event :=
  let (location_tag, s1, ev1) :=
    get_or_create_tag s (pyCapitalize (locSlugOf v.location)) (locSlugOf v.location)
      (str "Azure region: " ++ v.location)
  let vnetTags := subTags ++ [location_tag.id]
  let (s2, ev2) := processASList cfg syncTagIds vnetTags subscription_name subscription_id
    v v.address_space s1
  (s2, ev1 ++ ev2)

def processVnets (cfg : SyncCfg) (syncTagIds subTags : List Nat)
    (subscription_name subscription_id : Str) (vs : List VNetInfo) (s : NB) :
    NB × List Event :=
  match vs with
  | [] => (s, [])
  | v :: rest =>
      let (s1, ev1) := processVnet cfg syncTagIds subTags subscription_name subscription_id v s
      let (s2, ev2) := processVnets cfg syncTagIds subTags subscription_name subscription_id
        rest s1
      (s2, ev1 ++ ev2)

/-- Environment detection from the subscription display name, in the source's
fixed priority order. -/
def detect_env (subscription_name : Str) : Option Str :=
  let l := pyLower subscription_name
  if containsSub l (str "dev") then some (str "dev")
  else if containsSub l (str "hml") then some (str "hml")
  else if containsSub l (str "uat") then some (str "uat")
  else if containsSub l (str "prd") then some (str "prd")
  else none

def processSub (cfg : SyncCfg) (syncTagIds addTagIds : List Nat) (sub : SubData) (s : NB) :
    NB × List Event :=
  let (envTagIds, s1, ev1) :=
    match detect_env sub.subscription_name with
    | some sl =>
        let (t, s1, ev1) := get_or_create_tag s (pyUpper sl) sl (str "Environment: " ++ pyUpper sl)
        ([t.id], s1, ev1)
    | none => (([] : List Nat), s, ([] : List Event))
  let subTags := syncTagIds ++ addTagIds ++ envTagIds
  let (s2, ev2) := processVnets cfg syncTagIds subTags sub.subscription_name
    sub.subscription_id sub.vnets s1
  (s2, ev1 ++ ev2)

def processSubs (cfg : SyncCfg) (syncTagIds addTagIds : List Nat) (subs : List SubData)
    (s : NB) : NB × List Event :=
  match subs with
  | [] => (s, [])
  | sub :: rest =>
      let (s1, ev1) := processSub cfg syncTagIds addTagIds sub s
      let (s2, ev2) := processSubs cfg syncTagIds addTagIds rest s1
      (s2, ev1 ++ ev2)

def createAdditionalTags (s : NB) (slugs : List Str) : List Nat × NB × List Event :=
  match slugs with
  | [] => (([] : List Nat), s, ([] : List Event))
  | sl :: rest =>
      let (t, s1, ev1) := get_or_create_tag s (pyCapitalize sl) sl (str "Additional tag: " ++ sl)
      let (ids, s2, ev2) := createAdditionalTags s1 rest
      (t.id :: ids, s2, ev1 ++ ev2)

/-- `sync_to_netbox`: resolve the sync tag and the configured additional tags
once up front, then process every subscription. -/
def sync_to_netbox (topo : List SubData) (cfg : SyncCfg) (s : NB) : NB × List Event :=
  let (sync_tag, s1, ev1) :=
    get_or_create_tag s cfg.tags.sync_tag_name (slugOf cfg.tags.sync_tag_name)
      cfg.tags.sync_tag_description
  let (addTagIds, s2, ev2) := createAdditionalTags s1 cfg.tags.additional_tags
  let (s3, ev3) := processSubs cfg [sync_tag.id] addTagIds topo s2
  (s3, ev1 ++ ev2 ++ ev3)

/-! ### The filter pipeline (`apply_filters`) -/

def vnetPasses (f : FilterCfg) (v : VNetInfo) : Bool :=
  !(!f.regions_include.isEmpty && !(f.regions_include.contains v.location)) &&
  !(f.regions_exclude.contains v.location) &&
  !(!f.rg_include.isEmpty && !(f.rg_include.contains v.resource_group)) &&
  !(f.rg_exclude.contains v.resource_group) &&
  !(!f.name_include_patterns.isEmpty && !(f.name_include_patterns.any (fun p => p v.name))) &&
  !(f.name_exclude_patterns.any (fun p => p v.name))

def subnetPasses (f : FilterCfg) (sn : SubnetInfo) : Bool :=
  !(!f.name_include_patterns.isEmpty && !(f.name_include_patterns.any (fun p => p sn.name))) &&
  !(f.name_exclude_patterns.any (fun p => p sn.name))

/-- `apply_filters`: the per-vnet `continue` chain (region, resource group,
name), then subnet name filtering, dropping vnets with no surviving subnet. -/
def apply_filters (vnets : List VNetInfo) (f : FilterCfg) : List VNetInfo :=
  match vnets with
  | [] => []
  | v :: rest =>
      if vnetPasses f v then
        let fs := v.subnets.filter (subnetPasses f)
        if fs.isEmpty then apply_filters rest f
        else { v with subnets := fs } :: apply_filters rest f
      else apply_filters rest f

/-! ### The device name-collision retry, standalone -/

/-- One candidate of the retry: `f"{device_name}-{suffix}"`, re-truncated via
`device_name[:max_name_length - len(str(suffix)) - 1]` when over the maximum —
a Python slice whose bound may be negative. -/
def candidate (device_name : Str) (max_name_length : Nat) (n : Nat) : Str :=
  let u := device_name ++ '-' :: natStr n
  if max_name_length < u.length then
    pySliceTo device_name ((max_name_length : Int) - (natStr n).length - 1) ++ '-' :: natStr n
  else u

/-- The retry loop with explicit fuel: creation succeeds exactly when the
candidate name is not already taken in the site. -/
def retryAux (existing : List Str) (device_name : Str) (max_name_length : Nat) :
    Nat → Nat → Option (Str × Nat)
  | 0, _ => none
  | f + 1, n =>
      let c := candidate device_name max_name_length n
      if existing.contains c then retryAux existing device_name max_name_length f (n + 1)
      else some (c, n)

/-! ### The CSV-driven updater (`src/ips/netbox.py`) -/

structure CfRec where
  id : Nat
  cidr : Cidr
  list_available_ips : Option Str
deriving DecidableEq

structure RowCounters where
  updated : Nat
  skipped : Nat
  multi : Nat
  missing : Nat
deriving DecidableEq

/-- One CSV row of `update_list_available_ips`: find all records matching the
row's CIDR; no match → count missing; `--strict-unique` with a non-unique match
set → skip and count; otherwise write the summary to every match.  The summary
text itself (built with floats) is passed in opaquely. -/
def process_row (strict_unique dry_run : Bool) (summary : Str) (c : Cidr)
    (db : List CfRec) (k : RowCounters) : List CfRec × RowCounters :=
  let hits := db.filter (fun r => r.cidr == c)
  if hits.isEmpty then (db, { k with missing := k.missing + 1 })
  else if strict_unique && hits.length != 1 then (db, { k with skipped := k.skipped + 1 })
  else
    let db2 := if dry_run then db
      else db.map (fun r => if r.cidr == c then { r with list_available_ips := some summary } else r)
    let k2 := if dry_run then k else { k with updated := k.updated + hits.length }
    let k3 := if !strict_unique && decide (1 < hits.length) then
        { k2 with multi := k2.multi + 1 } else k2
    (db2, k3)

/-! ### Invariants for the second-run analysis -/

/-- Coverage: the tag slug resolves. -/
def CovTag (s : NB) (slug : Str) : Prop := (find1 (tagMatch slug) s.tags).isSome

/-- Coverage: some record for the CIDR exists. -/
def CovPfx (s : NB) (c : Cidr) : Prop := (find1 (pfxMatch c) s.pfxs).isSome

/-- Coverage of everything the device section of the loop reads. -/
def CovDevice (cfg : SyncCfg) (dev : DeviceInfo) (s : NB) : Prop :=
  (find1 (dtMatch (devTypeModel cfg dev)) s.device_types).isSome ∧
  (find1 (roleMatch (devRoleName cfg dev)) s.device_roles).isSome ∧
  ∃ st, find1 (siteMatch (devSiteName cfg dev)) s.sites = some st ∧
  ∃ d, find1 (devMatch (devName cfg dev) st.id) s.devices = some d ∧
  (find1 (ifMatch d.id cfg.mapping.default_interface) s.interfaces).isSome ∧
  (find1 (ipMatch dev.ip_address) s.ip_addresses).isSome

def CovSubnet (cfg : SyncCfg) (sn : SubnetInfo) (s : NB) : Prop :=
  (∀ c, sn.address_pfx = some c → CovPfx s c) ∧
  (sn.address_pfx ≠ none → ∀ dev ∈ sn.devices, CovDevice cfg dev s)

def CovVnet (cfg : SyncCfg) (v : VNetInfo) (s : NB) : Prop :=
  CovTag s (locSlugOf v.location) ∧
  (∀ a ∈ v.address_space, CovPfx s a) ∧
  (v.address_space ≠ [] → ∀ sn ∈ v.subnets, CovSubnet cfg sn s)

def CovSub (cfg : SyncCfg) (sub : SubData) (s : NB) : Prop :=
  (∀ sl, detect_env sub.subscription_name = some sl → CovTag s sl) ∧
  ∀ v ∈ sub.vnets, CovVnet cfg v s

def CovTopo (cfg : SyncCfg) (topo : List SubData) (s : NB) : Prop :=
  CovTag s (slugOf cfg.tags.sync_tag_name) ∧
  (∀ sl ∈ cfg.tags.additional_tags, CovTag s sl) ∧
  ∀ sub ∈ topo, CovSub cfg sub s

/-- How a stretch of the run evolves the state, as seen by the lookups:
resolved records of append-only collections stay resolved to the same record,
a prefix/address lookup that succeeds keeps succeeding, and prefix/address
records whose key is outside the stretch's touched sets (`tc`, `ti`) stay
resolved to the identical record. -/
structure KeepsL (s t : NB) (tc : List Cidr) (ti : List Nat) : Prop where
  tagsK : ∀ f : TagRec → Bool, ∀ x, find1 f s.tags = some x → find1 f t.tags = some x
  manusK : ∀ f : ManuRec → Bool, ∀ x, find1 f s.manufacturers = some x →
    find1 f t.manufacturers = some x
  dtsK : ∀ f : DtRec → Bool, ∀ x, find1 f s.device_types = some x →
    find1 f t.device_types = some x
  rolesK : ∀ f : RoleRec → Bool, ∀ x, find1 f s.device_roles = some x →
    find1 f t.device_roles = some x
  sitesK : ∀ f : SiteRec → Bool, ∀ x, find1 f s.sites = some x → find1 f t.sites = some x
  devsK : ∀ f : DevRec → Bool, ∀ x, find1 f s.devices = some x → find1 f t.devices = some x
  ifsK : ∀ f : IfRec → Bool, ∀ x, find1 f s.interfaces = some x →
    find1 f t.interfaces = some x
  pfxSome : ∀ c, (find1 (pfxMatch c) s.pfxs).isSome = true →
    (find1 (pfxMatch c) t.pfxs).isSome = true
  pfxEq : ∀ c, c ∉ tc → ∀ r, find1 (pfxMatch c) s.pfxs = some r →
    find1 (pfxMatch c) t.pfxs = some r
  ipSome : ∀ ip, (find1 (ipMatch ip) s.ip_addresses).isSome = true →
    (find1 (ipMatch ip) t.ip_addresses).isSome = true
  ipEq : ∀ ip, ip ∉ ti → ∀ r, find1 (ipMatch ip) s.ip_addresses = some r →
    find1 (ipMatch ip) t.ip_addresses = some r

/-- The found-path diff of the prefix upsert computes to "no change needed"
exactly when the first match conforms to the defaults (and, when the
subscription strings are non-empty, to the custom-field values). -/
def conformPfx (r : PfxRec) (d : PfxDefaults) (sn si : Str) : Prop :=
  r.description = d.description ∧ r.status = d.status ∧ r.tags = d.tags ∧
  (∀ pid, d.parent = some pid → r.parent = some pid) ∧
  (sn ≠ [] → si ≠ [] →
    r.custom_fields = ⟨some (azureSubVal sn si), some (azureSubUrl si)⟩)

/-- Exactness for one device: every lookup of the device section resolves and
the address record is already assigned to the resolved interface. -/
def ExactDevice (cfg : SyncCfg) (dev : DeviceInfo) (s : NB) : Prop :=
  (find1 (dtMatch (devTypeModel cfg dev)) s.device_types).isSome ∧
  (find1 (roleMatch (devRoleName cfg dev)) s.device_roles).isSome ∧
  ∃ st, find1 (siteMatch (devSiteName cfg dev)) s.sites = some st ∧
  ∃ d, find1 (devMatch (devName cfg dev) st.id) s.devices = some d ∧
  ∃ i, find1 (ifMatch d.id cfg.mapping.default_interface) s.interfaces = some i ∧
  ∃ r, find1 (ipMatch dev.ip_address) s.ip_addresses = some r ∧
    r.assigned_object_id = some i.id ∧ r.assigned_object_type = str "dcim.interface"

def ExactSubnet (cfg : SyncCfg) (vnetTags : List Nat) (sn si vnetName : Str) (pid : Nat)
    (snet : SubnetInfo) (s : NB) : Prop :=
  match snet.address_pfx with
  | none => True
  | some c =>
      ∃ r, find1 (pfxMatch c) s.pfxs = some r ∧
        conformPfx r (subnetPfxDefaults vnetTags snet.name vnetName pid) sn si ∧
        ∀ dev ∈ snet.devices, ExactDevice cfg dev s

def ExactAS (cfg : SyncCfg) (vnetTags : List Nat) (sn si : Str) (v : VNetInfo) (a : Cidr)
    (s : NB) : Prop :=
  ∃ r, find1 (pfxMatch a) s.pfxs = some r ∧
    conformPfx r (vnetPfxDefaults vnetTags v.name si) sn si ∧
    ∀ snet ∈ v.subnets, ExactSubnet cfg vnetTags sn si v.name r.id snet s

def ExactVnet (cfg : SyncCfg) (subTags : List Nat) (sn si : Str) (v : VNetInfo) (s : NB) :
    Prop :=
  ∃ t, find1 (tagMatch (locSlugOf v.location)) s.tags = some t ∧
    ∀ a ∈ v.address_space, ExactAS cfg (subTags ++ [t.id]) sn si v a s

/-- The environment tag ids the run resolves for a subscription name. -/
def envResolved (nm : Str) (s : NB) (ids : List Nat) : Prop :=
  match detect_env nm with
  | none => ids = []
  | some sl => ∃ t, find1 (tagMatch sl) s.tags = some t ∧ ids = [t.id]

def ExactSub (cfg : SyncCfg) (syncTagIds addTagIds : List Nat) (sub : SubData) (s : NB) :
    Prop :=
  ∃ envIds, envResolved sub.subscription_name s envIds ∧
    ∀ v ∈ sub.vnets,
      ExactVnet cfg (syncTagIds ++ addTagIds ++ envIds) sub.subscription_name
        sub.subscription_id v s

def addResolved (s : NB) (slugs : List Str) (ids : List Nat) : Prop :=
  match slugs, ids with
  | [], [] => True
  | sl :: rest, i :: irest =>
      (∃ t, find1 (tagMatch sl) s.tags = some t ∧ t.id = i) ∧ addResolved s rest irest
  | [], _ :: _ => False
  | _ :: _, [] => False

def ExactTopo (cfg : SyncCfg) (topo : List SubData) (s : NB) : Prop :=
  ∃ t0, find1 (tagMatch (slugOf cfg.tags.sync_tag_name)) s.tags = some t0 ∧
  ∃ addIds, addResolved s cfg.tags.additional_tags addIds ∧
  ∀ sub ∈ topo, ExactSub cfg [t0.id] addIds sub s

/-! ### Per-topology key collections and well-formedness hypotheses -/

def subnetCidrs (v : VNetInfo) : List Cidr := v.subnets.filterMap (fun sn => sn.address_pfx)

def vnetCidrs (v : VNetInfo) : List Cidr := v.address_space ++ subnetCidrs v

def topoCidrs (topo : List SubData) : List Cidr :=
  topo.flatMap (fun sub => sub.vnets.flatMap vnetCidrs)

def subnetIps (sn : SubnetInfo) : List Nat :=
  match sn.address_pfx with
  | none => []
  | some _ => sn.devices.map (fun d => d.ip_address)

def vnetIps (v : VNetInfo) : List Nat := v.subnets.flatMap subnetIps

def topoIps (topo : List SubData) : List Nat :=
  topo.flatMap (fun sub => sub.vnets.flatMap vnetIps)

/-- The distinctness conditions under which the second run is fully silent:
one address-space entry per network, pairwise-distinct CIDRs, pairwise-distinct
device IPs. -/
def GoodTopo (topo : List SubData) : Prop :=
  (∀ sub ∈ topo, ∀ v ∈ sub.vnets, v.address_space.length ≤ 1) ∧
  (topoCidrs topo).Nodup ∧ (topoIps topo).Nodup

/-- Every address-space entry of every network encloses every subnet CIDR of
that network (what Azure topology data provides for single-address-space
networks). -/
def WFEnclose (topo : List SubData) : Prop :=
  ∀ sub ∈ topo, ∀ v ∈ sub.vnets, ∀ a ∈ v.address_space, ∀ c ∈ subnetCidrs v,
    encloses a c = true

/-! ### Event counting -/

def isSubnetOpFor (c : Cidr) : Event → Bool
  | .pfxOp c2 _ (some _) _ _ => c2 == c
  | _ => false

def isVnetOpFor (c : Cidr) : Event → Bool
  | .pfxOp c2 _ none _ _ => c2 == c
  | _ => false

def countSubnetOps (c : Cidr) (ev : List Event) : Nat := (ev.filter (isSubnetOpFor c)).length

def countVnetOps (c : Cidr) (ev : List Event) : Nat := (ev.filter (isVnetOpFor c)).length

/-- The number of subnet-prefix upserts the engine performs for CIDR `c`:
once per address-space entry of the owning network, per occurrence. -/
def expSubnetOps (c : Cidr) (topo : List SubData) : Nat :=
  (topo.map (fun sub => (sub.vnets.map (fun v =>
    v.address_space.length * ((subnetCidrs v).countP (fun x => x == c)))).sum)).sum

def expVnetOps (c : Cidr) (topo : List SubData) : Nat :=
  (topo.map (fun sub => (sub.vnets.map (fun v =>
    v.address_space.countP (fun x => x == c))).sum)).sum

def isTagCreateFor (sl : Str) : Event → Bool
  | .tagCreate sl2 => sl2 == sl
  | _ => false

def isTagGetFor (sl : Str) : Event → Bool
  | .tagGet sl2 _ => sl2 == sl
  | _ => false

def countTagCreates (sl : Str) (ev : List Event) : Nat := (ev.filter (isTagCreateFor sl)).length

def countTagGets (sl : Str) (ev : List Event) : Nat := (ev.filter (isTagGetFor sl)).length

/-- Every subnet-prefix event is preceded by the network-prefix event whose
result id it references as parent, with `W` relating the two CIDRs. -/
def ParentLinked (W : Cidr → Cidr → Prop) (ev : List Event) : Prop :=
  ∀ i, ∀ h : i < ev.length, ∀ c rid pid cr up,
    ev.get ⟨i, h⟩ = Event.pfxOp c rid (some pid) cr up →
    ∃ j, j < i ∧ ∃ h2 : j < ev.length, ∃ c2 cr2 up2,
      ev.get ⟨j, h2⟩ = Event.pfxOp c2 pid none cr2 up2 ∧ W c2 c

/-- At most one address record per IP value. -/
def AtMostOnePerIp (l : List IpRec) : Prop := ∀ ip, l.countP (ipMatch ip) ≤ 1

/-! ### Concrete inputs for witnesses and counterexamples -/

def exCfg : SyncCfg :=
  { mapping :=
      { device_type_pfx := str "Azure", device_role_pfx := str "Azure",
        site_pfx := str "Azure-", manufacturer := str "Microsoft Azure",
        default_interface := str "eth0", max_name_length := 10 },
    tags := { sync_tag_name := str "azure-sync",
              sync_tag_description := str "Synced from Azure",
              additional_tags := [] } }

def cidrA : Cidr := ⟨167772160, 16⟩      -- 10.0.0.0/16
def cidrB : Cidr := ⟨3232235520, 16⟩     -- 192.168.0.0/16
def cidrS : Cidr := ⟨167772416, 24⟩      -- 10.0.1.0/24

def exDev : DeviceInfo :=
  { name := str "test-vm", kind := DevKind.vm, ip_address := 167772165,
    mac_address := some (str "00:11:22:33:44:55"), location := str "westeurope" }

/-- One subscription, one vnet with two address-space entries and one subnet:
the nested loops process the subnet once per address-space entry. -/
def exTopoTwoAS : List SubData :=
  [{ subscription_id := str "sub-1", subscription_name := str "corp-dev",
     vnets := [{ name := str "vnet1", resource_group := str "rg1",
                 location := str "westeurope", address_space := [cidrA, cidrB],
                 subnets := [{ name := str "subnet1", address_pfx := some cidrS,
                               devices := [] }] }] }]

/-- A well-behaved topology: one address space, distinct CIDRs, one device. -/
def exTopoGood : List SubData :=
  [{ subscription_id := str "sub-1", subscription_name := str "corp-dev",
     vnets := [{ name := str "vnet1", resource_group := str "rg1",
                 location := str "westeurope", address_space := [cidrA],
                 subnets := [{ name := str "subnet1", address_pfx := some cidrS,
                               devices := [exDev] }] }] }]

/-- Two vnets in the same region: the region tag is resolved once per vnet. -/
def exTopoTwoLoc : List SubData :=
  [{ subscription_id := str "sub-1", subscription_name := str "corp-dev",
     vnets := [{ name := str "vnet1", resource_group := str "rg1",
                 location := str "westeurope", address_space := [],
                 subnets := [] },
               { name := str "vnet2", resource_group := str "rg1",
                 location := str "westeurope", address_space := [],
                 subnets := [] }] }]

/-- A state holding two stale records for the same CIDR. -/
def exStaleRec1 : PfxRec :=
  ⟨100, cidrA, str "reserved", str "old one", [], none, ⟨none, none⟩⟩

def exStaleRec2 : PfxRec :=
  ⟨101, cidrA, str "reserved", str "old two", [], none, ⟨none, none⟩⟩

def exStateDup : NB :=
  { NB.empty with pfxs := [exStaleRec1, exStaleRec2], next_id := 200 }

def exRowDb : List CfRec :=
  [⟨1, cidrA, none⟩, ⟨2, cidrA, none⟩, ⟨3, cidrB, none⟩]

/-! ### Support definitions for the proofs -/

def digitVal (ch : Char) : Nat := ch.toNat - 48

def strToNat (s : Str) : Nat := s.foldl (fun a ch => a * 10 + digitVal ch) 0

def isDigitCh (ch : Char) : Bool := decide (48 ≤ ch.toNat) && decide (ch.toNat ≤ 57)

/-- Nine pre-existing device names that force the retry's suffix to two
digits while the maximum length is 2. -/
def exTaken : List Str :=
  [str "-1", str "-2", str "-3", str "-4", str "-5", str "-6", str "-7",
   str "-8", str "-9"]

/-- Events of the device section: neither prefix operations nor tag
operations. -/
def devEvOk (e : Event) : Bool := !e.isPfxOp && !e.isTagEv

/-- Remaining creation allowance for a tag slug: 0 once a record with the slug
exists, 1 before. -/
def mTag (sl : Str) (s : NB) : Nat :=
  if (find1 (tagMatch sl) s.tags).isSome then 0 else 1

/-! ## Lemma kit for `findSplit` / `find1` -/

theorem findSplit_eq_some {α : Type _} {f : α → Bool} {l p : List α} {r : α} {q : List α}
    (h : findSplit f l = some (p, r, q)) :
    l = p ++ r :: q ∧ f r = true ∧ ∀ x ∈ p, f x = false := by
  induction l generalizing p with
  | nil => simp [findSplit] at h
  | cons a as ih =>
    rw [findSplit] at h
    by_cases ha : f a
    · rw [if_pos ha, Option.some.injEq] at h
      simp only [Prod.mk.injEq] at h
      obtain ⟨rfl, rfl, rfl⟩ := h
      exact ⟨rfl, ha, by simp⟩
    · rw [if_neg ha, Option.map_eq_some'] at h
      obtain ⟨⟨p2, r2, q2⟩, hfs, hg⟩ := h
      simp only [Prod.mk.injEq] at hg
      obtain ⟨rfl, rfl, rfl⟩ := hg
      obtain ⟨hl, hr, hp⟩ := ih hfs
      refine ⟨by rw [hl]; rfl, hr, ?_⟩
      intro x hx
      rcases List.mem_cons.mp hx with h | h
      · subst h; exact Bool.of_not_eq_true ha ▸ by simp [ha]
      · exact hp x h

theorem findSplit_eq_none {α : Type _} {f : α → Bool} {l : List α}
    (h : findSplit f l = none) : ∀ x ∈ l, f x = false := by
  induction l with
  | nil => simp
  | cons a as ih =>
    rw [findSplit] at h
    by_cases ha : f a
    · rw [if_pos ha] at h; exact absurd h (by simp)
    · rw [if_neg ha, Option.map_eq_none'] at h
      intro x hx
      rcases List.mem_cons.mp hx with hx | hx
      · subst hx; simpa using ha
      · exact ih h x hx

theorem findSplit_of_forall_neg {α : Type _} {f : α → Bool} {l : List α}
    (h : ∀ x ∈ l, f x = false) : findSplit f l = none := by
  induction l with
  | nil => rfl
  | cons a as ih =>
    rw [findSplit, if_neg (by simp [h a (by simp)]), ih (fun x hx => h x (by simp [hx]))]
    rfl

theorem find1_of_split {α : Type _} {f : α → Bool} {l p : List α} {r : α} {q : List α}
    (h : findSplit f l = some (p, r, q)) : find1 f l = some r := by
  rw [find1, h]; rfl

theorem find1_eq_none {α : Type _} {f : α → Bool} {l : List α} :
    find1 f l = none ↔ findSplit f l = none := by
  rw [find1, Option.map_eq_none']

theorem find1_eq_some {α : Type _} {f : α → Bool} {l : List α} {x : α}
    (h : find1 f l = some x) : ∃ p q, findSplit f l = some (p, x, q) := by
  rw [find1, Option.map_eq_some'] at h
  obtain ⟨⟨p, r, q⟩, hfs, hg⟩ := h
  exact ⟨p, q, by rw [hfs]; cases hg; rfl⟩

theorem findSplit_append_some {α : Type _} {f : α → Bool} {l m p : List α} {r : α}
    {q : List α} (h : findSplit f l = some (p, r, q)) :
    findSplit f (l ++ m) = some (p, r, q ++ m) := by
  induction l generalizing p with
  | nil => simp [findSplit] at h
  | cons a as ih =>
    rw [findSplit] at h
    by_cases ha : f a
    · rw [if_pos ha, Option.some.injEq] at h
      simp only [Prod.mk.injEq] at h
      obtain ⟨rfl, rfl, rfl⟩ := h
      simp [findSplit, ha]
    · rw [if_neg ha, Option.map_eq_some'] at h
      obtain ⟨⟨p2, r2, q2⟩, hfs, hg⟩ := h
      simp only [Prod.mk.injEq] at hg
      obtain ⟨rfl, rfl, rfl⟩ := hg
      rw [List.cons_append, findSplit, if_neg ha, ih hfs]
      rfl

theorem find1_append_some {α : Type _} {f : α → Bool} {l m : List α} {x : α}
    (h : find1 f l = some x) : find1 f (l ++ m) = some x := by
  obtain ⟨p, q, hs⟩ := find1_eq_some h
  exact find1_of_split (findSplit_append_some hs)

theorem findSplit_append_none {α : Type _} {f : α → Bool} {l m : List α}
    (h : findSplit f l = none) :
    findSplit f (l ++ m) = (findSplit f m).map (fun pq => (l ++ pq.1, pq.2.1, pq.2.2)) := by
  induction l with
  | nil =>
    simp only [List.nil_append]
    cases findSplit f m <;> simp
  | cons a as ih =>
    rw [findSplit] at h
    by_cases ha : f a
    · rw [if_pos ha] at h; exact absurd h (by simp)
    · rw [if_neg ha, Option.map_eq_none'] at h
      rw [List.cons_append, findSplit, if_neg ha, ih h]
      cases findSplit f m <;> simp

theorem find1_append_none {α : Type _} {f : α → Bool} {l m : List α}
    (h : find1 f l = none) : find1 f (l ++ m) = find1 f m := by
  rw [find1_eq_none] at h
  rw [find1, findSplit_append_none h, find1]
  cases findSplit f m <;> simp

theorem find1_cons {α : Type _} {f : α → Bool} {a : α} {l : List α} :
    find1 f (a :: l) = if f a then some a else find1 f l := by
  rw [find1, findSplit]
  by_cases ha : f a
  · rw [if_pos ha, if_pos ha]; rfl
  · rw [if_neg ha, if_neg ha, find1, Option.map_map]
    cases findSplit f l <;> rfl

/-- Replacing a non-matching element by a non-matching element does not change
the first match. -/
theorem find1_replace_mid {α : Type _} {f : α → Bool} {p q : List α} {y y2 : α}
    (hy : f y = false) (hy2 : f y2 = false) :
    find1 f (p ++ y2 :: q) = find1 f (p ++ y :: q) := by
  induction p with
  | nil =>
      simp only [List.nil_append]
      rw [find1_cons, find1_cons, if_neg (by simp [hy2]), if_neg (by simp [hy])]
  | cons a as ih =>
      simp only [List.cons_append]
      rw [find1_cons, find1_cons]
      by_cases ha : f a
      · rw [if_pos ha, if_pos ha]
      · rw [if_neg ha, if_neg ha, ih]

/-- Replacing the first match by another matching element makes it the first
match. -/
theorem find1_replace_hd {α : Type _} {f : α → Bool} {p q : List α} {y2 : α}
    (hp : ∀ x ∈ p, f x = false) (hy2 : f y2 = true) :
    find1 f (p ++ y2 :: q) = some y2 := by
  have hsplit : findSplit f (p ++ y2 :: q) = some (p, y2, q) := by
    rw [findSplit_append_none (findSplit_of_forall_neg hp)]
    simp [findSplit, hy2]
  exact find1_of_split hsplit

theorem find1_isSome_iff {α : Type _} {f : α → Bool} {l : List α} :
    (find1 f l).isSome = true ↔ ∃ x ∈ l, f x = true := by
  constructor
  · intro h
    obtain ⟨x, hx⟩ := Option.isSome_iff_exists.mp h
    obtain ⟨p, q, hs⟩ := find1_eq_some hx
    obtain ⟨hl, hr, _⟩ := findSplit_eq_some hs
    exact ⟨x, by rw [hl]; simp, hr⟩
  · intro ⟨x, hx, hfx⟩
    cases hopt : find1 f l with
    | some y => simp
    | none =>
        rw [find1_eq_none] at hopt
        exact absurd (findSplit_eq_none hopt x hx) (by simp [hfx])

/-! ## C7: order of the truncation rules -/

theorem takeWhile_of_no_dot {l : Str} (h : l.contains '.' = false) :
    l.takeWhile (fun c => decide (c ≠ '.')) = l := by
  induction l with
  | nil => rfl
  | cons a as ih =>
      rw [List.contains_cons] at h
      rw [Bool.or_eq_false_iff] at h
      rw [List.takeWhile_cons]
      have ha : a ≠ '.' := by
        intro hc; subst hc; simp at h
      rw [if_pos (by simp [ha]), ih h.2]

/-- C7: `truncate_name` applies the decimal-point rule before the length rule —
for every name it equals "drop from the first dot, then hard-truncate", and on
"server01.internal.example" with maximum length 10 it yields "server01". -/
theorem C7_truncate_decimal_before_length :
    (∀ (name : Str) (max_length : Nat),
      truncate_name name max_length = truncate_name_spec name max_length) ∧
    truncate_name (str "server01.internal.example") 10 = str "server01" := by
  constructor
  · intro name ml
    unfold truncate_name truncate_name_spec
    by_cases hc : name.contains '.'
    · rw [if_pos hc]
      by_cases hl : ml < (name.takeWhile (fun c => decide (c ≠ '.'))).length
      · rw [if_pos hl]
      · rw [if_neg hl, List.take_of_length_le (Nat.le_of_not_lt hl)]
    · rw [if_neg hc, takeWhile_of_no_dot (Bool.of_not_eq_true hc ▸ rfl)]
      by_cases hl : ml < name.length
      · rw [if_pos hl]
      · rw [if_neg hl, List.take_of_length_le (Nat.le_of_not_lt hl)]
  · decide

/-! ## C9: excluded regions are dropped entirely -/

theorem vnetPasses_not_excluded {f : FilterCfg} {v : VNetInfo}
    (h : vnetPasses f v = true) : f.regions_exclude.contains v.location = false := by
  unfold vnetPasses at h
  simp only [Bool.and_eq_true] at h
  have h2 := h.1.1.1.1.2
  simpa using h2

/-- C9: a network whose region is in the exclude set is absent from the
filtered topology together with all its subnets, regardless of the name
patterns: every surviving vnet has a non-excluded region, and erasing the
excluded vnets from the input does not change the output at all. -/
theorem C9_region_exclude_dropped (f : FilterCfg) (vnets : List VNetInfo) :
    (∀ w ∈ apply_filters vnets f, f.regions_exclude.contains w.location = false) ∧
    apply_filters vnets f =
      apply_filters (vnets.filter (fun v => !(f.regions_exclude.contains v.location))) f := by
  induction vnets with
  | nil => exact ⟨by simp [apply_filters], rfl⟩
  | cons v rest ih =>
      constructor
      · intro w hw
        rw [apply_filters] at hw
        by_cases hp : vnetPasses f v
        · rw [if_pos hp] at hw
          by_cases hfs : (v.subnets.filter (subnetPasses f)).isEmpty
          · rw [if_pos hfs] at hw; exact ih.1 w hw
          · rw [if_neg hfs] at hw
            rcases List.mem_cons.mp hw with hw | hw
            · subst hw; exact vnetPasses_not_excluded hp
            · exact ih.1 w hw
        · rw [if_neg hp] at hw; exact ih.1 w hw
      · by_cases hex : f.regions_exclude.contains v.location
        · have hp : vnetPasses f v = false := by
            cases hvp : vnetPasses f v with
            | false => rfl
            | true => exact absurd (vnetPasses_not_excluded hvp) (by simpa using hex)
          rw [List.filter_cons, if_neg (by simpa using hex), apply_filters,
            if_neg (by simp [hp])]
          exact ih.2
        · rw [List.filter_cons, if_pos (by simpa using hex)]
          rw [apply_filters, apply_filters]
          by_cases hp : vnetPasses f v
          · rw [if_pos hp, if_pos hp]
            by_cases hfs : (v.subnets.filter (subnetPasses f)).isEmpty
            · rw [if_pos hfs, if_pos hfs]; exact ih.2
            · rw [if_neg hfs, if_neg hfs, ih.2]
          · rw [if_neg hp, if_neg hp]; exact ih.2

/-! ## C6: duplicate-prefix create failure is recovered -/

/-- C6: when the lookup finds no match but a concurrent writer has inserted a
matching record before the create, the create's duplicate-key failure is
recovered by the re-query: the upsert returns the now-existing record with
created = false instead of propagating the error. -/
theorem C6_duplicate_create_recovered (s : NB) (c : Cidr) (d : PfxDefaults)
    (sn si : Str) (interf : List PfxRec)
    (hmiss : find1 (pfxMatch c) s.pfxs = none)
    (hdup : ∃ r ∈ interf, pfxMatch c r = true) :
    ∃ r, (get_or_create_pfx s c d sn si interf).1 = (r, false) ∧ r.cidr = c ∧
      (get_or_create_pfx s c d sn si interf).2.2 =
        [Event.pfxOp c r.id d.parent false false] := by
  rw [find1_eq_none] at hmiss
  obtain ⟨x, hx, hfx⟩ := hdup
  have hsome : (find1 (pfxMatch c) (s.pfxs ++ interf)).isSome = true := by
    rw [find1_isSome_iff]
    exact ⟨x, by simp [hx], hfx⟩
  obtain ⟨r, hr⟩ := Option.isSome_iff_exists.mp hsome
  obtain ⟨p2, q2, hsplit2⟩ := find1_eq_some hr
  have hcid : r.cidr = c := by
    have := (findSplit_eq_some hsplit2).2.1
    rw [pfxMatch] at this
    exact eq_of_beq this
  refine ⟨r, ?_, hcid, ?_⟩ <;>
    · unfold get_or_create_pfx
      rw [hmiss]
      simp only
      rw [hsplit2]

theorem C6_witness :
    ∃ r, (get_or_create_pfx NB.empty cidrA ⟨str "d", str "active", [], none⟩
        (str "corp") (str "sub-1") [exStaleRec1]).1 = (r, false) ∧ r.cidr = cidrA ∧
      (get_or_create_pfx NB.empty cidrA ⟨str "d", str "active", [], none⟩
        (str "corp") (str "sub-1") [exStaleRec1]).2.2 =
        [Event.pfxOp cidrA r.id none false false] :=
  C6_duplicate_create_recovered NB.empty cidrA ⟨str "d", str "active", [], none⟩
    (str "corp") (str "sub-1") [exStaleRec1] (by decide)
    ⟨exStaleRec1, by decide, by decide⟩

/-! ## C5: multiple matches — engine vs. CSV updater -/

/-- C5 counterexample: with two pre-existing records for the same CIDR and
differing attributes, the engine's prefix upsert leaves the second record
untouched (stale) — it does not update all of them, and it has no stricter
mode. -/
theorem C5_counterexample :
    (get_or_create_pfx exStateDup cidrA
        ⟨str "new desc", str "active", [], none⟩ (str "corp") (str "sub-1") []).2.1.pfxs =
      [(get_or_create_pfx exStateDup cidrA
        ⟨str "new desc", str "active", [], none⟩ (str "corp") (str "sub-1") []).1.1,
       exStaleRec2] ∧
    exStaleRec2.description ≠ str "new desc" := by
  constructor
  · decide
  · decide

/-- C5 amended: when several records exist for the same CIDR, the engine's
upsert diffs and saves only the first match (everything before and after the
first match is untouched); updating every match is done by the separate CSV
updater of `ips/netbox.py`, which, under `--strict-unique`, instead skips the
non-unique CIDR and counts it separately. -/
theorem C5_first_match_only_tool_updates_all (s : NB) (c : Cidr) (d : PfxDefaults)
    (sn si : Str) (p q : List PfxRec) (r : PfxRec)
    (hs : findSplit (pfxMatch c) s.pfxs = some (p, r, q))
    (summary : Str) (db : List CfRec) (k : RowCounters)
    (hne : (db.filter (fun x => x.cidr == c)).isEmpty = false)
    (hlen : (db.filter (fun x => x.cidr == c)).length ≠ 1) :
    (∃ r2, (get_or_create_pfx s c d sn si []).2.1.pfxs = p ++ r2 :: q) ∧
    (process_row false false summary c db k).1 =
      db.map (fun x => if x.cidr == c then { x with list_available_ips := some summary }
        else x) ∧
    process_row true false summary c db k = (db, { k with skipped := k.skipped + 1 }) := by
  refine ⟨?_, ?_, ?_⟩
  · unfold get_or_create_pfx
    rw [hs]
    simp only
    by_cases hneeds : pfxNeeds r d sn si = true
    · rw [if_pos hneeds]
      exact ⟨_, rfl⟩
    · rw [if_neg hneeds]
      exact ⟨r, (findSplit_eq_some hs).1⟩
  · unfold process_row
    rw [if_neg (by simp [hne])]
    simp only [Bool.false_and, Bool.not_false, Bool.true_and]
    rfl
  · unfold process_row
    rw [if_neg (by simp [hne]), if_pos (by simp [hlen])]

theorem C5_witness :
    (∃ r2, (get_or_create_pfx exStateDup cidrA
        ⟨str "new desc", str "active", [], none⟩ (str "corp") (str "sub-1") []).2.1.pfxs =
      [] ++ r2 :: [exStaleRec2]) ∧
    (process_row false false (str "summary") cidrA exRowDb
        ⟨0, 0, 0, 0⟩).1 =
      exRowDb.map (fun x => if x.cidr == cidrA then
        { x with list_available_ips := some (str "summary") } else x) ∧
    process_row true false (str "summary") cidrA exRowDb ⟨0, 0, 0, 0⟩ =
      (exRowDb, { (⟨0, 0, 0, 0⟩ : RowCounters) with skipped := 0 + 1 }) :=
  C5_first_match_only_tool_updates_all exStateDup cidrA
    ⟨str "new desc", str "active", [], none⟩ (str "corp") (str "sub-1")
    [] [exStaleRec2] exStaleRec1 (by decide) (str "summary") exRowDb ⟨0, 0, 0, 0⟩
    (by decide) (by decide)

/-! ## C8: the name-collision retry -/

theorem strToNat_append_digit (l : Str) (ch : Char) :
    strToNat (l ++ [ch]) = strToNat l * 10 + digitVal ch := by
  unfold strToNat
  rw [List.foldl_append]
  rfl

theorem digitVal_digitChar {d : Nat} (hd : d < 10) : digitVal (digitChar d) = d := by
  interval_cases d <;> decide

theorem strToNat_natStrAux {f n : Nat} (hn : n ≤ f) : strToNat (natStrAux f n) = n := by
  induction f generalizing n with
  | zero =>
      interval_cases n
      rfl
  | succ f ih =>
      cases n with
      | zero => rfl
      | succ m =>
          rw [natStrAux, strToNat_append_digit,
            ih (by omega : (m + 1) / 10 ≤ f),
            digitVal_digitChar (Nat.mod_lt _ (by norm_num))]
          omega

theorem strToNat_natStr (n : Nat) : strToNat (natStr n) = n := by
  unfold natStr
  by_cases h : n = 0
  · subst h; decide
  · rw [if_neg h]
    exact strToNat_natStrAux (Nat.le_refl n)

theorem natStr_inj {a b : Nat} (h : natStr a = natStr b) : a = b := by
  rw [← strToNat_natStr a, h, strToNat_natStr]

theorem digitChar_isDigit {d : Nat} (hd : d < 10) : isDigitCh (digitChar d) = true := by
  interval_cases d <;> decide

theorem natStrAux_digits {f n : Nat} : ∀ ch ∈ natStrAux f n, isDigitCh ch = true := by
  induction f generalizing n with
  | zero => simp [natStrAux]
  | succ f ih =>
      cases n with
      | zero => simp [natStrAux]
      | succ m =>
          rw [natStrAux]
          intro ch hch
          rcases List.mem_append.mp hch with h | h
          · exact ih ch h
          · rw [List.mem_singleton] at h
            subst h
            exact digitChar_isDigit (Nat.mod_lt _ (by norm_num))

theorem natStr_digits {n : Nat} : ∀ ch ∈ natStr n, isDigitCh ch = true := by
  unfold natStr
  by_cases h : n = 0
  · subst h
    intro ch hch
    simp at hch
    subst hch
    decide
  · rw [if_neg h]; exact natStrAux_digits

theorem takeWhile_append_stop {p : Char → Bool} {xs : Str} {y : Char} {rest : Str}
    (hxs : ∀ x ∈ xs, p x = true) (hy : p y = false) :
    (xs ++ y :: rest).takeWhile p = xs := by
  induction xs with
  | nil => simp [List.takeWhile_cons, hy]
  | cons a as ih =>
      rw [List.cons_append, List.takeWhile_cons, if_pos (hxs a (by simp)),
        ih (fun x hx => hxs x (by simp [hx]))]

theorem candidate_decomp (base : Str) (ml n : Nat) :
    ∃ pre, candidate base ml n = pre ++ '-' :: natStr n := by
  unfold candidate
  by_cases h : ml < (base ++ '-' :: natStr n).length
  · rw [if_pos h]; exact ⟨_, rfl⟩
  · rw [if_neg h]; exact ⟨base, rfl⟩

theorem candidate_inj {base : Str} {ml : Nat} {a b : Nat}
    (h : candidate base ml a = candidate base ml b) : a = b := by
  obtain ⟨p1, h1⟩ := candidate_decomp base ml a
  obtain ⟨p2, h2⟩ := candidate_decomp base ml b
  rw [h1, h2] at h
  have hrev := congrArg List.reverse h
  rw [List.reverse_append, List.reverse_append, List.reverse_cons, List.reverse_cons] at hrev
  rw [List.append_assoc, List.append_assoc] at hrev
  have hta : ((natStr a).reverse ++ ('-' :: p1.reverse)).takeWhile isDigitCh
      = (natStr a).reverse :=
    takeWhile_append_stop (fun x hx => natStr_digits x (List.mem_reverse.mp hx)) (by decide)
  have htb : ((natStr b).reverse ++ ('-' :: p2.reverse)).takeWhile isDigitCh
      = (natStr b).reverse :=
    takeWhile_append_stop (fun x hx => natStr_digits x (List.mem_reverse.mp hx)) (by decide)
  have : (natStr a).reverse = (natStr b).reverse := by
    rw [← hta, ← htb]
    simp only [List.singleton_append] at hrev
    rw [hrev]
  exact natStr_inj (List.reverse_injective this)

theorem exists_fresh_candidate (existing : List Str) (base : Str) (ml : Nat) :
    ∃ n, 1 ≤ n ∧ n ≤ existing.length + 1 ∧ candidate base ml n ∉ existing := by
  by_contra hcon
  push_neg at hcon
  have hmaps : ∀ n ∈ Finset.Icc 1 (existing.length + 1),
      candidate base ml n ∈ existing.toFinset := by
    intro n hn
    rw [Finset.mem_Icc] at hn
    rw [List.mem_toFinset]
    exact hcon n hn.1 hn.2
  have hinj : Set.InjOn (candidate base ml) (Finset.Icc 1 (existing.length + 1)) :=
    fun x _ y _ hxy => candidate_inj hxy
  have hcard := Finset.card_le_card_of_injOn (candidate base ml) hmaps hinj
  rw [Nat.card_Icc] at hcard
  have htf := existing.toFinset_card_le
  omega

theorem retryAux_reaches {existing : List Str} {base : Str} {ml : Nat} :
    ∀ fuel start, (∃ n, start ≤ n ∧ n < start + fuel ∧ candidate base ml n ∉ existing) →
    ∃ res, retryAux existing base ml fuel start = some res := by
  intro fuel
  induction fuel with
  | zero =>
      intro start ⟨n, h1, h2, _⟩
      omega
  | succ f ih =>
      intro start ⟨n, h1, h2, h3⟩
      rw [retryAux]
      by_cases hc : existing.contains (candidate base ml start)
      · simp only [hc, if_true]
        apply ih
        have hne : n ≠ start := by
          intro he
          subst he
          exact h3 (by simpa using hc)
        exact ⟨n, by omega, by omega, h3⟩
      · simp only [hc, if_false]
        exact ⟨_, rfl⟩

/-- C8 amended: the retry terminates for every finite set of existing names
(fuel `|existing| + 1` suffices starting from suffix 1), and a tried candidate
respects the maximum length whenever the maximum leaves room for the dash and
the suffix digits; when `max_name_length < len(str(suffix)) + 1` the source's
negative-slice re-truncation can produce a candidate longer than the maximum
(see the counterexample). -/
theorem C8_retry_terminates (existing : List Str) (device_name : Str) (ml : Nat) :
    (∃ res, retryAux existing device_name ml (existing.length + 1) 1 = some res) ∧
    (∀ n, (natStr n).length + 1 ≤ ml → (candidate device_name ml n).length ≤ ml) := by
  constructor
  · obtain ⟨n, h1, h2, h3⟩ := exists_fresh_candidate existing device_name ml
    exact retryAux_reaches (existing.length + 1) 1 ⟨n, h1, by omega, h3⟩
  · intro n hn
    unfold candidate
    by_cases h : ml < (device_name ++ '-' :: natStr n).length
    · rw [if_pos h]
      have hk : (0 : Int) ≤ (ml : Int) - (natStr n).length - 1 := by
        omega
      rw [pySliceTo, if_pos hk]
      rw [List.length_append, List.length_cons, List.length_take]
      have : ((ml : Int) - (natStr n).length - 1).toNat = ml - (natStr n).length - 1 := by
        omega
      rw [this]
      omega
    · rw [if_neg h]
      omega

theorem C8_witness :
    (natStr 3).length + 1 ≤ 5 ∧ (candidate (str "ab") 5 3).length ≤ 5 ∧
    ∃ res, retryAux [] (str "ab") 5 (List.length ([] : List Str) + 1) 1 = some res :=
  ⟨by decide, (C8_retry_terminates [] (str "ab") 5).2 3 (by decide),
    (C8_retry_terminates [] (str "ab") 5).1⟩

/-- C8 counterexample: with `max_name_length = 2`, base name "ab" and the nine
names "-1" … "-9" already taken, the retry succeeds at suffix 10 with the name
"a-10" of length 4, exceeding the configured maximum — the re-truncation slice
bound `2 - len("10") - 1` is negative and Python keeps most of the base. -/
theorem C8_counterexample :
    retryAux exTaken (str "ab") 2 (exTaken.length + 1) 1 = some (str "a-10", 10) ∧
    2 < (str "a-10").length := by
  constructor
  · decide
  · decide

/-! ## Case-analysis lemmas for the primitive operations -/

theorem tag_spec (s : NB) (n sl d : Str) :
    (∃ t, find1 (tagMatch sl) s.tags = some t ∧
      get_or_create_tag s n sl d = (t, s, [Event.tagGet sl true])) ∨
    (find1 (tagMatch sl) s.tags = none ∧
      get_or_create_tag s n sl d =
        (⟨s.next_id, n, sl, d⟩,
         { s with tags := s.tags ++ [⟨s.next_id, n, sl, d⟩], next_id := s.next_id + 1 },
         [Event.tagGet sl false, Event.tagCreate sl])) := by
  cases h : find1 (tagMatch sl) s.tags with
  | some t =>
      left
      exact ⟨t, rfl, by unfold get_or_create_tag; rw [h]⟩
  | none =>
      right
      exact ⟨rfl, by unfold get_or_create_tag; rw [h]⟩

theorem pfx_spec (s : NB) (c : Cidr) (d : PfxDefaults) (sn si : Str) :
    (∃ p r q, findSplit (pfxMatch c) s.pfxs = some (p, r, q) ∧ pfxNeeds r d sn si = true ∧
      get_or_create_pfx s c d sn si [] =
        ((pfxApply r d sn si, false), { s with pfxs := p ++ pfxApply r d sn si :: q },
         [Event.pfxOp c (pfxApply r d sn si).id d.parent false true])) ∨
    (∃ p r q, findSplit (pfxMatch c) s.pfxs = some (p, r, q) ∧ pfxNeeds r d sn si = false ∧
      get_or_create_pfx s c d sn si [] =
        ((pfxApply r d sn si, false), s,
         [Event.pfxOp c (pfxApply r d sn si).id d.parent false false])) ∨
    (findSplit (pfxMatch c) s.pfxs = none ∧
      get_or_create_pfx s c d sn si [] =
        ((pfxNew s.next_id c d sn si, true),
         { s with pfxs := s.pfxs ++ [pfxNew s.next_id c d sn si],
                  next_id := s.next_id + 1 },
         [Event.pfxOp c (pfxNew s.next_id c d sn si).id d.parent true false])) := by
  cases h : findSplit (pfxMatch c) s.pfxs with
  | some prq =>
      obtain ⟨p, r, q⟩ := prq
      by_cases hn : pfxNeeds r d sn si = true
      · left
        refine ⟨p, r, q, rfl, hn, ?_⟩
        unfold get_or_create_pfx
        rw [h]
        dsimp only
        rw [if_pos hn]
      · right; left
        refine ⟨p, r, q, rfl, by simpa using hn, ?_⟩
        unfold get_or_create_pfx
        rw [h]
        dsimp only
        rw [if_neg hn]
  | none =>
      right; right
      refine ⟨rfl, ?_⟩
      unfold get_or_create_pfx
      rw [h]
      dsimp only
      simp only [List.append_nil]
      rw [h]

theorem dt_spec (s : NB) (model manu : Str) (ids : List Nat) :
    (∃ dt, find1 (dtMatch model) s.device_types = some dt ∧
      get_or_create_device_type s model manu ids = (dt, s, [Event.dtOp model false])) ∨
    (find1 (dtMatch model) s.device_types = none ∧
      ∃ dt dm nid b, dtMatch model dt = true ∧
        get_or_create_device_type s model manu ids =
          (dt, { s with manufacturers := s.manufacturers ++ dm,
                        device_types := s.device_types ++ [dt], next_id := nid },
           [Event.manuOp manu b, Event.dtOp model true])) := by
  cases h : find1 (dtMatch model) s.device_types with
  | some dt =>
      left
      exact ⟨dt, rfl, by unfold get_or_create_device_type; rw [h]⟩
  | none =>
      right
      refine ⟨rfl, ?_⟩
      cases hm : find1 (manuMatch manu) s.manufacturers with
      | some m2 =>
          refine ⟨⟨s.next_id, model, m2.id, slugOf model, ids⟩, [], s.next_id + 1, false,
            by simp [dtMatch], ?_⟩
          unfold get_or_create_device_type
          rw [h, hm]
          simp
      | none =>
          refine ⟨⟨s.next_id + 1, model, s.next_id, slugOf model, ids⟩,
            [⟨s.next_id, manu⟩], s.next_id + 2, true, by simp [dtMatch], ?_⟩
          unfold get_or_create_device_type
          rw [h, hm]

theorem role_spec (s : NB) (nm : Str) (vr : Bool) (ids : List Nat) :
    (∃ r, find1 (roleMatch nm) s.device_roles = some r ∧
      get_or_create_device_role s nm vr ids = (r, s, [Event.roleOp nm false])) ∨
    (find1 (roleMatch nm) s.device_roles = none ∧
      get_or_create_device_role s nm vr ids =
        (⟨s.next_id, nm, vr, ids⟩,
         { s with device_roles := s.device_roles ++ [⟨s.next_id, nm, vr, ids⟩],
                  next_id := s.next_id + 1 },
         [Event.roleOp nm true])) := by
  cases h : find1 (roleMatch nm) s.device_roles with
  | some r =>
      left
      exact ⟨r, rfl, by unfold get_or_create_device_role; rw [h]⟩
  | none =>
      right
      exact ⟨rfl, by unfold get_or_create_device_role; rw [h]⟩

theorem site_spec (s : NB) (nm d : Str) (ids : List Nat) :
    (∃ st, find1 (siteMatch nm) s.sites = some st ∧
      get_or_create_site s nm d ids = (st, s, [Event.siteOp nm false])) ∨
    (find1 (siteMatch nm) s.sites = none ∧
      get_or_create_site s nm d ids =
        (⟨s.next_id, nm, d, ids⟩,
         { s with sites := s.sites ++ [⟨s.next_id, nm, d, ids⟩],
                  next_id := s.next_id + 1 },
         [Event.siteOp nm true])) := by
  cases h : find1 (siteMatch nm) s.sites with
  | some st =>
      left
      exact ⟨st, rfl, by unfold get_or_create_site; rw [h]⟩
  | none =>
      right
      exact ⟨rfl, by unfold get_or_create_site; rw [h]⟩

theorem dev_spec (nm : Str) (dtid roleid siteid : Nat) (ids : List Nat) (s : NB) :
    (∃ d, find1 (devMatch nm siteid) s.devices = some d ∧
      deviceStep nm dtid roleid siteid ids s = (d, s, [Event.devOp nm siteid false])) ∨
    (find1 (devMatch nm siteid) s.devices = none ∧
      deviceStep nm dtid roleid siteid ids s =
        (⟨s.next_id, nm, dtid, roleid, siteid, str "active", ids⟩,
         { s with
           devices := s.devices ++
             [⟨s.next_id, nm, dtid, roleid, siteid, str "active", ids⟩],
           next_id := s.next_id + 1 },
         [Event.devOp nm siteid true])) := by
  cases h : find1 (devMatch nm siteid) s.devices with
  | some d =>
      left
      exact ⟨d, rfl, by unfold deviceStep; rw [h]⟩
  | none =>
      right
      exact ⟨rfl, by unfold deviceStep; rw [h]⟩

theorem iface_spec (devid : Nat) (ifname : Str) (mac : Option Str) (ids : List Nat)
    (s : NB) :
    (∃ i, find1 (ifMatch devid ifname) s.interfaces = some i ∧
      ifaceStep devid ifname mac ids s = (i, s, [Event.ifOp devid ifname false])) ∨
    (find1 (ifMatch devid ifname) s.interfaces = none ∧
      ifaceStep devid ifname mac ids s =
        (⟨s.next_id, devid, ifname, str "virtual", mac, ids⟩,
         { s with
           interfaces := s.interfaces ++
             [⟨s.next_id, devid, ifname, str "virtual", mac, ids⟩],
           next_id := s.next_id + 1 },
         [Event.ifOp devid ifname true])) := by
  cases h : find1 (ifMatch devid ifname) s.interfaces with
  | some i =>
      left
      exact ⟨i, rfl, by unfold ifaceStep; rw [h]⟩
  | none =>
      right
      exact ⟨rfl, by unfold ifaceStep; rw [h]⟩

theorem ip_spec (ip : Nat) (nm : Str) (ifid : Nat) (ids : List Nat) (s : NB) :
    (∃ p r q, findSplit (ipMatch ip) s.ip_addresses = some (p, r, q) ∧
      (r.assigned_object_id != some ifid ||
        r.assigned_object_type != str "dcim.interface") = true ∧
      ipStep ip nm ifid ids s =
        ({ s with ip_addresses := p ++
            { r with assigned_object_id := some ifid,
                     assigned_object_type := str "dcim.interface" } :: q },
         [Event.ipOp ip false true])) ∨
    (∃ p r q, findSplit (ipMatch ip) s.ip_addresses = some (p, r, q) ∧
      r.assigned_object_id = some ifid ∧
      r.assigned_object_type = str "dcim.interface" ∧
      ipStep ip nm ifid ids s = (s, [Event.ipOp ip false false])) ∨
    (findSplit (ipMatch ip) s.ip_addresses = none ∧
      ipStep ip nm ifid ids s =
        ({ s with
           ip_addresses := s.ip_addresses ++
             [⟨s.next_id, ip, str "IP for " ++ nm, str "active", ids,
               str "dcim.interface", some ifid⟩],
           next_id := s.next_id + 1 },
         [Event.ipOp ip true false])) := by
  cases h : findSplit (ipMatch ip) s.ip_addresses with
  | some prq =>
      obtain ⟨p, r, q⟩ := prq
      by_cases hcond : (r.assigned_object_id != some ifid ||
          r.assigned_object_type != str "dcim.interface") = true
      · left
        refine ⟨p, r, q, rfl, hcond, ?_⟩
        unfold ipStep
        rw [h]
        dsimp only
        rw [if_pos hcond]
      · right; left
        rw [Bool.or_eq_true, not_or] at hcond
        refine ⟨p, r, q, rfl, ?_, ?_, ?_⟩
        · have := hcond.1
          simpa using this
        · have := hcond.2
          simpa using this
        · unfold ipStep
          rw [h]
          dsimp only
          rw [if_neg (by rw [Bool.or_eq_true]; exact not_or.mpr hcond)]
  | none =>
      right; right
      exact ⟨rfl, by unfold ipStep; rw [h]⟩

/-! ## Event bookkeeping for the device section -/

theorem dt_ev_ok (s : NB) (model manu : Str) (ids : List Nat) :
    ∀ e ∈ (get_or_create_device_type s model manu ids).2.2, devEvOk e = true := by
  rcases dt_spec s model manu ids with ⟨dt, _, he⟩ | ⟨_, dt, dm, nid, b, _, he⟩ <;>
    rw [he] <;> simp [devEvOk, Event.isPfxOp, Event.isTagEv]

theorem role_ev_ok (s : NB) (nm : Str) (vr : Bool) (ids : List Nat) :
    ∀ e ∈ (get_or_create_device_role s nm vr ids).2.2, devEvOk e = true := by
  rcases role_spec s nm vr ids with ⟨r, _, he⟩ | ⟨_, he⟩ <;>
    rw [he] <;> simp [devEvOk, Event.isPfxOp, Event.isTagEv]

theorem site_ev_ok (s : NB) (nm d : Str) (ids : List Nat) :
    ∀ e ∈ (get_or_create_site s nm d ids).2.2, devEvOk e = true := by
  rcases site_spec s nm d ids with ⟨st, _, he⟩ | ⟨_, he⟩ <;>
    rw [he] <;> simp [devEvOk, Event.isPfxOp, Event.isTagEv]

theorem dev_ev_ok (nm : Str) (a1 a2 a3 : Nat) (ids : List Nat) (s : NB) :
    ∀ e ∈ (deviceStep nm a1 a2 a3 ids s).2.2, devEvOk e = true := by
  rcases dev_spec nm a1 a2 a3 ids s with ⟨d, _, he⟩ | ⟨_, he⟩ <;>
    rw [he] <;> simp [devEvOk, Event.isPfxOp, Event.isTagEv]

theorem iface_ev_ok (devid : Nat) (ifname : Str) (mac : Option Str) (ids : List Nat)
    (s : NB) : ∀ e ∈ (ifaceStep devid ifname mac ids s).2.2, devEvOk e = true := by
  rcases iface_spec devid ifname mac ids s with ⟨i, _, he⟩ | ⟨_, he⟩ <;>
    rw [he] <;> simp [devEvOk, Event.isPfxOp, Event.isTagEv]

theorem ip_ev_ok (ip : Nat) (nm : Str) (ifid : Nat) (ids : List Nat) (s : NB) :
    ∀ e ∈ (ipStep ip nm ifid ids s).2, devEvOk e = true := by
  rcases ip_spec ip nm ifid ids s with ⟨p, r, q, _, _, he⟩ | ⟨p, r, q, _, _, _, he⟩ |
    ⟨_, he⟩ <;> rw [he] <;> simp [devEvOk, Event.isPfxOp, Event.isTagEv]

theorem processDevice_ev_ok (cfg : SyncCfg) (ids : List Nat) (dev : DeviceInfo) (s : NB) :
    ∀ e ∈ (processDevice cfg ids dev s).2, devEvOk e = true := by
  unfold processDevice
  dsimp only
  rcases h1 : get_or_create_device_type s (devTypeModel cfg dev)
      cfg.mapping.manufacturer ids with ⟨dt, s1, ev1⟩
  rcases h2 : get_or_create_device_role s1 (devRoleName cfg dev) dev.kind.isVm ids with
    ⟨role, s2, ev2⟩
  rcases h3 : get_or_create_site s2 (devSiteName cfg dev)
      (str "Azure Region: " ++ dev.location) ids with ⟨site, s3, ev3⟩
  rcases h4 : deviceStep (devName cfg dev) dt.id role.id site.id ids s3 with ⟨d4, s4, ev4⟩
  rcases h5 : ifaceStep d4.id cfg.mapping.default_interface (macOf dev) ids s4 with
    ⟨i5, s5, ev5⟩
  rcases h6 : ipStep dev.ip_address (devName cfg dev) i5.id ids s5 with ⟨s6, ev6⟩
  have e1 := dt_ev_ok s (devTypeModel cfg dev) cfg.mapping.manufacturer ids
  have e2 := role_ev_ok s1 (devRoleName cfg dev) dev.kind.isVm ids
  have e3 := site_ev_ok s2 (devSiteName cfg dev) (str "Azure Region: " ++ dev.location) ids
  have e4 := dev_ev_ok (devName cfg dev) dt.id role.id site.id ids s3
  have e5 := iface_ev_ok d4.id cfg.mapping.default_interface (macOf dev) ids s4
  have e6 := ip_ev_ok dev.ip_address (devName cfg dev) i5.id ids s5
  rw [h1] at e1; rw [h2] at e2; rw [h3] at e3; rw [h4] at e4; rw [h5] at e5; rw [h6] at e6
  dsimp only
  intro e he
  simp only [List.mem_append] at he
  rcases he with ((((g | g) | g) | g) | g) | g
  · exact e1 e g
  · exact e2 e g
  · exact e3 e g
  · exact e4 e g
  · exact e5 e g
  · exact e6 e g

theorem processDevices_ev_ok (cfg : SyncCfg) (ids : List Nat) (devs : List DeviceInfo)
    (s : NB) : ∀ e ∈ (processDevices cfg ids devs s).2, devEvOk e = true := by
  induction devs generalizing s with
  | nil => simp [processDevices]
  | cons d rest ih =>
      unfold processDevices
      dsimp only
      rcases h1 : processDevice cfg ids d s with ⟨s1, ev1⟩
      rcases h2 : processDevices cfg ids rest s1 with ⟨s2, ev2⟩
      have e1 := processDevice_ev_ok cfg ids d s
      have e2 := ih s1
      rw [h1] at e1; rw [h2] at e2
      dsimp only
      intro e he
      rcases List.mem_append.mp he with g | g
      · exact e1 e g
      · exact e2 e g

/-! ## C3: how often each prefix is upserted -/

theorem isSubnetOp_isPfxOp {c : Cidr} {e : Event} (h : isSubnetOpFor c e = true) :
    e.isPfxOp = true := by
  cases e <;> simp [isSubnetOpFor, Event.isPfxOp] at *

theorem isVnetOp_isPfxOp {c : Cidr} {e : Event} (h : isVnetOpFor c e = true) :
    e.isPfxOp = true := by
  cases e with
  | pfxOp c2 rid par cr up =>
      simp [Event.isPfxOp]
  | _ => simp [isVnetOpFor] at h

theorem countSubnetOps_append (c : Cidr) (a b : List Event) :
    countSubnetOps c (a ++ b) = countSubnetOps c a + countSubnetOps c b := by
  simp [countSubnetOps, List.filter_append]

theorem countVnetOps_append (c : Cidr) (a b : List Event) :
    countVnetOps c (a ++ b) = countVnetOps c a + countVnetOps c b := by
  simp [countVnetOps, List.filter_append]

theorem countSubnetOps_of_ok {c : Cidr} {ev : List Event}
    (h : ∀ e ∈ ev, devEvOk e = true) : countSubnetOps c ev = 0 := by
  rw [countSubnetOps, List.length_eq_zero, List.filter_eq_nil_iff]
  intro e he hcontra
  have h2 := h e he
  rw [devEvOk, Bool.and_eq_true] at h2
  rw [isSubnetOp_isPfxOp hcontra] at h2
  simp at h2

theorem countVnetOps_of_ok {c : Cidr} {ev : List Event}
    (h : ∀ e ∈ ev, devEvOk e = true) : countVnetOps c ev = 0 := by
  rw [countVnetOps, List.length_eq_zero, List.filter_eq_nil_iff]
  intro e he hcontra
  have h2 := h e he
  rw [devEvOk, Bool.and_eq_true] at h2
  rw [isVnetOp_isPfxOp hcontra] at h2
  simp at h2

theorem tag_ev_noPfx (s : NB) (n sl d : Str) (c : Cidr) :
    countSubnetOps c (get_or_create_tag s n sl d).2.2 = 0 ∧
    countVnetOps c (get_or_create_tag s n sl d).2.2 = 0 := by
  rcases tag_spec s n sl d with ⟨t, _, he⟩ | ⟨_, he⟩ <;> rw [he] <;>
    exact ⟨rfl, rfl⟩

theorem pfx_ev_shape (s : NB) (c : Cidr) (d : PfxDefaults) (sn si : Str) :
    ∃ rid cr up, (get_or_create_pfx s c d sn si []).2.2 =
      [Event.pfxOp c rid d.parent cr up] := by
  rcases pfx_spec s c d sn si with ⟨p, r, q, _, _, he⟩ | ⟨p, r, q, _, _, he⟩ | ⟨_, he⟩ <;>
    rw [he] <;> exact ⟨_, _, _, rfl⟩

theorem processSubnet_counts (cfg : SyncCfg) (ids vt : List Nat) (sn si vn : Str)
    (pid : Nat) (snet : SubnetInfo) (s : NB) (c : Cidr) :
    countSubnetOps c (processSubnet cfg ids vt sn si vn pid snet s).2 =
      (match snet.address_pfx with
       | some c2 => if c2 == c then 1 else 0
       | none => 0) ∧
    countVnetOps c (processSubnet cfg ids vt sn si vn pid snet s).2 = 0 := by
  unfold processSubnet
  dsimp only
  cases hap : snet.address_pfx with
  | none => exact ⟨rfl, rfl⟩
  | some c2 =>
      dsimp only
      obtain ⟨rid, cr, up, hev⟩ :=
        pfx_ev_shape s c2 (subnetPfxDefaults vt snet.name vn pid) sn si
      rcases h1 : get_or_create_pfx s c2 (subnetPfxDefaults vt snet.name vn pid) sn si []
        with ⟨rc, s1, ev1⟩
      rcases h2 : processDevices cfg ids snet.devices s1 with ⟨s2, ev2⟩
      rw [h1] at hev
      have e2 := processDevices_ev_ok cfg ids snet.devices s1
      rw [h2] at e2
      dsimp only
      rw [countSubnetOps_append, countVnetOps_append, countSubnetOps_of_ok e2,
        countVnetOps_of_ok e2]
      dsimp only at hev
      rw [hev]
      constructor
      · simp only [countSubnetOps, subnetPfxDefaults, List.filter, isSubnetOpFor]
        by_cases hc : c2 == c
        · rw [hc]; rfl
        · rw [Bool.not_eq_true] at hc
          rw [hc]
          rfl
      · rfl

theorem processSubnets_counts (cfg : SyncCfg) (ids vt : List Nat) (sn si vn : Str)
    (pid : Nat) (sns : List SubnetInfo) (s : NB) (c : Cidr) :
    countSubnetOps c (processSubnets cfg ids vt sn si vn pid sns s).2 =
      (sns.filterMap (fun x => x.address_pfx)).countP (fun x => x == c) ∧
    countVnetOps c (processSubnets cfg ids vt sn si vn pid sns s).2 = 0 := by
  induction sns generalizing s with
  | nil => exact ⟨rfl, rfl⟩
  | cons snet rest ih =>
      unfold processSubnets
      dsimp only
      rcases h1 : processSubnet cfg ids vt sn si vn pid snet s with ⟨s1, ev1⟩
      rcases h2 : processSubnets cfg ids vt sn si vn pid rest s1 with ⟨s2, ev2⟩
      have c1 := processSubnet_counts cfg ids vt sn si vn pid snet s c
      have c2 := ih s1
      rw [h1] at c1; rw [h2] at c2
      dsimp only
      rw [countSubnetOps_append, countVnetOps_append, c1.1, c1.2, c2.1, c2.2]
      refine ⟨?_, rfl⟩
      cases hap : snet.address_pfx with
      | none => simp [List.filterMap_cons, hap]
      | some c2 =>
          simp only [List.filterMap_cons, hap, List.countP_cons]
          by_cases hc : c2 == c
          · simp [hc]
            omega
          · rw [Bool.not_eq_true] at hc
            simp [hc]

theorem processAS_counts (cfg : SyncCfg) (ids vt : List Nat) (sn si : Str) (v : VNetInfo)
    (a : Cidr) (s : NB) (c : Cidr) :
    countSubnetOps c (processAS cfg ids vt sn si v a s).2 =
      (subnetCidrs v).countP (fun x => x == c) ∧
    countVnetOps c (processAS cfg ids vt sn si v a s).2 =
      (if a == c then 1 else 0) := by
  unfold processAS
  dsimp only
  obtain ⟨rid, cr, up, hev⟩ := pfx_ev_shape s a (vnetPfxDefaults vt v.name si) sn si
  rcases h1 : get_or_create_pfx s a (vnetPfxDefaults vt v.name si) sn si [] with
    ⟨rc, s1, ev1⟩
  rcases h2 : processSubnets cfg ids vt sn si v.name rc.1.id v.subnets s1 with ⟨s2, ev2⟩
  rw [h1] at hev
  have c2 := processSubnets_counts cfg ids vt sn si v.name rc.1.id v.subnets s1 c
  rw [h2] at c2
  dsimp only
  rw [countSubnetOps_append, countVnetOps_append, c2.1, c2.2]
  dsimp only at hev
  rw [hev]
  constructor
  · simp [countSubnetOps, isSubnetOpFor, vnetPfxDefaults, subnetCidrs]
  · simp only [countVnetOps, vnetPfxDefaults, List.filter, isVnetOpFor]
    by_cases hc : a == c
    · rw [hc]; rfl
    · rw [Bool.not_eq_true] at hc
      rw [hc]
      rfl

theorem processASList_counts (cfg : SyncCfg) (ids vt : List Nat) (sn si : Str)
    (v : VNetInfo) (las : List Cidr) (s : NB) (c : Cidr) :
    countSubnetOps c (processASList cfg ids vt sn si v las s).2 =
      las.length * ((subnetCidrs v).countP (fun x => x == c)) ∧
    countVnetOps c (processASList cfg ids vt sn si v las s).2 =
      las.countP (fun x => x == c) := by
  induction las generalizing s with
  | nil => exact ⟨by simp [processASList, countSubnetOps], rfl⟩
  | cons a rest ih =>
      unfold processASList
      dsimp only
      rcases h1 : processAS cfg ids vt sn si v a s with ⟨s1, ev1⟩
      rcases h2 : processASList cfg ids vt sn si v rest s1 with ⟨s2, ev2⟩
      have c1 := processAS_counts cfg ids vt sn si v a s c
      have c2 := ih s1
      rw [h1] at c1; rw [h2] at c2
      dsimp only
      rw [countSubnetOps_append, countVnetOps_append, c1.1, c1.2, c2.1, c2.2]
      constructor
      · rw [List.length_cons]
        ring
      · rw [List.countP_cons]
        by_cases hc : a == c
        · simp [hc]
          omega
        · rw [Bool.not_eq_true] at hc
          simp [hc]

theorem processVnet_counts (cfg : SyncCfg) (ids st2 : List Nat) (sn si : Str)
    (v : VNetInfo) (s : NB) (c : Cidr) :
    countSubnetOps c (processVnet cfg ids st2 sn si v s).2 =
      v.address_space.length * ((subnetCidrs v).countP (fun x => x == c)) ∧
    countVnetOps c (processVnet cfg ids st2 sn si v s).2 =
      v.address_space.countP (fun x => x == c) := by
  unfold processVnet
  dsimp only
  rcases h0 : get_or_create_tag s (pyCapitalize (locSlugOf v.location))
      (locSlugOf v.location) (str "Azure region: " ++ v.location) with ⟨t, s1, ev1⟩
  have c0 := tag_ev_noPfx s (pyCapitalize (locSlugOf v.location)) (locSlugOf v.location)
    (str "Azure region: " ++ v.location) c
  rw [h0] at c0
  rcases h1 : processASList cfg ids (st2 ++ [t.id]) sn si v v.address_space s1 with
    ⟨s2, ev2⟩
  have c1 := processASList_counts cfg ids (st2 ++ [t.id]) sn si v v.address_space s1 c
  rw [h1] at c1
  dsimp only
  rw [countSubnetOps_append, countVnetOps_append, c0.1, c0.2, c1.1, c1.2]
  omega

theorem processVnets_counts (cfg : SyncCfg) (ids st2 : List Nat) (sn si : Str)
    (vs : List VNetInfo) (s : NB) (c : Cidr) :
    countSubnetOps c (processVnets cfg ids st2 sn si vs s).2 =
      (vs.map (fun v =>
        v.address_space.length * ((subnetCidrs v).countP (fun x => x == c)))).sum ∧
    countVnetOps c (processVnets cfg ids st2 sn si vs s).2 =
      (vs.map (fun v => v.address_space.countP (fun x => x == c))).sum := by
  induction vs generalizing s with
  | nil => exact ⟨rfl, rfl⟩
  | cons v rest ih =>
      unfold processVnets
      dsimp only
      rcases h1 : processVnet cfg ids st2 sn si v s with ⟨s1, ev1⟩
      rcases h2 : processVnets cfg ids st2 sn si rest s1 with ⟨s2, ev2⟩
      have c1 := processVnet_counts cfg ids st2 sn si v s c
      have c2 := ih s1
      rw [h1] at c1; rw [h2] at c2
      dsimp only
      rw [countSubnetOps_append, countVnetOps_append, c1.1, c1.2, c2.1, c2.2]
      simp

theorem processSub_counts (cfg : SyncCfg) (ids addIds : List Nat) (sub : SubData)
    (s : NB) (c : Cidr) :
    countSubnetOps c (processSub cfg ids addIds sub s).2 =
      (sub.vnets.map (fun v =>
        v.address_space.length * ((subnetCidrs v).countP (fun x => x == c)))).sum ∧
    countVnetOps c (processSub cfg ids addIds sub s).2 =
      (sub.vnets.map (fun v => v.address_space.countP (fun x => x == c))).sum := by
  unfold processSub
  dsimp only
  cases henv : detect_env sub.subscription_name with
  | none =>
      dsimp only
      rcases h2 : processVnets cfg ids (ids ++ addIds ++ []) sub.subscription_name
        sub.subscription_id sub.vnets s with ⟨s2, ev2⟩
      have c2 := processVnets_counts cfg ids (ids ++ addIds ++ [])
        sub.subscription_name sub.subscription_id sub.vnets s c
      rw [h2] at c2
      exact c2
  | some sl =>
      dsimp only
      rcases h0 : get_or_create_tag s (pyUpper sl) sl (str "Environment: " ++ pyUpper sl)
        with ⟨t, s1, ev1⟩
      have c0 := tag_ev_noPfx s (pyUpper sl) sl (str "Environment: " ++ pyUpper sl) c
      rw [h0] at c0
      dsimp only
      rcases h2 : processVnets cfg ids (ids ++ addIds ++ [t.id]) sub.subscription_name
        sub.subscription_id sub.vnets s1 with ⟨s2, ev2⟩
      have c2 := processVnets_counts cfg ids (ids ++ addIds ++ [t.id])
        sub.subscription_name sub.subscription_id sub.vnets s1 c
      rw [h2] at c2
      dsimp only
      rw [countSubnetOps_append, countVnetOps_append, c0.1, c0.2, c2.1, c2.2]
      exact ⟨Nat.zero_add _, Nat.zero_add _⟩

theorem processSubs_counts (cfg : SyncCfg) (ids addIds : List Nat) (subs : List SubData)
    (s : NB) (c : Cidr) :
    countSubnetOps c (processSubs cfg ids addIds subs s).2 = expSubnetOps c subs ∧
    countVnetOps c (processSubs cfg ids addIds subs s).2 = expVnetOps c subs := by
  induction subs generalizing s with
  | nil => exact ⟨rfl, rfl⟩
  | cons sub rest ih =>
      unfold processSubs
      dsimp only
      rcases h1 : processSub cfg ids addIds sub s with ⟨s1, ev1⟩
      rcases h2 : processSubs cfg ids addIds rest s1 with ⟨s2, ev2⟩
      have c1 := processSub_counts cfg ids addIds sub s c
      have c2 := ih s1
      rw [h1] at c1; rw [h2] at c2
      dsimp only
      rw [countSubnetOps_append, countVnetOps_append, c1.1, c1.2, c2.1, c2.2]
      unfold expSubnetOps expVnetOps
      simp

theorem createAdditionalTags_noPfx (s : NB) (slugs : List Str) (c : Cidr) :
    countSubnetOps c (createAdditionalTags s slugs).2.2 = 0 ∧
    countVnetOps c (createAdditionalTags s slugs).2.2 = 0 := by
  induction slugs generalizing s with
  | nil => exact ⟨rfl, rfl⟩
  | cons sl rest ih =>
      unfold createAdditionalTags
      dsimp only
      rcases h1 : get_or_create_tag s (pyCapitalize sl) sl (str "Additional tag: " ++ sl)
        with ⟨t, s1, ev1⟩
      rcases h2 : createAdditionalTags s1 rest with ⟨ids2, s2, ev2⟩
      have c1 := tag_ev_noPfx s (pyCapitalize sl) sl (str "Additional tag: " ++ sl) c
      have c2 := ih s1
      rw [h1] at c1; rw [h2] at c2
      dsimp only
      rw [countSubnetOps_append, countVnetOps_append, c1.1, c1.2, c2.1, c2.2]
      exact ⟨rfl, rfl⟩

/-- C3 amended: within a run, a network-level prefix upsert happens once per
occurrence of the CIDR among the address-space entries, while a subnet prefix
upsert happens once per address-space entry of the owning network, per
occurrence of the CIDR among that network's subnets — so a network with a
single address-space entry processes each subnet exactly once, but a network
with several entries processes each of its subnets once per entry. -/
theorem C3_upsert_multiplicity (topo : List SubData) (cfg : SyncCfg) (s : NB) (c : Cidr) :
    countSubnetOps c (sync_to_netbox topo cfg s).2 = expSubnetOps c topo ∧
    countVnetOps c (sync_to_netbox topo cfg s).2 = expVnetOps c topo := by
  unfold sync_to_netbox
  dsimp only
  rcases h0 : get_or_create_tag s cfg.tags.sync_tag_name (slugOf cfg.tags.sync_tag_name)
      cfg.tags.sync_tag_description with ⟨t0, s1, ev1⟩
  have c0 := tag_ev_noPfx s cfg.tags.sync_tag_name (slugOf cfg.tags.sync_tag_name)
    cfg.tags.sync_tag_description c
  rw [h0] at c0
  rcases h1 : createAdditionalTags s1 cfg.tags.additional_tags with ⟨addIds, s2, ev2⟩
  have c1 := createAdditionalTags_noPfx s1 cfg.tags.additional_tags c
  rw [h1] at c1
  rcases h2 : processSubs cfg [t0.id] addIds topo s2 with ⟨s3, ev3⟩
  have c2 := processSubs_counts cfg [t0.id] addIds topo s2 c
  rw [h2] at c2
  dsimp only
  rw [countSubnetOps_append, countSubnetOps_append, countVnetOps_append,
    countVnetOps_append, c0.1, c0.2, c1.1, c1.2, c2.1, c2.2]
  simp

/-- C3 counterexample: one subscription, one network with two address-space
entries and one subnet — the run upserts the subnet's prefix twice (once per
address-space entry), so the subnet is processed twice within one run. -/
theorem C3_counterexample :
    countSubnetOps cidrS (sync_to_netbox exTopoTwoAS exCfg NB.empty).2 = 2 := by
  decide

/-! ## C4: tag lookups and creations per slug -/

theorem countTagCreates_append (sl : Str) (a b : List Event) :
    countTagCreates sl (a ++ b) = countTagCreates sl a + countTagCreates sl b := by
  simp [countTagCreates, List.filter_append]

theorem countTagCreates_of_ok {sl : Str} {ev : List Event}
    (h : ∀ e ∈ ev, devEvOk e = true) : countTagCreates sl ev = 0 := by
  rw [countTagCreates, List.length_eq_zero, List.filter_eq_nil_iff]
  intro e he hcontra
  have h2 := h e he
  rw [devEvOk, Bool.and_eq_true] at h2
  cases e <;> simp [isTagCreateFor] at hcontra <;> simp [Event.isTagEv] at h2

theorem mTag_le_one (sl : Str) (s : NB) : mTag sl s ≤ 1 := by
  rw [mTag]
  split <;> omega

theorem mTag_append_le (sl : Str) (s : NB) (ts : List TagRec) (n2 : Nat) :
    mTag sl { s with tags := s.tags ++ ts, next_id := n2 } ≤ mTag sl s := by
  rw [mTag, mTag]
  by_cases h : (find1 (tagMatch sl) s.tags).isSome
  · obtain ⟨t, ht⟩ := Option.isSome_iff_exists.mp h
    have := find1_append_some (m := ts) ht
    simp only [this]
    simp [Option.isSome]
  · split <;> omega

/-- The core of C4's amended claim at the single-operation level. -/
theorem tag_allowance (s : NB) (n sl2 d sl : Str) :
    countTagCreates sl (get_or_create_tag s n sl2 d).2.2 +
      mTag sl (get_or_create_tag s n sl2 d).2.1 ≤ mTag sl s := by
  rcases tag_spec s n sl2 d with ⟨t, hf, he⟩ | ⟨hf, he⟩
  · rw [he]
    have hz : countTagCreates sl [Event.tagGet sl2 true] = 0 := rfl
    dsimp only
    rw [hz]
    omega
  · rw [he]
    dsimp only
    by_cases hsl : (sl2 == sl) = true
    · have heq : sl2 = sl := by simpa using hsl
      subst heq
      have hm0 : mTag sl2 s = 1 := by
        rw [mTag, hf]
        rfl
      have hm1 : mTag sl2
          { s with tags := s.tags ++ [⟨s.next_id, n, sl2, d⟩], next_id := s.next_id + 1 } =
          0 := by
        rw [mTag]
        rw [find1_append_none hf]
        have : find1 (tagMatch sl2) [(⟨s.next_id, n, sl2, d⟩ : TagRec)] =
            some ⟨s.next_id, n, sl2, d⟩ := by
          rw [find1_cons]
          simp [tagMatch]
        rw [this]
        rfl
      rw [hm0, hm1]
      have : countTagCreates sl2 [Event.tagGet sl2 false, Event.tagCreate sl2] = 1 := by
        simp [countTagCreates, isTagCreateFor, List.filter]
      omega
    · have hc0 : countTagCreates sl [Event.tagGet sl2 false, Event.tagCreate sl2] = 0 := by
        simp [countTagCreates, isTagCreateFor, List.filter, hsl]
      rw [hc0]
      have := mTag_append_le sl s [⟨s.next_id, n, sl2, d⟩] (s.next_id + 1)
      omega

theorem pfx_tags_eq (s : NB) (c : Cidr) (d : PfxDefaults) (sn si : Str) :
    (get_or_create_pfx s c d sn si []).2.1.tags = s.tags := by
  rcases pfx_spec s c d sn si with ⟨p, r, q, _, _, he⟩ | ⟨p, r, q, _, _, he⟩ | ⟨_, he⟩ <;>
    rw [he]

theorem dt_tags_eq (s : NB) (model manu : Str) (ids : List Nat) :
    (get_or_create_device_type s model manu ids).2.1.tags = s.tags := by
  rcases dt_spec s model manu ids with ⟨dt, _, he⟩ | ⟨_, dt, dm, nid, b, _, he⟩ <;> rw [he]

theorem role_tags_eq (s : NB) (nm : Str) (vr : Bool) (ids : List Nat) :
    (get_or_create_device_role s nm vr ids).2.1.tags = s.tags := by
  rcases role_spec s nm vr ids with ⟨r, _, he⟩ | ⟨_, he⟩ <;> rw [he]

theorem site_tags_eq (s : NB) (nm d : Str) (ids : List Nat) :
    (get_or_create_site s nm d ids).2.1.tags = s.tags := by
  rcases site_spec s nm d ids with ⟨st, _, he⟩ | ⟨_, he⟩ <;> rw [he]

theorem dev_tags_eq (nm : Str) (a1 a2 a3 : Nat) (ids : List Nat) (s : NB) :
    (deviceStep nm a1 a2 a3 ids s).2.1.tags = s.tags := by
  rcases dev_spec nm a1 a2 a3 ids s with ⟨d, _, he⟩ | ⟨_, he⟩ <;> rw [he]

theorem iface_tags_eq (devid : Nat) (ifname : Str) (mac : Option Str) (ids : List Nat)
    (s : NB) : (ifaceStep devid ifname mac ids s).2.1.tags = s.tags := by
  rcases iface_spec devid ifname mac ids s with ⟨i, _, he⟩ | ⟨_, he⟩ <;> rw [he]

theorem ip_tags_eq (ip : Nat) (nm : Str) (ifid : Nat) (ids : List Nat) (s : NB) :
    (ipStep ip nm ifid ids s).1.tags = s.tags := by
  rcases ip_spec ip nm ifid ids s with ⟨p, r, q, _, _, he⟩ | ⟨p, r, q, _, _, _, he⟩ |
    ⟨_, he⟩ <;> rw [he]

theorem processDevice_tags_eq (cfg : SyncCfg) (ids : List Nat) (dev : DeviceInfo)
    (s : NB) : (processDevice cfg ids dev s).1.tags = s.tags := by
  unfold processDevice
  dsimp only
  rcases h1 : get_or_create_device_type s (devTypeModel cfg dev)
      cfg.mapping.manufacturer ids with ⟨dt, s1, ev1⟩
  rcases h2 : get_or_create_device_role s1 (devRoleName cfg dev) dev.kind.isVm ids with
    ⟨role, s2, ev2⟩
  rcases h3 : get_or_create_site s2 (devSiteName cfg dev)
      (str "Azure Region: " ++ dev.location) ids with ⟨site, s3, ev3⟩
  rcases h4 : deviceStep (devName cfg dev) dt.id role.id site.id ids s3 with ⟨d4, s4, ev4⟩
  rcases h5 : ifaceStep d4.id cfg.mapping.default_interface (macOf dev) ids s4 with
    ⟨i5, s5, ev5⟩
  rcases h6 : ipStep dev.ip_address (devName cfg dev) i5.id ids s5 with ⟨s6, ev6⟩
  have t1 := dt_tags_eq s (devTypeModel cfg dev) cfg.mapping.manufacturer ids
  have t2 := role_tags_eq s1 (devRoleName cfg dev) dev.kind.isVm ids
  have t3 := site_tags_eq s2 (devSiteName cfg dev) (str "Azure Region: " ++ dev.location) ids
  have t4 := dev_tags_eq (devName cfg dev) dt.id role.id site.id ids s3
  have t5 := iface_tags_eq d4.id cfg.mapping.default_interface (macOf dev) ids s4
  have t6 := ip_tags_eq dev.ip_address (devName cfg dev) i5.id ids s5
  rw [h1] at t1; rw [h2] at t2; rw [h3] at t3; rw [h4] at t4; rw [h5] at t5; rw [h6] at t6
  dsimp only at t1 t2 t3 t4 t5 t6 ⊢
  rw [t6, t5, t4, t3, t2, t1]

theorem processDevices_tags_eq (cfg : SyncCfg) (ids : List Nat) (devs : List DeviceInfo)
    (s : NB) : (processDevices cfg ids devs s).1.tags = s.tags := by
  induction devs generalizing s with
  | nil => rfl
  | cons d rest ih =>
      unfold processDevices
      dsimp only
      rcases h1 : processDevice cfg ids d s with ⟨s1, ev1⟩
      rcases h2 : processDevices cfg ids rest s1 with ⟨s2, ev2⟩
      have t1 := processDevice_tags_eq cfg ids d s
      have t2 := ih s1
      rw [h1] at t1; rw [h2] at t2
      dsimp only at t1 t2 ⊢
      rw [t2, t1]

theorem mTag_congr {sl : Str} {s t : NB} (h : t.tags = s.tags) : mTag sl t = mTag sl s := by
  rw [mTag, mTag, h]

theorem pfx_noTagCreate (sl : Str) (s : NB) (c : Cidr) (d : PfxDefaults) (sn si : Str) :
    countTagCreates sl (get_or_create_pfx s c d sn si []).2.2 = 0 := by
  obtain ⟨rid, cr, up, hev⟩ := pfx_ev_shape s c d sn si
  rw [hev]
  rfl

theorem processDevices_noTagCreate (sl : Str) (cfg : SyncCfg) (ids : List Nat)
    (devs : List DeviceInfo) (s : NB) :
    countTagCreates sl (processDevices cfg ids devs s).2 = 0 :=
  countTagCreates_of_ok (processDevices_ev_ok cfg ids devs s)

theorem processSubnet_tagFacts (sl : Str) (cfg : SyncCfg) (ids vt : List Nat)
    (sn si vn : Str) (pid : Nat) (snet : SubnetInfo) (s : NB) :
    (processSubnet cfg ids vt sn si vn pid snet s).1.tags = s.tags ∧
    countTagCreates sl (processSubnet cfg ids vt sn si vn pid snet s).2 = 0 := by
  unfold processSubnet
  cases hap : snet.address_pfx with
  | none => exact ⟨rfl, rfl⟩
  | some c =>
      dsimp only
      rcases h1 : get_or_create_pfx s c (subnetPfxDefaults vt snet.name vn pid) sn si []
        with ⟨rc, s1, ev1⟩
      rcases h2 : processDevices cfg ids snet.devices s1 with ⟨s2, ev2⟩
      have t1 := pfx_tags_eq s c (subnetPfxDefaults vt snet.name vn pid) sn si
      have c1 := pfx_noTagCreate sl s c (subnetPfxDefaults vt snet.name vn pid) sn si
      have t2 := processDevices_tags_eq cfg ids snet.devices s1
      have c2 := processDevices_noTagCreate sl cfg ids snet.devices s1
      rw [h1] at t1 c1; rw [h2] at t2 c2
      dsimp only at t1 c1 t2 c2 ⊢
      rw [countTagCreates_append, t2, t1, c1, c2]
      exact ⟨rfl, rfl⟩

theorem processSubnets_tagFacts (sl : Str) (cfg : SyncCfg) (ids vt : List Nat)
    (sn si vn : Str) (pid : Nat) (sns : List SubnetInfo) (s : NB) :
    (processSubnets cfg ids vt sn si vn pid sns s).1.tags = s.tags ∧
    countTagCreates sl (processSubnets cfg ids vt sn si vn pid sns s).2 = 0 := by
  induction sns generalizing s with
  | nil => exact ⟨rfl, rfl⟩
  | cons snet rest ih =>
      unfold processSubnets
      dsimp only
      rcases h1 : processSubnet cfg ids vt sn si vn pid snet s with ⟨s1, ev1⟩
      rcases h2 : processSubnets cfg ids vt sn si vn pid rest s1 with ⟨s2, ev2⟩
      have f1 := processSubnet_tagFacts sl cfg ids vt sn si vn pid snet s
      have f2 := ih s1
      rw [h1] at f1; rw [h2] at f2
      dsimp only at f1 f2 ⊢
      rw [countTagCreates_append]
      exact ⟨f2.1.trans f1.1, by rw [f1.2, f2.2]⟩

theorem processAS_tagFacts (sl : Str) (cfg : SyncCfg) (ids vt : List Nat) (sn si : Str)
    (v : VNetInfo) (a : Cidr) (s : NB) :
    (processAS cfg ids vt sn si v a s).1.tags = s.tags ∧
    countTagCreates sl (processAS cfg ids vt sn si v a s).2 = 0 := by
  unfold processAS
  dsimp only
  rcases h1 : get_or_create_pfx s a (vnetPfxDefaults vt v.name si) sn si [] with
    ⟨rc, s1, ev1⟩
  rcases h2 : processSubnets cfg ids vt sn si v.name rc.1.id v.subnets s1 with ⟨s2, ev2⟩
  have t1 := pfx_tags_eq s a (vnetPfxDefaults vt v.name si) sn si
  have c1 := pfx_noTagCreate sl s a (vnetPfxDefaults vt v.name si) sn si
  have f2 := processSubnets_tagFacts sl cfg ids vt sn si v.name rc.1.id v.subnets s1
  rw [h1] at t1 c1; rw [h2] at f2
  dsimp only at t1 c1 f2 ⊢
  rw [countTagCreates_append]
  exact ⟨f2.1.trans t1, by rw [c1, f2.2]⟩

theorem processASList_tagFacts (sl : Str) (cfg : SyncCfg) (ids vt : List Nat)
    (sn si : Str) (v : VNetInfo) (las : List Cidr) (s : NB) :
    (processASList cfg ids vt sn si v las s).1.tags = s.tags ∧
    countTagCreates sl (processASList cfg ids vt sn si v las s).2 = 0 := by
  induction las generalizing s with
  | nil => exact ⟨rfl, rfl⟩
  | cons a rest ih =>
      unfold processASList
      dsimp only
      rcases h1 : processAS cfg ids vt sn si v a s with ⟨s1, ev1⟩
      rcases h2 : processASList cfg ids vt sn si v rest s1 with ⟨s2, ev2⟩
      have f1 := processAS_tagFacts sl cfg ids vt sn si v a s
      have f2 := ih s1
      rw [h1] at f1; rw [h2] at f2
      dsimp only at f1 f2 ⊢
      rw [countTagCreates_append]
      exact ⟨f2.1.trans f1.1, by rw [f1.2, f2.2]⟩

theorem processVnet_allowance (sl : Str) (cfg : SyncCfg) (ids st2 : List Nat)
    (sn si : Str) (v : VNetInfo) (s : NB) :
    countTagCreates sl (processVnet cfg ids st2 sn si v s).2 +
      mTag sl (processVnet cfg ids st2 sn si v s).1 ≤ mTag sl s := by
  unfold processVnet
  dsimp only
  rcases h0 : get_or_create_tag s (pyCapitalize (locSlugOf v.location))
      (locSlugOf v.location) (str "Azure region: " ++ v.location) with ⟨t, s1, ev1⟩
  rcases h1 : processASList cfg ids (st2 ++ [t.id]) sn si v v.address_space s1 with
    ⟨s2, ev2⟩
  have a0 := tag_allowance s (pyCapitalize (locSlugOf v.location)) (locSlugOf v.location)
    (str "Azure region: " ++ v.location) sl
  have f1 := processASList_tagFacts sl cfg ids (st2 ++ [t.id]) sn si v v.address_space s1
  rw [h0] at a0; rw [h1] at f1
  dsimp only at a0 f1 ⊢
  rw [countTagCreates_append, f1.2, mTag_congr f1.1]
  omega

theorem processVnets_allowance (sl : Str) (cfg : SyncCfg) (ids st2 : List Nat)
    (sn si : Str) (vs : List VNetInfo) (s : NB) :
    countTagCreates sl (processVnets cfg ids st2 sn si vs s).2 +
      mTag sl (processVnets cfg ids st2 sn si vs s).1 ≤ mTag sl s := by
  induction vs generalizing s with
  | nil => simp [processVnets, countTagCreates]
  | cons v rest ih =>
      unfold processVnets
      dsimp only
      rcases h1 : processVnet cfg ids st2 sn si v s with ⟨s1, ev1⟩
      rcases h2 : processVnets cfg ids st2 sn si rest s1 with ⟨s2, ev2⟩
      have a1 := processVnet_allowance sl cfg ids st2 sn si v s
      have a2 := ih s1
      rw [h1] at a1; rw [h2] at a2
      dsimp only at a1 a2 ⊢
      rw [countTagCreates_append]
      omega

theorem processSub_allowance (sl : Str) (cfg : SyncCfg) (ids addIds : List Nat)
    (sub : SubData) (s : NB) :
    countTagCreates sl (processSub cfg ids addIds sub s).2 +
      mTag sl (processSub cfg ids addIds sub s).1 ≤ mTag sl s := by
  unfold processSub
  dsimp only
  cases henv : detect_env sub.subscription_name with
  | none =>
      dsimp only
      rcases h2 : processVnets cfg ids (ids ++ addIds ++ []) sub.subscription_name
        sub.subscription_id sub.vnets s with ⟨s2, ev2⟩
      have a2 := processVnets_allowance sl cfg ids (ids ++ addIds ++ [])
        sub.subscription_name sub.subscription_id sub.vnets s
      rw [h2] at a2
      exact a2
  | some esl =>
      dsimp only
      rcases h0 : get_or_create_tag s (pyUpper esl) esl
        (str "Environment: " ++ pyUpper esl) with ⟨t, s1, ev1⟩
      rcases h2 : processVnets cfg ids (ids ++ addIds ++ [t.id]) sub.subscription_name
        sub.subscription_id sub.vnets s1 with ⟨s2, ev2⟩
      have a0 := tag_allowance s (pyUpper esl) esl (str "Environment: " ++ pyUpper esl) sl
      have a2 := processVnets_allowance sl cfg ids (ids ++ addIds ++ [t.id])
        sub.subscription_name sub.subscription_id sub.vnets s1
      rw [h0] at a0; rw [h2] at a2
      dsimp only at a0 a2 ⊢
      rw [countTagCreates_append]
      omega

theorem processSubs_allowance (sl : Str) (cfg : SyncCfg) (ids addIds : List Nat)
    (subs : List SubData) (s : NB) :
    countTagCreates sl (processSubs cfg ids addIds subs s).2 +
      mTag sl (processSubs cfg ids addIds subs s).1 ≤ mTag sl s := by
  induction subs generalizing s with
  | nil => simp [processSubs, countTagCreates]
  | cons sub rest ih =>
      unfold processSubs
      dsimp only
      rcases h1 : processSub cfg ids addIds sub s with ⟨s1, ev1⟩
      rcases h2 : processSubs cfg ids addIds rest s1 with ⟨s2, ev2⟩
      have a1 := processSub_allowance sl cfg ids addIds sub s
      have a2 := ih s1
      rw [h1] at a1; rw [h2] at a2
      dsimp only at a1 a2 ⊢
      rw [countTagCreates_append]
      omega

theorem createAdditionalTags_allowance (sl : Str) (s : NB) (slugs : List Str) :
    countTagCreates sl (createAdditionalTags s slugs).2.2 +
      mTag sl (createAdditionalTags s slugs).2.1 ≤ mTag sl s := by
  induction slugs generalizing s with
  | nil => simp [createAdditionalTags, countTagCreates]
  | cons sl2 rest ih =>
      unfold createAdditionalTags
      dsimp only
      rcases h1 : get_or_create_tag s (pyCapitalize sl2) sl2
        (str "Additional tag: " ++ sl2) with ⟨t, s1, ev1⟩
      rcases h2 : createAdditionalTags s1 rest with ⟨ids2, s2, ev2⟩
      have a1 := tag_allowance s (pyCapitalize sl2) sl2 (str "Additional tag: " ++ sl2) sl
      have a2 := ih s1
      rw [h1] at a1; rw [h2] at a2
      dsimp only at a1 a2 ⊢
      rw [countTagCreates_append]
      omega

/-- C4 amended: tag resolution is not cached — each resolution performs its own
lookup round trip (the same slug is looked up once per resolution site, e.g.
once per vnet for the region tag; see the counterexample) — but each distinct
slug is created at most once per run, because every resolution after the first
finds the record the first one created. -/
theorem C4_tag_create_at_most_once (topo : List SubData) (cfg : SyncCfg) (s : NB)
    (sl : Str) : countTagCreates sl (sync_to_netbox topo cfg s).2 ≤ 1 := by
  unfold sync_to_netbox
  dsimp only
  rcases h0 : get_or_create_tag s cfg.tags.sync_tag_name (slugOf cfg.tags.sync_tag_name)
      cfg.tags.sync_tag_description with ⟨t0, s1, ev1⟩
  rcases h1 : createAdditionalTags s1 cfg.tags.additional_tags with ⟨addIds, s2, ev2⟩
  rcases h2 : processSubs cfg [t0.id] addIds topo s2 with ⟨s3, ev3⟩
  have a0 := tag_allowance s cfg.tags.sync_tag_name (slugOf cfg.tags.sync_tag_name)
    cfg.tags.sync_tag_description sl
  have a1 := createAdditionalTags_allowance sl s1 cfg.tags.additional_tags
  have a2 := processSubs_allowance sl cfg [t0.id] addIds topo s2
  rw [h0] at a0; rw [h1] at a1; rw [h2] at a2
  dsimp only at a0 a1 a2 ⊢
  rw [countTagCreates_append, countTagCreates_append]
  have hm := mTag_le_one sl s
  omega

/-- C4 counterexample: two vnets in the same region within one run — the
region tag slug "westeurope" is looked up twice (one lookup-or-create round
trip per resolution, not per distinct slug; there is no in-run cache). -/
theorem C4_counterexample :
    countTagGets (str "westeurope") (sync_to_netbox exTopoTwoLoc exCfg NB.empty).2 = 2 := by
  decide

/-! ## C10: the address-ownership invariant -/

theorem tag_ips_eq (s : NB) (n sl d : Str) :
    (get_or_create_tag s n sl d).2.1.ip_addresses = s.ip_addresses := by
  rcases tag_spec s n sl d with ⟨t, _, he⟩ | ⟨_, he⟩ <;> rw [he]

theorem pfx_ips_eq (s : NB) (c : Cidr) (d : PfxDefaults) (sn si : Str) :
    (get_or_create_pfx s c d sn si []).2.1.ip_addresses = s.ip_addresses := by
  rcases pfx_spec s c d sn si with ⟨p, r, q, _, _, he⟩ | ⟨p, r, q, _, _, he⟩ | ⟨_, he⟩ <;>
    rw [he]

theorem dt_ips_eq (s : NB) (model manu : Str) (ids : List Nat) :
    (get_or_create_device_type s model manu ids).2.1.ip_addresses = s.ip_addresses := by
  rcases dt_spec s model manu ids with ⟨dt, _, he⟩ | ⟨_, dt, dm, nid, b, _, he⟩ <;> rw [he]

theorem role_ips_eq (s : NB) (nm : Str) (vr : Bool) (ids : List Nat) :
    (get_or_create_device_role s nm vr ids).2.1.ip_addresses = s.ip_addresses := by
  rcases role_spec s nm vr ids with ⟨r, _, he⟩ | ⟨_, he⟩ <;> rw [he]

theorem site_ips_eq (s : NB) (nm d : Str) (ids : List Nat) :
    (get_or_create_site s nm d ids).2.1.ip_addresses = s.ip_addresses := by
  rcases site_spec s nm d ids with ⟨st, _, he⟩ | ⟨_, he⟩ <;> rw [he]

theorem dev_ips_eq (nm : Str) (a1 a2 a3 : Nat) (ids : List Nat) (s : NB) :
    (deviceStep nm a1 a2 a3 ids s).2.1.ip_addresses = s.ip_addresses := by
  rcases dev_spec nm a1 a2 a3 ids s with ⟨d, _, he⟩ | ⟨_, he⟩ <;> rw [he]

theorem iface_ips_eq (devid : Nat) (ifname : Str) (mac : Option Str) (ids : List Nat)
    (s : NB) : (ifaceStep devid ifname mac ids s).2.1.ip_addresses = s.ip_addresses := by
  rcases iface_spec devid ifname mac ids s with ⟨i, _, he⟩ | ⟨_, he⟩ <;> rw [he]

theorem countP_replace_same {f : IpRec → Bool} {p q : List IpRec} {y y2 : IpRec}
    (h : f y = f y2) :
    (p ++ y2 :: q).countP f = (p ++ y :: q).countP f := by
  rw [List.countP_append, List.countP_append, List.countP_cons, List.countP_cons, h]

/-- The address step preserves "at most one record per IP value". -/
theorem ipStep_amop (ip : Nat) (nm : Str) (ifid : Nat) (ids : List Nat) (s : NB)
    (h : AtMostOnePerIp s.ip_addresses) :
    AtMostOnePerIp (ipStep ip nm ifid ids s).1.ip_addresses := by
  rcases ip_spec ip nm ifid ids s with ⟨p, r, q, hs, _, he⟩ | ⟨p, r, q, _, _, _, he⟩ |
    ⟨hs, he⟩
  · rw [he]
    intro ip2
    dsimp only
    have hsame : ipMatch ip2 r =
        ipMatch ip2 { r with assigned_object_id := some ifid,
                             assigned_object_type := str "dcim.interface" } := rfl
    rw [countP_replace_same hsame]
    have hl := (findSplit_eq_some hs).1
    rw [← hl]
    exact h ip2
  · rw [he]
    exact h
  · rw [he]
    intro ip2
    dsimp only
    rw [List.countP_append, List.countP_cons]
    by_cases hip : (ip : Nat) = ip2
    · subst hip
      have hz : s.ip_addresses.countP (ipMatch ip) = 0 := by
        rw [List.countP_eq_zero]
        intro a ha
        simp [findSplit_eq_none hs a ha]
      rw [hz]
      simp [ipMatch]
    · have : ipMatch ip2 (⟨s.next_id, ip, str "IP for " ++ nm, str "active", ids,
          str "dcim.interface", some ifid⟩ : IpRec) = false := by
        simp [ipMatch]
        exact hip
      rw [this]
      have := h ip2
      simpa using this

/-- After the address step, the first record for the IP is assigned to the
current interface: a record found assigned elsewhere is reassigned and saved, a
missing record is created pre-assigned. -/
theorem ipStep_enforces (ip : Nat) (nm : Str) (ifid : Nat) (ids : List Nat) (s : NB) :
    ∃ r, find1 (ipMatch ip) (ipStep ip nm ifid ids s).1.ip_addresses = some r ∧
      r.assigned_object_id = some ifid ∧
      r.assigned_object_type = str "dcim.interface" := by
  rcases ip_spec ip nm ifid ids s with ⟨p, r, q, hs, _, he⟩ |
    ⟨p, r, q, hs, ha1, ha2, he⟩ | ⟨hs, he⟩
  · rw [he]
    obtain ⟨_, hr, hp⟩ := findSplit_eq_some hs
    refine ⟨⟨r.id, r.address, r.description, r.status, r.tags,
      str "dcim.interface", some ifid⟩, ?_, rfl, rfl⟩
    dsimp only
    exact find1_replace_hd hp (by simpa [ipMatch] using hr)
  · rw [he]
    exact ⟨r, find1_of_split hs, ha1, ha2⟩
  · rw [he]
    refine ⟨⟨s.next_id, ip, str "IP for " ++ nm, str "active", ids,
      str "dcim.interface", some ifid⟩, ?_, rfl, rfl⟩
    dsimp only
    rw [find1_append_none (find1_eq_none.mpr hs), find1_cons]
    simp [ipMatch]

theorem processDevice_amop (cfg : SyncCfg) (ids : List Nat) (dev : DeviceInfo) (s : NB)
    (h : AtMostOnePerIp s.ip_addresses) :
    AtMostOnePerIp (processDevice cfg ids dev s).1.ip_addresses := by
  unfold processDevice
  dsimp only
  rcases h1 : get_or_create_device_type s (devTypeModel cfg dev)
      cfg.mapping.manufacturer ids with ⟨dt, s1, ev1⟩
  rcases h2 : get_or_create_device_role s1 (devRoleName cfg dev) dev.kind.isVm ids with
    ⟨role, s2, ev2⟩
  rcases h3 : get_or_create_site s2 (devSiteName cfg dev)
      (str "Azure Region: " ++ dev.location) ids with ⟨site, s3, ev3⟩
  rcases h4 : deviceStep (devName cfg dev) dt.id role.id site.id ids s3 with ⟨d4, s4, ev4⟩
  rcases h5 : ifaceStep d4.id cfg.mapping.default_interface (macOf dev) ids s4 with
    ⟨i5, s5, ev5⟩
  have t1 := dt_ips_eq s (devTypeModel cfg dev) cfg.mapping.manufacturer ids
  have t2 := role_ips_eq s1 (devRoleName cfg dev) dev.kind.isVm ids
  have t3 := site_ips_eq s2 (devSiteName cfg dev) (str "Azure Region: " ++ dev.location) ids
  have t4 := dev_ips_eq (devName cfg dev) dt.id role.id site.id ids s3
  have t5 := iface_ips_eq d4.id cfg.mapping.default_interface (macOf dev) ids s4
  rw [h1] at t1; rw [h2] at t2; rw [h3] at t3; rw [h4] at t4; rw [h5] at t5
  dsimp only at t1 t2 t3 t4 t5
  have h5amop : AtMostOnePerIp s5.ip_addresses := by
    rw [t5, t4, t3, t2, t1]
    exact h
  rcases h6 : ipStep dev.ip_address (devName cfg dev) i5.id ids s5 with ⟨s6, ev6⟩
  have := ipStep_amop dev.ip_address (devName cfg dev) i5.id ids s5 h5amop
  rw [h6] at this
  exact this

theorem processDevices_amop (cfg : SyncCfg) (ids : List Nat) (devs : List DeviceInfo)
    (s : NB) (h : AtMostOnePerIp s.ip_addresses) :
    AtMostOnePerIp (processDevices cfg ids devs s).1.ip_addresses := by
  induction devs generalizing s with
  | nil => exact h
  | cons d rest ih =>
      unfold processDevices
      dsimp only
      rcases h1 : processDevice cfg ids d s with ⟨s1, ev1⟩
      have a1 := processDevice_amop cfg ids d s h
      rw [h1] at a1
      rcases h2 : processDevices cfg ids rest s1 with ⟨s2, ev2⟩
      have a2 := ih s1 a1
      rw [h2] at a2
      exact a2

theorem processSubnet_amop (cfg : SyncCfg) (ids vt : List Nat) (sn si vn : Str)
    (pid : Nat) (snet : SubnetInfo) (s : NB) (h : AtMostOnePerIp s.ip_addresses) :
    AtMostOnePerIp (processSubnet cfg ids vt sn si vn pid snet s).1.ip_addresses := by
  unfold processSubnet
  cases hap : snet.address_pfx with
  | none => exact h
  | some c =>
      dsimp only
      rcases h1 : get_or_create_pfx s c (subnetPfxDefaults vt snet.name vn pid) sn si []
        with ⟨rc, s1, ev1⟩
      have t1 := pfx_ips_eq s c (subnetPfxDefaults vt snet.name vn pid) sn si
      rw [h1] at t1
      rcases h2 : processDevices cfg ids snet.devices s1 with ⟨s2, ev2⟩
      have a2 := processDevices_amop cfg ids snet.devices s1 (by rw [t1]; exact h)
      rw [h2] at a2
      exact a2

theorem processSubnets_amop (cfg : SyncCfg) (ids vt : List Nat) (sn si vn : Str)
    (pid : Nat) (sns : List SubnetInfo) (s : NB) (h : AtMostOnePerIp s.ip_addresses) :
    AtMostOnePerIp (processSubnets cfg ids vt sn si vn pid sns s).1.ip_addresses := by
  induction sns generalizing s with
  | nil => exact h
  | cons snet rest ih =>
      unfold processSubnets
      dsimp only
      rcases h1 : processSubnet cfg ids vt sn si vn pid snet s with ⟨s1, ev1⟩
      have a1 := processSubnet_amop cfg ids vt sn si vn pid snet s h
      rw [h1] at a1
      rcases h2 : processSubnets cfg ids vt sn si vn pid rest s1 with ⟨s2, ev2⟩
      have a2 := ih s1 a1
      rw [h2] at a2
      exact a2

theorem processAS_amop (cfg : SyncCfg) (ids vt : List Nat) (sn si : Str) (v : VNetInfo)
    (a : Cidr) (s : NB) (h : AtMostOnePerIp s.ip_addresses) :
    AtMostOnePerIp (processAS cfg ids vt sn si v a s).1.ip_addresses := by
  unfold processAS
  dsimp only
  rcases h1 : get_or_create_pfx s a (vnetPfxDefaults vt v.name si) sn si [] with
    ⟨rc, s1, ev1⟩
  have t1 := pfx_ips_eq s a (vnetPfxDefaults vt v.name si) sn si
  rw [h1] at t1
  rcases h2 : processSubnets cfg ids vt sn si v.name rc.1.id v.subnets s1 with ⟨s2, ev2⟩
  have a2 := processSubnets_amop cfg ids vt sn si v.name rc.1.id v.subnets s1
    (by rw [t1]; exact h)
  rw [h2] at a2
  exact a2

theorem processASList_amop (cfg : SyncCfg) (ids vt : List Nat) (sn si : Str)
    (v : VNetInfo) (las : List Cidr) (s : NB) (h : AtMostOnePerIp s.ip_addresses) :
    AtMostOnePerIp (processASList cfg ids vt sn si v las s).1.ip_addresses := by
  induction las generalizing s with
  | nil => exact h
  | cons a rest ih =>
      unfold processASList
      dsimp only
      rcases h1 : processAS cfg ids vt sn si v a s with ⟨s1, ev1⟩
      have a1 := processAS_amop cfg ids vt sn si v a s h
      rw [h1] at a1
      rcases h2 : processASList cfg ids vt sn si v rest s1 with ⟨s2, ev2⟩
      have a2 := ih s1 a1
      rw [h2] at a2
      exact a2

theorem processVnet_amop (cfg : SyncCfg) (ids st2 : List Nat) (sn si : Str)
    (v : VNetInfo) (s : NB) (h : AtMostOnePerIp s.ip_addresses) :
    AtMostOnePerIp (processVnet cfg ids st2 sn si v s).1.ip_addresses := by
  unfold processVnet
  dsimp only
  rcases h0 : get_or_create_tag s (pyCapitalize (locSlugOf v.location))
      (locSlugOf v.location) (str "Azure region: " ++ v.location) with ⟨t, s1, ev1⟩
  have t0 := tag_ips_eq s (pyCapitalize (locSlugOf v.location)) (locSlugOf v.location)
    (str "Azure region: " ++ v.location)
  rw [h0] at t0
  rcases h1 : processASList cfg ids (st2 ++ [t.id]) sn si v v.address_space s1 with
    ⟨s2, ev2⟩
  have a1 := processASList_amop cfg ids (st2 ++ [t.id]) sn si v v.address_space s1
    (by rw [t0]; exact h)
  rw [h1] at a1
  exact a1

theorem processVnets_amop (cfg : SyncCfg) (ids st2 : List Nat) (sn si : Str)
    (vs : List VNetInfo) (s : NB) (h : AtMostOnePerIp s.ip_addresses) :
    AtMostOnePerIp (processVnets cfg ids st2 sn si vs s).1.ip_addresses := by
  induction vs generalizing s with
  | nil => exact h
  | cons v rest ih =>
      unfold processVnets
      dsimp only
      rcases h1 : processVnet cfg ids st2 sn si v s with ⟨s1, ev1⟩
      have a1 := processVnet_amop cfg ids st2 sn si v s h
      rw [h1] at a1
      rcases h2 : processVnets cfg ids st2 sn si rest s1 with ⟨s2, ev2⟩
      have a2 := ih s1 a1
      rw [h2] at a2
      exact a2

theorem processSub_amop (cfg : SyncCfg) (ids addIds : List Nat) (sub : SubData) (s : NB)
    (h : AtMostOnePerIp s.ip_addresses) :
    AtMostOnePerIp (processSub cfg ids addIds sub s).1.ip_addresses := by
  unfold processSub
  dsimp only
  cases henv : detect_env sub.subscription_name with
  | none =>
      dsimp only
      rcases h2 : processVnets cfg ids (ids ++ addIds ++ []) sub.subscription_name
        sub.subscription_id sub.vnets s with ⟨s2, ev2⟩
      have a2 := processVnets_amop cfg ids (ids ++ addIds ++ []) sub.subscription_name
        sub.subscription_id sub.vnets s h
      rw [h2] at a2
      exact a2
  | some esl =>
      dsimp only
      rcases h0 : get_or_create_tag s (pyUpper esl) esl
        (str "Environment: " ++ pyUpper esl) with ⟨t, s1, ev1⟩
      have t0 := tag_ips_eq s (pyUpper esl) esl (str "Environment: " ++ pyUpper esl)
      rw [h0] at t0
      rcases h2 : processVnets cfg ids (ids ++ addIds ++ [t.id]) sub.subscription_name
        sub.subscription_id sub.vnets s1 with ⟨s2, ev2⟩
      have a2 := processVnets_amop cfg ids (ids ++ addIds ++ [t.id])
        sub.subscription_name sub.subscription_id sub.vnets s1 (by rw [t0]; exact h)
      rw [h2] at a2
      exact a2

theorem processSubs_amop (cfg : SyncCfg) (ids addIds : List Nat) (subs : List SubData)
    (s : NB) (h : AtMostOnePerIp s.ip_addresses) :
    AtMostOnePerIp (processSubs cfg ids addIds subs s).1.ip_addresses := by
  induction subs generalizing s with
  | nil => exact h
  | cons sub rest ih =>
      unfold processSubs
      dsimp only
      rcases h1 : processSub cfg ids addIds sub s with ⟨s1, ev1⟩
      have a1 := processSub_amop cfg ids addIds sub s h
      rw [h1] at a1
      rcases h2 : processSubs cfg ids addIds rest s1 with ⟨s2, ev2⟩
      have a2 := ih s1 a1
      rw [h2] at a2
      exact a2

theorem createAdditionalTags_ips_eq (s : NB) (slugs : List Str) :
    (createAdditionalTags s slugs).2.1.ip_addresses = s.ip_addresses := by
  induction slugs generalizing s with
  | nil => rfl
  | cons sl rest ih =>
      unfold createAdditionalTags
      dsimp only
      rcases h1 : get_or_create_tag s (pyCapitalize sl) sl (str "Additional tag: " ++ sl)
        with ⟨t, s1, ev1⟩
      have t1 := tag_ips_eq s (pyCapitalize sl) sl (str "Additional tag: " ++ sl)
      rw [h1] at t1
      rcases h2 : createAdditionalTags s1 rest with ⟨ids2, s2, ev2⟩
      have t2 := ih s1
      rw [h2] at t2
      dsimp only at t1 t2 ⊢
      rw [t2, t1]

/-- C10: with at most one address record per IP value to begin with, a
completed run leaves at most one address record per IP value — hence at most
one interface holds a live assignment for any IP — and after each device's
address step the record for that device's IP is assigned to that device's
resolved interface: a record found assigned to a different interface is
reassigned and saved, a missing record is created pre-assigned. -/
theorem C10_address_ownership (topo : List SubData) (cfg : SyncCfg) (s : NB)
    (h : AtMostOnePerIp s.ip_addresses) :
    AtMostOnePerIp (sync_to_netbox topo cfg s).1.ip_addresses ∧
    (∀ ip nm ifid ids s2,
      ∃ r, find1 (ipMatch ip) (ipStep ip nm ifid ids s2).1.ip_addresses = some r ∧
        r.assigned_object_id = some ifid ∧
        r.assigned_object_type = str "dcim.interface") := by
  constructor
  · unfold sync_to_netbox
    dsimp only
    rcases h0 : get_or_create_tag s cfg.tags.sync_tag_name
        (slugOf cfg.tags.sync_tag_name) cfg.tags.sync_tag_description with ⟨t0, s1, ev1⟩
    have t0e := tag_ips_eq s cfg.tags.sync_tag_name (slugOf cfg.tags.sync_tag_name)
      cfg.tags.sync_tag_description
    rw [h0] at t0e
    rcases h1 : createAdditionalTags s1 cfg.tags.additional_tags with ⟨addIds, s2, ev2⟩
    have t1e := createAdditionalTags_ips_eq s1 cfg.tags.additional_tags
    rw [h1] at t1e
    rcases h2 : processSubs cfg [t0.id] addIds topo s2 with ⟨s3, ev3⟩
    have a2 := processSubs_amop cfg [t0.id] addIds topo s2
      (by dsimp only at t0e t1e; rw [t1e, t0e]; exact h)
    rw [h2] at a2
    exact a2
  · intro ip nm ifid ids s2
    exact ipStep_enforces ip nm ifid ids s2

theorem C10_witness :
    AtMostOnePerIp NB.empty.ip_addresses ∧
    (AtMostOnePerIp (sync_to_netbox exTopoGood exCfg NB.empty).1.ip_addresses ∧
    (∀ ip nm ifid ids s2,
      ∃ r, find1 (ipMatch ip) (ipStep ip nm ifid ids s2).1.ip_addresses = some r ∧
        r.assigned_object_id = some ifid ∧
        r.assigned_object_type = str "dcim.interface")) :=
  ⟨fun ip => by simp [NB.empty, AtMostOnePerIp],
   C10_address_ownership exTopoGood exCfg NB.empty
     (fun ip => by simp [NB.empty, AtMostOnePerIp])⟩

/-! ## C2: parent linkage of subnet prefixes -/

theorem isSubnetOp_isPfxOp2 {e : Event} (h : Event.isSubnetOp e = true) :
    e.isPfxOp = true := by
  cases e with
  | pfxOp c rid par cr up => simp [Event.isPfxOp]
  | _ => simp [Event.isSubnetOp] at h

theorem ParentLinked_of_no_subnet {W : Cidr → Cidr → Prop} {ev : List Event}
    (h : ∀ e ∈ ev, Event.isSubnetOp e = false) : ParentLinked W ev := by
  intro i hi c rid pid cr up he
  have hmem : ev.get ⟨i, hi⟩ ∈ ev := List.get_mem ev i hi
  have := h _ hmem
  rw [he] at this
  simp [Event.isSubnetOp] at this

theorem ParentLinked_append {W : Cidr → Cidr → Prop} {a b : List Event}
    (ha : ParentLinked W a) (hb : ParentLinked W b) : ParentLinked W (a ++ b) := by
  intro i hi c rid pid cr up he
  rw [List.get_eq_getElem] at he
  by_cases hlt : i < a.length
  · rw [List.getElem_append_left hlt] at he
    obtain ⟨j, hj, hj2, c2, cr2, up2, hje, hW⟩ := ha i hlt c rid pid cr up
      (by rw [List.get_eq_getElem]; exact he)
    refine ⟨j, hj, by rw [List.length_append]; omega, c2, cr2, up2, ?_, hW⟩
    rw [List.get_eq_getElem, List.getElem_append_left hj2]
    rw [List.get_eq_getElem] at hje
    exact hje
  · push_neg at hlt
    have hib : i - a.length < b.length := by
      rw [List.length_append] at hi
      omega
    rw [List.getElem_append_right hlt] at he
    obtain ⟨j, hj, hj2, c2, cr2, up2, hje, hW⟩ := hb (i - a.length) hib c rid pid cr up
      (by rw [List.get_eq_getElem]; exact he)
    refine ⟨a.length + j, by omega, by rw [List.length_append]; omega,
      c2, cr2, up2, ?_, hW⟩
    rw [List.get_eq_getElem]
    have hj3 : a.length ≤ a.length + j := by omega
    rw [List.getElem_append_right hj3]
    rw [List.get_eq_getElem] at hje
    simp only [Nat.add_sub_cancel_left]
    exact hje

theorem ParentLinked_block {W : Cidr → Cidr → Prop} {a : Cidr} {rid : Nat}
    {cr up : Bool} {ev2 : List Event}
    (h2 : ∀ e ∈ ev2, Event.isSubnetOp e = true →
      ∃ c rid2 cr2 up2, e = Event.pfxOp c rid2 (some rid) cr2 up2 ∧ W a c) :
    ParentLinked W (Event.pfxOp a rid none cr up :: ev2) := by
  intro i hi c2 rid2 pid2 cr2 up2 he
  cases i with
  | zero =>
      simp only [List.get] at he
      exact absurd he (by simp)
  | succ k =>
      have hk : k < ev2.length := by
        simp only [List.length_cons] at hi
        omega
      have hmem : ev2.get ⟨k, hk⟩ ∈ ev2 := List.get_mem ev2 k hk
      have hsub : Event.isSubnetOp (ev2.get ⟨k, hk⟩) = true := by
        have he2 : ev2.get ⟨k, hk⟩ = Event.pfxOp c2 rid2 (some pid2) cr2 up2 := he
        rw [he2]
        rfl
      obtain ⟨c3, rid3, cr3, up3, heq, hW⟩ := h2 _ hmem hsub
      have he2 : ev2.get ⟨k, hk⟩ = Event.pfxOp c2 rid2 (some pid2) cr2 up2 := he
      rw [heq] at he2
      injection he2 with e1 e2 e3 e4 e5
      injection e3 with e3
      subst e1; subst e3
      exact ⟨0, by omega, by simp, a, cr, up, rfl, hW⟩

/-- The single event of a prefix upsert carries the result record's id. -/
theorem pfx_ev_rid (s : NB) (c : Cidr) (d : PfxDefaults) (sn si : Str) :
    ∃ cr up, (get_or_create_pfx s c d sn si []).2.2 =
      [Event.pfxOp c (get_or_create_pfx s c d sn si []).1.1.id d.parent cr up] := by
  rcases pfx_spec s c d sn si with ⟨p, r, q, _, _, he⟩ | ⟨p, r, q, _, _, he⟩ | ⟨_, he⟩ <;>
    rw [he] <;> exact ⟨_, _, rfl⟩

theorem processSubnet_subnet_ops (cfg : SyncCfg) (ids vt : List Nat) (sn si vn : Str)
    (pid : Nat) (snet : SubnetInfo) (s : NB) :
    ∀ e ∈ (processSubnet cfg ids vt sn si vn pid snet s).2,
      Event.isSubnetOp e = true →
      ∃ c rid2 cr2 up2, e = Event.pfxOp c rid2 (some pid) cr2 up2 ∧
        c ∈ snet.address_pfx := by
  unfold processSubnet
  cases hap : snet.address_pfx with
  | none => simp
  | some c =>
      dsimp only
      obtain ⟨cr, up, hev⟩ := pfx_ev_rid s c (subnetPfxDefaults vt snet.name vn pid) sn si
      rcases h1 : get_or_create_pfx s c (subnetPfxDefaults vt snet.name vn pid) sn si []
        with ⟨rc, s1, ev1⟩
      rcases h2 : processDevices cfg ids snet.devices s1 with ⟨s2, ev2⟩
      rw [h1] at hev
      have d2 := processDevices_ev_ok cfg ids snet.devices s1
      rw [h2] at d2
      dsimp only at hev ⊢
      rw [hev]
      intro e he hsub
      rcases List.mem_cons.mp he with he | he
      · subst he
        exact ⟨c, rc.1.id, cr, up, rfl, by simp⟩
      · exfalso
        have := d2 e he
        rw [devEvOk, Bool.and_eq_true] at this
        rw [isSubnetOp_isPfxOp2 hsub] at this
        simp at this

theorem processSubnets_subnet_ops (cfg : SyncCfg) (ids vt : List Nat) (sn si vn : Str)
    (pid : Nat) (sns : List SubnetInfo) (s : NB) :
    ∀ e ∈ (processSubnets cfg ids vt sn si vn pid sns s).2,
      Event.isSubnetOp e = true →
      ∃ c rid2 cr2 up2, e = Event.pfxOp c rid2 (some pid) cr2 up2 ∧
        c ∈ sns.filterMap (fun x => x.address_pfx) := by
  induction sns generalizing s with
  | nil => simp [processSubnets]
  | cons snet rest ih =>
      unfold processSubnets
      dsimp only
      rcases h1 : processSubnet cfg ids vt sn si vn pid snet s with ⟨s1, ev1⟩
      rcases h2 : processSubnets cfg ids vt sn si vn pid rest s1 with ⟨s2, ev2⟩
      have f1 := processSubnet_subnet_ops cfg ids vt sn si vn pid snet s
      have f2 := ih s1
      rw [h1] at f1; rw [h2] at f2
      dsimp only at f1 f2 ⊢
      intro e he hsub
      rcases List.mem_append.mp he with he | he
      · obtain ⟨c, rid2, cr2, up2, heq, hc⟩ := f1 e he hsub
        refine ⟨c, rid2, cr2, up2, heq, ?_⟩
        cases hap : snet.address_pfx with
        | none => rw [hap] at hc; simp at hc
        | some c2 =>
            rw [hap] at hc
            simp only [Option.mem_def, Option.some.injEq] at hc
            subst hc
            simp [List.filterMap_cons, hap]
      · obtain ⟨c, rid2, cr2, up2, heq, hc⟩ := f2 e he hsub
        refine ⟨c, rid2, cr2, up2, heq, ?_⟩
        cases hap : snet.address_pfx with
        | none => simp [List.filterMap_cons, hap, hc]
        | some c2 =>
            simp only [List.filterMap_cons, hap]
            exact List.mem_cons_of_mem _ hc

theorem processAS_linked {W : Cidr → Cidr → Prop} (cfg : SyncCfg) (ids vt : List Nat)
    (sn si : Str) (v : VNetInfo) (a : Cidr) (s : NB)
    (hW : ∀ c ∈ subnetCidrs v, W a c) :
    ParentLinked W (processAS cfg ids vt sn si v a s).2 := by
  unfold processAS
  dsimp only
  obtain ⟨cr, up, hev⟩ := pfx_ev_rid s a (vnetPfxDefaults vt v.name si) sn si
  rcases h1 : get_or_create_pfx s a (vnetPfxDefaults vt v.name si) sn si [] with
    ⟨rc, s1, ev1⟩
  rcases h2 : processSubnets cfg ids vt sn si v.name rc.1.id v.subnets s1 with ⟨s2, ev2⟩
  rw [h1] at hev
  have f2 := processSubnets_subnet_ops cfg ids vt sn si v.name rc.1.id v.subnets s1
  rw [h2] at f2
  dsimp only at hev f2 ⊢
  rw [hev]
  rw [List.singleton_append]
  apply ParentLinked_block
  intro e he hsub
  obtain ⟨c, rid2, cr2, up2, heq, hc⟩ := f2 e he hsub
  exact ⟨c, rid2, cr2, up2, heq, hW c hc⟩

theorem processASList_linked {W : Cidr → Cidr → Prop} (cfg : SyncCfg) (ids vt : List Nat)
    (sn si : Str) (v : VNetInfo) (las : List Cidr) (s : NB)
    (hW : ∀ a ∈ las, ∀ c ∈ subnetCidrs v, W a c) :
    ParentLinked W (processASList cfg ids vt sn si v las s).2 := by
  induction las generalizing s with
  | nil => exact ParentLinked_of_no_subnet (by simp [processASList])
  | cons a rest ih =>
      unfold processASList
      dsimp only
      rcases h1 : processAS cfg ids vt sn si v a s with ⟨s1, ev1⟩
      rcases h2 : processASList cfg ids vt sn si v rest s1 with ⟨s2, ev2⟩
      have f1 := processAS_linked cfg ids vt sn si v a s (hW a (by simp))
      have f2 := ih s1 (fun x hx => hW x (List.mem_cons_of_mem _ hx))
      rw [h1] at f1; rw [h2] at f2
      exact ParentLinked_append f1 f2

theorem tag_no_subnet (s : NB) (n sl d : Str) :
    ∀ e ∈ (get_or_create_tag s n sl d).2.2, Event.isSubnetOp e = false := by
  rcases tag_spec s n sl d with ⟨t, _, he⟩ | ⟨_, he⟩ <;> rw [he] <;>
    simp [Event.isSubnetOp]

theorem processVnet_linked {W : Cidr → Cidr → Prop} (cfg : SyncCfg) (ids st2 : List Nat)
    (sn si : Str) (v : VNetInfo) (s : NB)
    (hW : ∀ a ∈ v.address_space, ∀ c ∈ subnetCidrs v, W a c) :
    ParentLinked W (processVnet cfg ids st2 sn si v s).2 := by
  unfold processVnet
  dsimp only
  rcases h0 : get_or_create_tag s (pyCapitalize (locSlugOf v.location))
      (locSlugOf v.location) (str "Azure region: " ++ v.location) with ⟨t, s1, ev1⟩
  rcases h1 : processASList cfg ids (st2 ++ [t.id]) sn si v v.address_space s1 with
    ⟨s2, ev2⟩
  have f0 := tag_no_subnet s (pyCapitalize (locSlugOf v.location)) (locSlugOf v.location)
    (str "Azure region: " ++ v.location)
  have f1 := processASList_linked cfg ids (st2 ++ [t.id]) sn si v v.address_space s1 hW
  rw [h0] at f0; rw [h1] at f1
  exact ParentLinked_append (ParentLinked_of_no_subnet f0) f1

theorem processVnets_linked {W : Cidr → Cidr → Prop} (cfg : SyncCfg) (ids st2 : List Nat)
    (sn si : Str) (vs : List VNetInfo) (s : NB)
    (hW : ∀ v ∈ vs, ∀ a ∈ v.address_space, ∀ c ∈ subnetCidrs v, W a c) :
    ParentLinked W (processVnets cfg ids st2 sn si vs s).2 := by
  induction vs generalizing s with
  | nil => exact ParentLinked_of_no_subnet (by simp [processVnets])
  | cons v rest ih =>
      unfold processVnets
      dsimp only
      rcases h1 : processVnet cfg ids st2 sn si v s with ⟨s1, ev1⟩
      rcases h2 : processVnets cfg ids st2 sn si rest s1 with ⟨s2, ev2⟩
      have f1 := processVnet_linked cfg ids st2 sn si v s (hW v (by simp))
      have f2 := ih s1 (fun x hx => hW x (List.mem_cons_of_mem _ hx))
      rw [h1] at f1; rw [h2] at f2
      exact ParentLinked_append f1 f2

theorem processSub_linked {W : Cidr → Cidr → Prop} (cfg : SyncCfg) (ids addIds : List Nat)
    (sub : SubData) (s : NB)
    (hW : ∀ v ∈ sub.vnets, ∀ a ∈ v.address_space, ∀ c ∈ subnetCidrs v, W a c) :
    ParentLinked W (processSub cfg ids addIds sub s).2 := by
  unfold processSub
  dsimp only
  cases henv : detect_env sub.subscription_name with
  | none =>
      dsimp only
      rcases h2 : processVnets cfg ids (ids ++ addIds ++ []) sub.subscription_name
        sub.subscription_id sub.vnets s with ⟨s2, ev2⟩
      have f2 := processVnets_linked cfg ids (ids ++ addIds ++ []) sub.subscription_name
        sub.subscription_id sub.vnets s hW
      rw [h2] at f2
      exact f2
  | some esl =>
      dsimp only
      rcases h0 : get_or_create_tag s (pyUpper esl) esl
        (str "Environment: " ++ pyUpper esl) with ⟨t, s1, ev1⟩
      rcases h2 : processVnets cfg ids (ids ++ addIds ++ [t.id]) sub.subscription_name
        sub.subscription_id sub.vnets s1 with ⟨s2, ev2⟩
      have f0 := tag_no_subnet s (pyUpper esl) esl (str "Environment: " ++ pyUpper esl)
      have f2 := processVnets_linked cfg ids (ids ++ addIds ++ [t.id])
        sub.subscription_name sub.subscription_id sub.vnets s1 hW
      rw [h0] at f0; rw [h2] at f2
      exact ParentLinked_append (ParentLinked_of_no_subnet f0) f2

theorem processSubs_linked {W : Cidr → Cidr → Prop} (cfg : SyncCfg)
    (ids addIds : List Nat) (subs : List SubData) (s : NB)
    (hW : ∀ sub ∈ subs, ∀ v ∈ sub.vnets, ∀ a ∈ v.address_space, ∀ c ∈ subnetCidrs v,
      W a c) :
    ParentLinked W (processSubs cfg ids addIds subs s).2 := by
  induction subs generalizing s with
  | nil => exact ParentLinked_of_no_subnet (by simp [processSubs])
  | cons sub rest ih =>
      unfold processSubs
      dsimp only
      rcases h1 : processSub cfg ids addIds sub s with ⟨s1, ev1⟩
      rcases h2 : processSubs cfg ids addIds rest s1 with ⟨s2, ev2⟩
      have f1 := processSub_linked cfg ids addIds sub s (hW sub (by simp))
      have f2 := ih s1 (fun x hx => hW x (List.mem_cons_of_mem _ hx))
      rw [h1] at f1; rw [h2] at f2
      exact ParentLinked_append f1 f2

theorem createAdditionalTags_no_subnet (s : NB) (slugs : List Str) :
    ∀ e ∈ (createAdditionalTags s slugs).2.2, Event.isSubnetOp e = false := by
  induction slugs generalizing s with
  | nil => simp [createAdditionalTags]
  | cons sl rest ih =>
      unfold createAdditionalTags
      dsimp only
      rcases h1 : get_or_create_tag s (pyCapitalize sl) sl (str "Additional tag: " ++ sl)
        with ⟨t, s1, ev1⟩
      rcases h2 : createAdditionalTags s1 rest with ⟨ids2, s2, ev2⟩
      have f1 := tag_no_subnet s (pyCapitalize sl) sl (str "Additional tag: " ++ sl)
      have f2 := ih s1
      rw [h1] at f1; rw [h2] at f2
      dsimp only at f1 f2 ⊢
      intro e he
      rcases List.mem_append.mp he with he | he
      · exact f1 e he
      · exact f2 e he

theorem sync_linked {W : Cidr → Cidr → Prop} (topo : List SubData) (cfg : SyncCfg)
    (s : NB)
    (hW : ∀ sub ∈ topo, ∀ v ∈ sub.vnets, ∀ a ∈ v.address_space, ∀ c ∈ subnetCidrs v,
      W a c) :
    ParentLinked W (sync_to_netbox topo cfg s).2 := by
  unfold sync_to_netbox
  dsimp only
  rcases h0 : get_or_create_tag s cfg.tags.sync_tag_name (slugOf cfg.tags.sync_tag_name)
      cfg.tags.sync_tag_description with ⟨t0, s1, ev1⟩
  rcases h1 : createAdditionalTags s1 cfg.tags.additional_tags with ⟨addIds, s2, ev2⟩
  rcases h2 : processSubs cfg [t0.id] addIds topo s2 with ⟨s3, ev3⟩
  have f0 := tag_no_subnet s cfg.tags.sync_tag_name (slugOf cfg.tags.sync_tag_name)
    cfg.tags.sync_tag_description
  have f1 := createAdditionalTags_no_subnet s1 cfg.tags.additional_tags
  have f2 := processSubs_linked cfg [t0.id] addIds topo s2 hW
  rw [h0] at f0; rw [h1] at f1; rw [h2] at f2
  exact ParentLinked_append
    (ParentLinked_append (ParentLinked_of_no_subnet f0) (ParentLinked_of_no_subnet f1)) f2

/-- C2 amended: every subnet-prefix upsert passes as parent the id returned by
a network-prefix upsert that happened earlier in the same run's call order
(the upsert for the current address-space entry of the owning network); that
network CIDR encloses the subnet's CIDR whenever the discovered topology is
well-formed in the sense of `WFEnclose` — with several address-space entries
the code links the subnet to the entry currently being iterated, whether or
not it encloses the subnet (see the counterexample). -/
theorem C2_parent_upserted_before (topo : List SubData) (cfg : SyncCfg) (s : NB) :
    ParentLinked (fun _ _ => True) (sync_to_netbox topo cfg s).2 ∧
    (WFEnclose topo →
      ParentLinked (fun c2 c => encloses c2 c = true) (sync_to_netbox topo cfg s).2) := by
  constructor
  · exact sync_linked topo cfg s (fun _ _ _ _ _ _ _ _ => trivial)
  · intro hwf
    exact sync_linked topo cfg s hwf

theorem C2_witness :
    WFEnclose exTopoGood ∧
    ParentLinked (fun c2 c => encloses c2 c = true)
      (sync_to_netbox exTopoGood exCfg NB.empty).2 :=
  ⟨by unfold WFEnclose; decide,
   (C2_parent_upserted_before exTopoGood exCfg NB.empty).2 (by unfold WFEnclose; decide)⟩

/-- C2 counterexample: with two address-space entries [10.0.0.0/16,
192.168.0.0/16] and subnet 10.0.1.0/24, the run leaves the subnet prefix
parented to the 192.168.0.0/16 record (the last address-space entry iterated),
which does not enclose the subnet's CIDR, even though 10.0.0.0/16 does. -/
theorem C2_counterexample :
    ((find1 (pfxMatch cidrS) (sync_to_netbox exTopoTwoAS exCfg NB.empty).1.pfxs).map
        (fun r => r.parent) = some (some 6)) ∧
    ((find1 (pfxMatch cidrB) (sync_to_netbox exTopoTwoAS exCfg NB.empty).1.pfxs).map
        (fun r => r.id) = some 6) ∧
    encloses cidrB cidrS = false ∧ encloses cidrA cidrS = true := by
  refine ⟨?_, ?_, ?_, ?_⟩ <;> decide

/-! ## C1 groundwork: conformance of the prefix upsert -/

theorem pfxApply_id (r : PfxRec) (d : PfxDefaults) (sn si : Str) :
    (pfxApply r d sn si).id = r.id := by
  unfold pfxApply
  dsimp only
  split <;> rfl

theorem pfxApply_cidr (r : PfxRec) (d : PfxDefaults) (sn si : Str) :
    (pfxApply r d sn si).cidr = r.cidr := by
  unfold pfxApply
  dsimp only
  split <;> rfl

theorem pfxTruthy_iff (sn si : Str) : pfxTruthy sn si = true ↔ sn ≠ [] ∧ si ≠ [] := by
  unfold pfxTruthy
  rw [Bool.and_eq_true]
  constructor
  · intro ⟨h1, h2⟩
    constructor
    · intro hc; subst hc; simp at h1
    · intro hc; subst hc; simp at h2
  · intro ⟨h1, h2⟩
    constructor
    · cases sn with
      | nil => exact absurd rfl h1
      | cons a l => rfl
    · cases si with
      | nil => exact absurd rfl h2
      | cons a l => rfl

theorem pfxCfStale_false_iff (r : PfxRec) (sn si : Str) :
    pfxCfStale r sn si = false ↔
      r.custom_fields = ⟨some (azureSubVal sn si), some (azureSubUrl si)⟩ := by
  unfold pfxCfStale
  rw [Bool.or_eq_false_iff, bne_eq_false_iff_eq, bne_eq_false_iff_eq]
  constructor
  · intro ⟨h1, h2⟩
    cases hcf : r.custom_fields with
    | mk a b =>
        rw [hcf] at h1 h2
        dsimp only at h1 h2
        rw [h1, h2]
  · intro h
    rw [h]
    exact ⟨rfl, rfl⟩

theorem pfxNeeds_false_iff (r : PfxRec) (d : PfxDefaults) (sn si : Str) :
    pfxNeeds r d sn si = false ↔ conformPfx r d sn si := by
  unfold pfxNeeds conformPfx
  rw [Bool.or_eq_false_iff, Bool.or_eq_false_iff, Bool.or_eq_false_iff,
    Bool.or_eq_false_iff, bne_eq_false_iff_eq, bne_eq_false_iff_eq, bne_eq_false_iff_eq,
    Bool.and_eq_false_iff]
  constructor
  · intro ⟨⟨⟨⟨hdesc, hstat⟩, htags⟩, hpar⟩, hcf⟩
    refine ⟨hdesc, hstat, htags, ?_, ?_⟩
    · intro pid hpid
      rw [hpid] at hpar
      simpa using hpar
    · intro hsn hsi
      rcases hcf with hT | hS
      · exact absurd ((pfxTruthy_iff sn si).mpr ⟨hsn, hsi⟩)
          (by rw [hT]; exact Bool.false_ne_true)
      · exact (pfxCfStale_false_iff r sn si).mp hS
  · intro ⟨hdesc, hstat, htags, hpar, hcf⟩
    refine ⟨⟨⟨⟨hdesc, hstat⟩, htags⟩, ?_⟩, ?_⟩
    · cases hd : d.parent with
      | none => rfl
      | some pid => simpa using hpar pid hd
    · by_cases hT : pfxTruthy sn si = true
      · obtain ⟨hsn, hsi⟩ := (pfxTruthy_iff sn si).mp hT
        exact Or.inr ((pfxCfStale_false_iff r sn si).mpr (hcf hsn hsi))
      · exact Or.inl (by simpa using hT)

theorem conform_pfxApply (r : PfxRec) (d : PfxDefaults) (sn si : Str) :
    conformPfx (pfxApply r d sn si) d sn si := by
  unfold pfxApply
  dsimp only
  by_cases hc : (pfxTruthy sn si && pfxCfStale r sn si) = true
  · rw [if_pos hc]
    refine ⟨rfl, rfl, rfl, ?_, ?_⟩
    · intro pid hpid
      dsimp only
      rw [hpid]
    · intro _ _
      rfl
  · rw [if_neg hc]
    refine ⟨rfl, rfl, rfl, ?_, ?_⟩
    · intro pid hpid
      dsimp only
      rw [hpid]
    · intro hsn hsi
      dsimp only
      rw [Bool.and_eq_true] at hc
      push_neg at hc
      have hT := (pfxTruthy_iff sn si).mpr ⟨hsn, hsi⟩
      have hS : pfxCfStale r sn si = false := by
        cases hS2 : pfxCfStale r sn si with
        | false => rfl
        | true => exact absurd hS2 (hc hT)
      exact (pfxCfStale_false_iff r sn si).mp hS

theorem conform_pfxNew (nid : Nat) (c : Cidr) (d : PfxDefaults) (sn si : Str) :
    conformPfx (pfxNew nid c d sn si) d sn si := by
  unfold pfxNew
  refine ⟨rfl, rfl, rfl, ?_, ?_⟩
  · intro pid hpid
    dsimp only
    rw [hpid]
  · intro hsn hsi
    dsimp only
    rw [if_pos ((pfxTruthy_iff sn si).mpr ⟨hsn, hsi⟩)]

theorem pfxNew_cidr (nid : Nat) (c : Cidr) (d : PfxDefaults) (sn si : Str) :
    (pfxNew nid c d sn si).cidr = c := rfl

/-! ## C1 groundwork: what each lookup-or-create resolves to afterwards -/

theorem tag_resolves (s : NB) (n sl d : Str) :
    find1 (tagMatch sl) (get_or_create_tag s n sl d).2.1.tags =
      some (get_or_create_tag s n sl d).1 := by
  rcases tag_spec s n sl d with ⟨t, hf, he⟩ | ⟨hf, he⟩ <;> rw [he]
  · exact hf
  · dsimp only
    rw [find1_append_none hf, find1_cons]
    simp [tagMatch]

theorem dt_resolves_some (s : NB) (model manu : Str) (ids : List Nat) :
    (find1 (dtMatch model) (get_or_create_device_type s model manu ids).2.1.device_types).isSome
      = true := by
  rcases dt_spec s model manu ids with ⟨dt, hf, he⟩ | ⟨hf, dt, dm, nid, b, hm, he⟩ <;>
    rw [he]
  · rw [hf]; rfl
  · dsimp only
    rw [find1_append_none hf, find1_cons, if_pos hm]
    rfl

theorem role_resolves_some (s : NB) (nm : Str) (vr : Bool) (ids : List Nat) :
    (find1 (roleMatch nm)
      (get_or_create_device_role s nm vr ids).2.1.device_roles).isSome = true := by
  rcases role_spec s nm vr ids with ⟨r, hf, he⟩ | ⟨hf, he⟩ <;> rw [he]
  · rw [hf]; rfl
  · dsimp only
    rw [find1_append_none hf, find1_cons]
    simp [roleMatch]

theorem site_resolves (s : NB) (nm d : Str) (ids : List Nat) :
    find1 (siteMatch nm) (get_or_create_site s nm d ids).2.1.sites =
      some (get_or_create_site s nm d ids).1 := by
  rcases site_spec s nm d ids with ⟨st, hf, he⟩ | ⟨hf, he⟩ <;> rw [he]
  · exact hf
  · dsimp only
    rw [find1_append_none hf, find1_cons]
    simp [siteMatch]

theorem dev_resolves (nm : Str) (a1 a2 a3 : Nat) (ids : List Nat) (s : NB) :
    find1 (devMatch nm a3) (deviceStep nm a1 a2 a3 ids s).2.1.devices =
      some (deviceStep nm a1 a2 a3 ids s).1 := by
  rcases dev_spec nm a1 a2 a3 ids s with ⟨dd, hf, he⟩ | ⟨hf, he⟩ <;> rw [he]
  · exact hf
  · dsimp only
    rw [find1_append_none hf, find1_cons]
    simp [devMatch]

theorem iface_resolves (devid : Nat) (ifname : Str) (mac : Option Str) (ids : List Nat)
    (s : NB) :
    find1 (ifMatch devid ifname) (ifaceStep devid ifname mac ids s).2.1.interfaces =
      some (ifaceStep devid ifname mac ids s).1 := by
  rcases iface_spec devid ifname mac ids s with ⟨i, hf, he⟩ | ⟨hf, he⟩ <;> rw [he]
  · exact hf
  · dsimp only
    rw [find1_append_none hf, find1_cons]
    simp [ifMatch]

/-- After the upsert, the first record for the CIDR conforms to the defaults
and carries the id the caller goes on to use as parent reference. -/
theorem pfx_establishes (s : NB) (c : Cidr) (d : PfxDefaults) (sn si : Str) :
    ∃ r, find1 (pfxMatch c) (get_or_create_pfx s c d sn si []).2.1.pfxs = some r ∧
      conformPfx r d sn si ∧ r.id = (get_or_create_pfx s c d sn si []).1.1.id := by
  rcases pfx_spec s c d sn si with ⟨p, r, q, hs, hn, he⟩ | ⟨p, r, q, hs, hn, he⟩ |
    ⟨hs, he⟩ <;> rw [he]
  · obtain ⟨_, hr, hp⟩ := findSplit_eq_some hs
    refine ⟨pfxApply r d sn si, ?_, conform_pfxApply r d sn si, rfl⟩
    dsimp only
    apply find1_replace_hd hp
    rw [pfxMatch]
    rw [pfxApply_cidr]
    exact hr
  · obtain ⟨_, hr, hp⟩ := findSplit_eq_some hs
    refine ⟨r, ?_, (pfxNeeds_false_iff r d sn si).mp hn, (pfxApply_id r d sn si).symm⟩
    dsimp only
    have := (findSplit_eq_some hs).1
    rw [this]
    exact find1_replace_hd hp hr
  · refine ⟨pfxNew s.next_id c d sn si, ?_, conform_pfxNew s.next_id c d sn si, rfl⟩
    dsimp only
    rw [find1_append_none (find1_eq_none.mpr hs), find1_cons]
    simp [pfxMatch, pfxNew_cidr]

/-! ## C1 groundwork: silent runs of the primitives -/

theorem tag_silent (n d : Str) {s : NB} {sl : Str} {t : TagRec}
    (hf : find1 (tagMatch sl) s.tags = some t) :
    get_or_create_tag s n sl d = (t, s, [Event.tagGet sl true]) := by
  rcases tag_spec s n sl d with ⟨t2, hf2, he⟩ | ⟨hf2, he⟩
  · rw [hf2] at hf
    cases hf
    exact he
  · rw [hf2] at hf
    cases hf

theorem dt_silent (manu : Str) (ids : List Nat) {s : NB} {model : Str}
    (hf : (find1 (dtMatch model) s.device_types).isSome = true) :
    ∃ dt, find1 (dtMatch model) s.device_types = some dt ∧
      get_or_create_device_type s model manu ids = (dt, s, [Event.dtOp model false]) := by
  rcases dt_spec s model manu ids with ⟨dt, hf2, he⟩ | ⟨hf2, he⟩
  · exact ⟨dt, hf2, he⟩
  · rw [hf2] at hf
    cases hf

theorem role_silent (vr : Bool) (ids : List Nat) {s : NB} {nm : Str}
    (hf : (find1 (roleMatch nm) s.device_roles).isSome = true) :
    ∃ r, find1 (roleMatch nm) s.device_roles = some r ∧
      get_or_create_device_role s nm vr ids = (r, s, [Event.roleOp nm false]) := by
  rcases role_spec s nm vr ids with ⟨r, hf2, he⟩ | ⟨hf2, he⟩
  · exact ⟨r, hf2, he⟩
  · rw [hf2] at hf
    cases hf

theorem site_silent (d : Str) (ids : List Nat) {s : NB} {nm : Str} {st : SiteRec}
    (hf : find1 (siteMatch nm) s.sites = some st) :
    get_or_create_site s nm d ids = (st, s, [Event.siteOp nm false]) := by
  rcases site_spec s nm d ids with ⟨st2, hf2, he⟩ | ⟨hf2, he⟩
  · rw [hf2] at hf
    cases hf
    exact he
  · rw [hf2] at hf
    cases hf

theorem dev_silent (a1 a2 : Nat) (ids : List Nat) {nm : Str} {a3 : Nat} {s : NB}
    {dd : DevRec} (hf : find1 (devMatch nm a3) s.devices = some dd) :
    deviceStep nm a1 a2 a3 ids s = (dd, s, [Event.devOp nm a3 false]) := by
  rcases dev_spec nm a1 a2 a3 ids s with ⟨d2, hf2, he⟩ | ⟨hf2, he⟩
  · rw [hf2] at hf
    cases hf
    exact he
  · rw [hf2] at hf
    cases hf

theorem iface_silent (mac : Option Str) (ids : List Nat) {devid : Nat} {ifname : Str}
    {s : NB} {i : IfRec} (hf : find1 (ifMatch devid ifname) s.interfaces = some i) :
    ifaceStep devid ifname mac ids s = (i, s, [Event.ifOp devid ifname false]) := by
  rcases iface_spec devid ifname mac ids s with ⟨i2, hf2, he⟩ | ⟨hf2, he⟩
  · rw [hf2] at hf
    cases hf
    exact he
  · rw [hf2] at hf
    cases hf

theorem ip_silent (nm : Str) (ids : List Nat) {ip : Nat} {ifid : Nat} {s : NB} {r : IpRec}
    (hf : find1 (ipMatch ip) s.ip_addresses = some r)
    (ha1 : r.assigned_object_id = some ifid)
    (ha2 : r.assigned_object_type = str "dcim.interface") :
    ipStep ip nm ifid ids s = (s, [Event.ipOp ip false false]) := by
  rcases ip_spec ip nm ifid ids s with ⟨p, r2, q, hs, hcond, he⟩ |
    ⟨p, r2, q, hs, _, _, he⟩ | ⟨hs, he⟩
  · have : r2 = r := by
      have := find1_of_split hs
      rw [this] at hf
      exact (Option.some.injEq .. ▸ hf).symm ▸ rfl
    subst this
    rw [ha1, ha2] at hcond
    simp at hcond
  · exact he
  · rw [find1_eq_none.mpr hs] at hf
    cases hf

theorem pfx_silent {s : NB} {c : Cidr} {d : PfxDefaults} {sn si : Str} {r : PfxRec}
    (hf : find1 (pfxMatch c) s.pfxs = some r) (hc : conformPfx r d sn si) :
    get_or_create_pfx s c d sn si [] =
      ((pfxApply r d sn si, false), s, [Event.pfxOp c r.id d.parent false false]) := by
  rcases pfx_spec s c d sn si with ⟨p, r2, q, hs, hn, he⟩ | ⟨p, r2, q, hs, hn, he⟩ |
    ⟨hs, he⟩
  · have hr2 : r2 = r := by
      have := find1_of_split hs
      rw [this] at hf
      exact Option.some.inj hf
    subst hr2
    rw [(pfxNeeds_false_iff r2 d sn si).mpr hc] at hn
    cases hn
  · have hr2 : r2 = r := by
      have := find1_of_split hs
      rw [this] at hf
      exact Option.some.inj hf
    subst hr2
    rw [he, pfxApply_id]
  · rw [find1_eq_none.mpr hs] at hf
    cases hf

/-! ## C1 groundwork: state evolution as seen by the lookups -/

theorem KeepsL_refl (s : NB) (tc : List Cidr) (ti : List Nat) : KeepsL s s tc ti :=
  ⟨fun _ _ h => h, fun _ _ h => h, fun _ _ h => h, fun _ _ h => h, fun _ _ h => h,
   fun _ _ h => h, fun _ _ h => h, fun _ h => h, fun _ _ _ h => h, fun _ h => h,
   fun _ _ _ h => h⟩

theorem KeepsL_trans {s t u : NB} {tc : List Cidr} {ti : List Nat}
    (h1 : KeepsL s t tc ti) (h2 : KeepsL t u tc ti) : KeepsL s u tc ti :=
  ⟨fun f x h => h2.tagsK f x (h1.tagsK f x h),
   fun f x h => h2.manusK f x (h1.manusK f x h),
   fun f x h => h2.dtsK f x (h1.dtsK f x h),
   fun f x h => h2.rolesK f x (h1.rolesK f x h),
   fun f x h => h2.sitesK f x (h1.sitesK f x h),
   fun f x h => h2.devsK f x (h1.devsK f x h),
   fun f x h => h2.ifsK f x (h1.ifsK f x h),
   fun c h => h2.pfxSome c (h1.pfxSome c h),
   fun c hc r h => h2.pfxEq c hc r (h1.pfxEq c hc r h),
   fun i h => h2.ipSome i (h1.ipSome i h),
   fun i hi r h => h2.ipEq i hi r (h1.ipEq i hi r h)⟩

theorem KeepsL_mono {s t : NB} {tc tc' : List Cidr} {ti ti' : List Nat}
    (h : KeepsL s t tc ti) (hc : ∀ c ∈ tc, c ∈ tc') (hi : ∀ i ∈ ti, i ∈ ti') :
    KeepsL s t tc' ti' :=
  ⟨h.tagsK, h.manusK, h.dtsK, h.rolesK, h.sitesK, h.devsK, h.ifsK, h.pfxSome,
   fun c hcn r hr => h.pfxEq c (fun hin => hcn (hc c hin)) r hr, h.ipSome,
   fun i hin r hr => h.ipEq i (fun hmem => hin (hi i hmem)) r hr⟩

theorem pfxMatch_other {r : PfxRec} {c c2 : Cidr} (hr : pfxMatch c r = true)
    (hne : c2 ≠ c) : pfxMatch c2 r = false := by
  simp only [pfxMatch, beq_iff_eq] at hr
  simp only [pfxMatch, beq_eq_false_iff_ne, ne_eq, hr]
  exact fun h => hne h.symm

theorem ipMatch_other {r : IpRec} {i i2 : Nat} (hr : ipMatch i r = true)
    (hne : i2 ≠ i) : ipMatch i2 r = false := by
  simp only [ipMatch, beq_iff_eq] at hr
  simp only [ipMatch, beq_eq_false_iff_ne, ne_eq, hr]
  exact fun h => hne h.symm

theorem tag_keeps (s : NB) (n sl d : Str) (tc : List Cidr) (ti : List Nat) :
    KeepsL s (get_or_create_tag s n sl d).2.1 tc ti := by
  rcases tag_spec s n sl d with ⟨t, hf, he⟩ | ⟨hf, he⟩ <;> rw [he]
  · exact KeepsL_refl s tc ti
  · exact ⟨fun f x h => find1_append_some h, fun _ _ h => h, fun _ _ h => h,
      fun _ _ h => h, fun _ _ h => h, fun _ _ h => h, fun _ _ h => h, fun _ h => h,
      fun _ _ _ h => h, fun _ h => h, fun _ _ _ h => h⟩

theorem dt_keeps (s : NB) (model manu : Str) (ids : List Nat) (tc : List Cidr)
    (ti : List Nat) : KeepsL s (get_or_create_device_type s model manu ids).2.1 tc ti := by
  rcases dt_spec s model manu ids with ⟨dt, hf, he⟩ | ⟨hf, dt, dm, nid, b, hm, he⟩ <;>
    rw [he]
  · exact KeepsL_refl s tc ti
  · exact ⟨fun _ _ h => h, fun f x h => find1_append_some h,
      fun f x h => find1_append_some h, fun _ _ h => h, fun _ _ h => h, fun _ _ h => h,
      fun _ _ h => h, fun _ h => h, fun _ _ _ h => h, fun _ h => h, fun _ _ _ h => h⟩

theorem role_keeps (s : NB) (nm : Str) (vr : Bool) (ids : List Nat) (tc : List Cidr)
    (ti : List Nat) : KeepsL s (get_or_create_device_role s nm vr ids).2.1 tc ti := by
  rcases role_spec s nm vr ids with ⟨r, hf, he⟩ | ⟨hf, he⟩ <;> rw [he]
  · exact KeepsL_refl s tc ti
  · exact ⟨fun _ _ h => h, fun _ _ h => h, fun _ _ h => h,
      fun f x h => find1_append_some h, fun _ _ h => h, fun _ _ h => h, fun _ _ h => h,
      fun _ h => h, fun _ _ _ h => h, fun _ h => h, fun _ _ _ h => h⟩

theorem site_keeps (s : NB) (nm d : Str) (ids : List Nat) (tc : List Cidr)
    (ti : List Nat) : KeepsL s (get_or_create_site s nm d ids).2.1 tc ti := by
  rcases site_spec s nm d ids with ⟨st, hf, he⟩ | ⟨hf, he⟩ <;> rw [he]
  · exact KeepsL_refl s tc ti
  · exact ⟨fun _ _ h => h, fun _ _ h => h, fun _ _ h => h, fun _ _ h => h,
      fun f x h => find1_append_some h, fun _ _ h => h, fun _ _ h => h, fun _ h => h,
      fun _ _ _ h => h, fun _ h => h, fun _ _ _ h => h⟩

theorem dev_keeps (nm : Str) (a1 a2 a3 : Nat) (ids : List Nat) (s : NB) (tc : List Cidr)
    (ti : List Nat) : KeepsL s (deviceStep nm a1 a2 a3 ids s).2.1 tc ti := by
  rcases dev_spec nm a1 a2 a3 ids s with ⟨dd, hf, he⟩ | ⟨hf, he⟩ <;> rw [he]
  · exact KeepsL_refl s tc ti
  · exact ⟨fun _ _ h => h, fun _ _ h => h, fun _ _ h => h, fun _ _ h => h,
      fun _ _ h => h, fun f x h => find1_append_some h, fun _ _ h => h, fun _ h => h,
      fun _ _ _ h => h, fun _ h => h, fun _ _ _ h => h⟩

theorem iface_keeps (devid : Nat) (ifname : Str) (mac : Option Str) (ids : List Nat)
    (s : NB) (tc : List Cidr) (ti : List Nat) :
    KeepsL s (ifaceStep devid ifname mac ids s).2.1 tc ti := by
  rcases iface_spec devid ifname mac ids s with ⟨i, hf, he⟩ | ⟨hf, he⟩ <;> rw [he]
  · exact KeepsL_refl s tc ti
  · exact ⟨fun _ _ h => h, fun _ _ h => h, fun _ _ h => h, fun _ _ h => h,
      fun _ _ h => h, fun _ _ h => h, fun f x h => find1_append_some h, fun _ h => h,
      fun _ _ _ h => h, fun _ h => h, fun _ _ _ h => h⟩

theorem pfx_keeps (s : NB) (c : Cidr) (d : PfxDefaults) (sn si : Str) (tc : List Cidr)
    (ti : List Nat) (hc : c ∈ tc) :
    KeepsL s (get_or_create_pfx s c d sn si []).2.1 tc ti := by
  rcases pfx_spec s c d sn si with ⟨p, r, q, hs, hn, he⟩ | ⟨p, r, q, hs, hn, he⟩ |
    ⟨hs, he⟩ <;> rw [he]
  · obtain ⟨hl, hr, hp⟩ := findSplit_eq_some hs
    have hr2 : pfxMatch c (pfxApply r d sn si) = true := by
      simp only [pfxMatch, pfxApply_cidr]
      simpa only [pfxMatch] using hr
    refine ⟨fun _ _ h => h, fun _ _ h => h, fun _ _ h => h, fun _ _ h => h,
      fun _ _ h => h, fun _ _ h => h, fun _ _ h => h, ?_, ?_, fun _ h => h,
      fun _ _ _ h => h⟩
    · intro c2 h
      dsimp only
      by_cases hcc : c2 = c
      · subst hcc
        rw [find1_replace_hd hp hr2]
        rfl
      · rw [find1_replace_mid (pfxMatch_other hr hcc) (pfxMatch_other hr2 hcc), ← hl]
        exact h
    · intro c2 hc2 x h
      dsimp only
      have hcc : c2 ≠ c := fun hE => hc2 (hE ▸ hc)
      rw [find1_replace_mid (pfxMatch_other hr hcc) (pfxMatch_other hr2 hcc), ← hl]
      exact h
  · exact KeepsL_refl s tc ti
  · refine ⟨fun _ _ h => h, fun _ _ h => h, fun _ _ h => h, fun _ _ h => h,
      fun _ _ h => h, fun _ _ h => h, fun _ _ h => h, ?_, ?_, fun _ h => h,
      fun _ _ _ h => h⟩
    · intro c2 h
      dsimp only
      obtain ⟨x, hx⟩ := Option.isSome_iff_exists.mp h
      rw [find1_append_some hx]
      rfl
    · intro c2 _ x h
      dsimp only
      exact find1_append_some h

theorem ip_keeps (ip : Nat) (nm : Str) (ifid : Nat) (ids : List Nat) (s : NB)
    (tc : List Cidr) (ti : List Nat) (hip : ip ∈ ti) :
    KeepsL s (ipStep ip nm ifid ids s).1 tc ti := by
  rcases ip_spec ip nm ifid ids s with ⟨p, r, q, hs, hcond, he⟩ |
    ⟨p, r, q, hs, _, _, he⟩ | ⟨hs, he⟩ <;> rw [he]
  · obtain ⟨hl, hr, hp⟩ := findSplit_eq_some hs
    have hr2 : ipMatch ip
        { r with assigned_object_id := some ifid,
                 assigned_object_type := str "dcim.interface" } = true := by
      simpa only [ipMatch] using hr
    refine ⟨fun _ _ h => h, fun _ _ h => h, fun _ _ h => h, fun _ _ h => h,
      fun _ _ h => h, fun _ _ h => h, fun _ _ h => h, fun _ h => h, fun _ _ _ h => h,
      ?_, ?_⟩
    · intro i2 h
      dsimp only
      by_cases hii : i2 = ip
      · subst hii
        rw [find1_replace_hd hp hr2]
        rfl
      · rw [find1_replace_mid (ipMatch_other hr hii) (ipMatch_other hr2 hii), ← hl]
        exact h
    · intro i2 hi2 x h
      dsimp only
      have hii : i2 ≠ ip := fun hE => hi2 (hE ▸ hip)
      rw [find1_replace_mid (ipMatch_other hr hii) (ipMatch_other hr2 hii), ← hl]
      exact h
  · exact KeepsL_refl s tc ti
  · refine ⟨fun _ _ h => h, fun _ _ h => h, fun _ _ h => h, fun _ _ h => h,
      fun _ _ h => h, fun _ _ h => h, fun _ _ h => h, fun _ h => h, fun _ _ _ h => h,
      ?_, ?_⟩
    · intro i2 h
      dsimp only
      obtain ⟨x, hx⟩ := Option.isSome_iff_exists.mp h
      rw [find1_append_some hx]
      rfl
    · intro i2 _ x h
      dsimp only
      exact find1_append_some h

/-- After the address step, the first record for the IP is assigned to the
interface the step was given. -/
theorem ipStep_establishes (ip : Nat) (nm : Str) (ifid : Nat) (ids : List Nat) (s : NB) :
    ∃ r, find1 (ipMatch ip) (ipStep ip nm ifid ids s).1.ip_addresses = some r ∧
      r.assigned_object_id = some ifid ∧ r.assigned_object_type = str "dcim.interface" := by
  rcases ip_spec ip nm ifid ids s with ⟨p, r, q, hs, hcond, he⟩ |
    ⟨p, r, q, hs, h1, h2, he⟩ | ⟨hs, he⟩ <;> rw [he]
  · obtain ⟨hl, hr, hp⟩ := findSplit_eq_some hs
    have hr2 : ipMatch ip
        { r with assigned_object_id := some ifid,
                 assigned_object_type := str "dcim.interface" } = true := by
      simpa only [ipMatch] using hr
    have hgoal := find1_replace_hd (q := q) hp hr2
    refine ⟨_, hgoal, ?_, ?_⟩ <;> rfl
  · exact ⟨r, find1_of_split hs, h1, h2⟩
  · dsimp only
    have hgoal : find1 (ipMatch ip) (s.ip_addresses ++
        [⟨s.next_id, ip, str "IP for " ++ nm, str "active", ids,
          str "dcim.interface", some ifid⟩]) =
        some ⟨s.next_id, ip, str "IP for " ++ nm, str "active", ids,
          str "dcim.interface", some ifid⟩ := by
      rw [find1_append_none (find1_eq_none.mpr hs), find1_cons]
      simp [ipMatch]
    exact ⟨_, hgoal, rfl, rfl⟩

theorem mem_subnetCidrs {v : VNetInfo} {sn : SubnetInfo} {c : Cidr}
    (hsn : sn ∈ v.subnets) (ha : sn.address_pfx = some c) : c ∈ subnetCidrs v := by
  unfold subnetCidrs
  exact List.mem_filterMap.mpr ⟨sn, hsn, ha⟩

theorem mem_subnetIps {sn : SubnetInfo} {c : Cidr} {d : DeviceInfo}
    (ha : sn.address_pfx = some c) (hd : d ∈ sn.devices) :
    d.ip_address ∈ subnetIps sn := by
  unfold subnetIps
  rw [ha]
  exact List.mem_map_of_mem _ hd

theorem mem_vnetIps {v : VNetInfo} {sn : SubnetInfo} (hsn : sn ∈ v.subnets) {i : Nat}
    (hi : i ∈ subnetIps sn) : i ∈ vnetIps v :=
  List.mem_flatMap.mpr ⟨sn, hsn, hi⟩

theorem processDevice_keeps (cfg : SyncCfg) (ids : List Nat) (dev : DeviceInfo) (s : NB)
    (tc : List Cidr) (ti : List Nat) (hip : dev.ip_address ∈ ti) :
    KeepsL s (processDevice cfg ids dev s).1 tc ti := by
  unfold processDevice
  dsimp only
  rcases h1 : get_or_create_device_type s (devTypeModel cfg dev)
      cfg.mapping.manufacturer ids with ⟨dt, s1, ev1⟩
  rcases h2 : get_or_create_device_role s1 (devRoleName cfg dev) dev.kind.isVm ids with
    ⟨role, s2, ev2⟩
  rcases h3 : get_or_create_site s2 (devSiteName cfg dev)
      (str "Azure Region: " ++ dev.location) ids with ⟨site, s3, ev3⟩
  rcases h4 : deviceStep (devName cfg dev) dt.id role.id site.id ids s3 with ⟨d4, s4, ev4⟩
  rcases h5 : ifaceStep d4.id cfg.mapping.default_interface (macOf dev) ids s4 with
    ⟨i5, s5, ev5⟩
  rcases h6 : ipStep dev.ip_address (devName cfg dev) i5.id ids s5 with ⟨s6, ev6⟩
  have k1 := dt_keeps s (devTypeModel cfg dev) cfg.mapping.manufacturer ids tc ti
  have k2 := role_keeps s1 (devRoleName cfg dev) dev.kind.isVm ids tc ti
  have k3 := site_keeps s2 (devSiteName cfg dev) (str "Azure Region: " ++ dev.location)
    ids tc ti
  have k4 := dev_keeps (devName cfg dev) dt.id role.id site.id ids s3 tc ti
  have k5 := iface_keeps d4.id cfg.mapping.default_interface (macOf dev) ids s4 tc ti
  have k6 := ip_keeps dev.ip_address (devName cfg dev) i5.id ids s5 tc ti hip
  rw [h1] at k1; rw [h2] at k2; rw [h3] at k3; rw [h4] at k4; rw [h5] at k5; rw [h6] at k6
  exact KeepsL_trans k1 (KeepsL_trans k2 (KeepsL_trans k3 (KeepsL_trans k4
    (KeepsL_trans k5 k6))))

theorem processDevices_keeps (cfg : SyncCfg) (ids : List Nat) (devs : List DeviceInfo)
    (s : NB) (tc : List Cidr) (ti : List Nat) (hip : ∀ d ∈ devs, d.ip_address ∈ ti) :
    KeepsL s (processDevices cfg ids devs s).1 tc ti := by
  induction devs generalizing s with
  | nil => exact KeepsL_refl s tc ti
  | cons d rest ih =>
      unfold processDevices
      dsimp only
      rcases h1 : processDevice cfg ids d s with ⟨s1, ev1⟩
      rcases h2 : processDevices cfg ids rest s1 with ⟨s2, ev2⟩
      have k1 := processDevice_keeps cfg ids d s tc ti (hip d (List.mem_cons_self d rest))
      have k2 := ih s1 (fun x hx => hip x (List.mem_cons_of_mem d hx))
      rw [h1] at k1; rw [h2] at k2
      exact KeepsL_trans k1 k2

theorem processSubnet_keeps (cfg : SyncCfg) (ids vt : List Nat) (sname sid vn : Str)
    (pid : Nat) (sn : SubnetInfo) (s : NB) (tc : List Cidr) (ti : List Nat)
    (hc : ∀ c, sn.address_pfx = some c → c ∈ tc)
    (hip : ∀ i ∈ subnetIps sn, i ∈ ti) :
    KeepsL s (processSubnet cfg ids vt sname sid vn pid sn s).1 tc ti := by
  unfold processSubnet
  cases ha : sn.address_pfx with
  | none => exact KeepsL_refl s tc ti
  | some c =>
      dsimp only
      rcases h1 : get_or_create_pfx s c (subnetPfxDefaults vt sn.name vn pid) sname sid []
        with ⟨rc, s1, ev1⟩
      rcases h2 : processDevices cfg ids sn.devices s1 with ⟨s2, ev2⟩
      have k1 := pfx_keeps s c (subnetPfxDefaults vt sn.name vn pid) sname sid tc ti
        (hc c ha)
      have k2 := processDevices_keeps cfg ids sn.devices s1 tc ti
        (fun d hd => hip d.ip_address (mem_subnetIps ha hd))
      rw [h1] at k1; rw [h2] at k2
      exact KeepsL_trans k1 k2

theorem processSubnets_keeps (cfg : SyncCfg) (ids vt : List Nat) (sname sid vn : Str)
    (pid : Nat) (sns : List SubnetInfo) (s : NB) (tc : List Cidr) (ti : List Nat)
    (hc : ∀ sn ∈ sns, ∀ c, sn.address_pfx = some c → c ∈ tc)
    (hip : ∀ sn ∈ sns, ∀ i ∈ subnetIps sn, i ∈ ti) :
    KeepsL s (processSubnets cfg ids vt sname sid vn pid sns s).1 tc ti := by
  induction sns generalizing s with
  | nil => exact KeepsL_refl s tc ti
  | cons sn rest ih =>
      unfold processSubnets
      dsimp only
      rcases h1 : processSubnet cfg ids vt sname sid vn pid sn s with ⟨s1, ev1⟩
      rcases h2 : processSubnets cfg ids vt sname sid vn pid rest s1 with ⟨s2, ev2⟩
      have k1 := processSubnet_keeps cfg ids vt sname sid vn pid sn s tc ti
        (hc sn (List.mem_cons_self sn rest)) (hip sn (List.mem_cons_self sn rest))
      have k2 := ih s1 (fun x hx => hc x (List.mem_cons_of_mem sn hx))
        (fun x hx => hip x (List.mem_cons_of_mem sn hx))
      rw [h1] at k1; rw [h2] at k2
      exact KeepsL_trans k1 k2

theorem processAS_keeps (cfg : SyncCfg) (ids vt : List Nat) (sname sid : Str)
    (v : VNetInfo) (a : Cidr) (s : NB) (tc : List Cidr) (ti : List Nat)
    (ha : a ∈ tc) (hc : ∀ c ∈ subnetCidrs v, c ∈ tc) (hip : ∀ i ∈ vnetIps v, i ∈ ti) :
    KeepsL s (processAS cfg ids vt sname sid v a s).1 tc ti := by
  unfold processAS
  dsimp only
  rcases h1 : get_or_create_pfx s a (vnetPfxDefaults vt v.name sid) sname sid [] with
    ⟨rc, s1, ev1⟩
  rcases h2 : processSubnets cfg ids vt sname sid v.name rc.1.id v.subnets s1 with
    ⟨s2, ev2⟩
  have k1 := pfx_keeps s a (vnetPfxDefaults vt v.name sid) sname sid tc ti ha
  have k2 := processSubnets_keeps cfg ids vt sname sid v.name rc.1.id v.subnets s1 tc ti
    (fun sn hsn c hac => hc c (mem_subnetCidrs hsn hac))
    (fun sn hsn i hi => hip i (mem_vnetIps hsn hi))
  rw [h1] at k1; rw [h2] at k2
  exact KeepsL_trans k1 k2

theorem processASList_keeps (cfg : SyncCfg) (ids vt : List Nat) (sname sid : Str)
    (v : VNetInfo) (las : List Cidr) (s : NB) (tc : List Cidr) (ti : List Nat)
    (ha : ∀ a ∈ las, a ∈ tc) (hc : ∀ c ∈ subnetCidrs v, c ∈ tc)
    (hip : ∀ i ∈ vnetIps v, i ∈ ti) :
    KeepsL s (processASList cfg ids vt sname sid v las s).1 tc ti := by
  induction las generalizing s with
  | nil => exact KeepsL_refl s tc ti
  | cons a rest ih =>
      unfold processASList
      dsimp only
      rcases h1 : processAS cfg ids vt sname sid v a s with ⟨s1, ev1⟩
      rcases h2 : processASList cfg ids vt sname sid v rest s1 with ⟨s2, ev2⟩
      have k1 := processAS_keeps cfg ids vt sname sid v a s tc ti
        (ha a (List.mem_cons_self a rest)) hc hip
      have k2 := ih s1 (fun x hx => ha x (List.mem_cons_of_mem a hx))
      rw [h1] at k1; rw [h2] at k2
      exact KeepsL_trans k1 k2

theorem processVnet_keeps (cfg : SyncCfg) (ids st : List Nat) (sname sid : Str)
    (v : VNetInfo) (s : NB) (tc : List Cidr) (ti : List Nat)
    (hc : ∀ c ∈ vnetCidrs v, c ∈ tc) (hip : ∀ i ∈ vnetIps v, i ∈ ti) :
    KeepsL s (processVnet cfg ids st sname sid v s).1 tc ti := by
  unfold processVnet
  dsimp only
  rcases h1 : get_or_create_tag s (pyCapitalize (locSlugOf v.location))
      (locSlugOf v.location) (str "Azure region: " ++ v.location) with ⟨t, s1, ev1⟩
  rcases h2 : processASList cfg ids (st ++ [t.id]) sname sid v v.address_space s1 with
    ⟨s2, ev2⟩
  have k1 := tag_keeps s (pyCapitalize (locSlugOf v.location)) (locSlugOf v.location)
    (str "Azure region: " ++ v.location) tc ti
  have k2 := processASList_keeps cfg ids (st ++ [t.id]) sname sid v v.address_space s1
    tc ti (fun a hx => hc a (by unfold vnetCidrs; exact List.mem_append_left _ hx))
    (fun c hx => hc c (by unfold vnetCidrs; exact List.mem_append_right _ hx)) hip
  rw [h1] at k1; rw [h2] at k2
  exact KeepsL_trans k1 k2

theorem processVnets_keeps (cfg : SyncCfg) (ids st : List Nat) (sname sid : Str)
    (vs : List VNetInfo) (s : NB) (tc : List Cidr) (ti : List Nat)
    (hc : ∀ c ∈ vs.flatMap vnetCidrs, c ∈ tc) (hip : ∀ i ∈ vs.flatMap vnetIps, i ∈ ti) :
    KeepsL s (processVnets cfg ids st sname sid vs s).1 tc ti := by
  induction vs generalizing s with
  | nil => exact KeepsL_refl s tc ti
  | cons v rest ih =>
      unfold processVnets
      dsimp only
      rcases h1 : processVnet cfg ids st sname sid v s with ⟨s1, ev1⟩
      rcases h2 : processVnets cfg ids st sname sid rest s1 with ⟨s2, ev2⟩
      have k1 := processVnet_keeps cfg ids st sname sid v s tc ti
        (fun c hx => hc c (List.mem_flatMap.mpr ⟨v, List.mem_cons_self v rest, hx⟩))
        (fun i hx => hip i (List.mem_flatMap.mpr ⟨v, List.mem_cons_self v rest, hx⟩))
      have k2 := ih s1 (fun c hx => by
          obtain ⟨w, hw, hx2⟩ := List.mem_flatMap.mp hx
          exact hc c (List.mem_flatMap.mpr ⟨w, List.mem_cons_of_mem v hw, hx2⟩))
        (fun i hx => by
          obtain ⟨w, hw, hx2⟩ := List.mem_flatMap.mp hx
          exact hip i (List.mem_flatMap.mpr ⟨w, List.mem_cons_of_mem v hw, hx2⟩))
      rw [h1] at k1; rw [h2] at k2
      exact KeepsL_trans k1 k2

theorem processSub_keeps (cfg : SyncCfg) (ids addIds : List Nat) (sub : SubData) (s : NB)
    (tc : List Cidr) (ti : List Nat)
    (hc : ∀ c ∈ sub.vnets.flatMap vnetCidrs, c ∈ tc)
    (hip : ∀ i ∈ sub.vnets.flatMap vnetIps, i ∈ ti) :
    KeepsL s (processSub cfg ids addIds sub s).1 tc ti := by
  unfold processSub
  cases he : detect_env sub.subscription_name with
  | none =>
      dsimp only
      rcases h2 : processVnets cfg ids (ids ++ addIds ++ []) sub.subscription_name
          sub.subscription_id sub.vnets s with ⟨s2, ev2⟩
      have k2 := processVnets_keeps cfg ids (ids ++ addIds ++ []) sub.subscription_name
        sub.subscription_id sub.vnets s tc ti hc hip
      rw [h2] at k2
      exact k2
  | some sl =>
      dsimp only
      rcases h1 : get_or_create_tag s (pyUpper sl) sl (str "Environment: " ++ pyUpper sl)
        with ⟨t, s1, ev1⟩
      dsimp only
      rcases h2 : processVnets cfg ids (ids ++ addIds ++ [t.id]) sub.subscription_name
          sub.subscription_id sub.vnets s1 with ⟨s2, ev2⟩
      have k1 := tag_keeps s (pyUpper sl) sl (str "Environment: " ++ pyUpper sl) tc ti
      have k2 := processVnets_keeps cfg ids (ids ++ addIds ++ [t.id])
        sub.subscription_name sub.subscription_id sub.vnets s1 tc ti hc hip
      rw [h1] at k1; rw [h2] at k2
      exact KeepsL_trans k1 k2

theorem processSubs_keeps (cfg : SyncCfg) (ids addIds : List Nat) (subs : List SubData)
    (s : NB) (tc : List Cidr) (ti : List Nat)
    (hc : ∀ c ∈ topoCidrs subs, c ∈ tc) (hip : ∀ i ∈ topoIps subs, i ∈ ti) :
    KeepsL s (processSubs cfg ids addIds subs s).1 tc ti := by
  induction subs generalizing s with
  | nil => exact KeepsL_refl s tc ti
  | cons sub rest ih =>
      unfold processSubs
      dsimp only
      rcases h1 : processSub cfg ids addIds sub s with ⟨s1, ev1⟩
      rcases h2 : processSubs cfg ids addIds rest s1 with ⟨s2, ev2⟩
      have k1 := processSub_keeps cfg ids addIds sub s tc ti
        (fun c hx => hc c (List.mem_flatMap.mpr ⟨sub, List.mem_cons_self sub rest, hx⟩))
        (fun i hx => hip i (List.mem_flatMap.mpr ⟨sub, List.mem_cons_self sub rest, hx⟩))
      have k2 := ih s1 (fun c hx => by
          obtain ⟨w, hw, hx2⟩ := List.mem_flatMap.mp hx
          exact hc c (List.mem_flatMap.mpr ⟨w, List.mem_cons_of_mem sub hw, hx2⟩))
        (fun i hx => by
          obtain ⟨w, hw, hx2⟩ := List.mem_flatMap.mp hx
          exact hip i (List.mem_flatMap.mpr ⟨w, List.mem_cons_of_mem sub hw, hx2⟩))
      rw [h1] at k1; rw [h2] at k2
      exact KeepsL_trans k1 k2

theorem createAdditionalTags_keeps (s : NB) (slugs : List Str) (tc : List Cidr)
    (ti : List Nat) : KeepsL s (createAdditionalTags s slugs).2.1 tc ti := by
  induction slugs generalizing s with
  | nil => exact KeepsL_refl s tc ti
  | cons sl rest ih =>
      unfold createAdditionalTags
      dsimp only
      rcases h1 : get_or_create_tag s (pyCapitalize sl) sl (str "Additional tag: " ++ sl)
        with ⟨t, s1, ev1⟩
      rcases h2 : createAdditionalTags s1 rest with ⟨ids2, s2, ev2⟩
      have k1 := tag_keeps s (pyCapitalize sl) sl (str "Additional tag: " ++ sl) tc ti
      have k2 := ih s1
      rw [h1] at k1; rw [h2] at k2
      exact KeepsL_trans k1 k2

theorem sync_keeps (topo : List SubData) (cfg : SyncCfg) (s : NB) :
    KeepsL s (sync_to_netbox topo cfg s).1 (topoCidrs topo) (topoIps topo) := by
  unfold sync_to_netbox
  dsimp only
  rcases h1 : get_or_create_tag s cfg.tags.sync_tag_name (slugOf cfg.tags.sync_tag_name)
    cfg.tags.sync_tag_description with ⟨t, s1, ev1⟩
  rcases h2 : createAdditionalTags s1 cfg.tags.additional_tags with ⟨addIds, s2, ev2⟩
  rcases h3 : processSubs cfg [t.id] addIds topo s2 with ⟨s3, ev3⟩
  have k1 := tag_keeps s cfg.tags.sync_tag_name (slugOf cfg.tags.sync_tag_name)
    cfg.tags.sync_tag_description (topoCidrs topo) (topoIps topo)
  have k2 := createAdditionalTags_keeps s1 cfg.tags.additional_tags (topoCidrs topo)
    (topoIps topo)
  have k3 := processSubs_keeps cfg [t.id] addIds topo s2 (topoCidrs topo) (topoIps topo)
    (fun _ hx => hx) (fun _ hx => hx)
  rw [h1] at k1; rw [h2] at k2; rw [h3] at k3
  exact KeepsL_trans k1 (KeepsL_trans k2 k3)

/-! ## C1 Phase A: coverage is established by the first run and monotone -/

theorem CovTag_keeps {s t : NB} {tc : List Cidr} {ti : List Nat} (k : KeepsL s t tc ti)
    {sl : Str} (h : CovTag s sl) : CovTag t sl := by
  unfold CovTag at h ⊢
  obtain ⟨x, hx⟩ := Option.isSome_iff_exists.mp h
  rw [k.tagsK _ x hx]
  rfl

theorem CovPfx_keeps {s t : NB} {tc : List Cidr} {ti : List Nat} (k : KeepsL s t tc ti)
    {c : Cidr} (h : CovPfx s c) : CovPfx t c := k.pfxSome c h

theorem CovDevice_keeps {s t : NB} {tc : List Cidr} {ti : List Nat} (k : KeepsL s t tc ti)
    {cfg : SyncCfg} {dev : DeviceInfo} (h : CovDevice cfg dev s) : CovDevice cfg dev t := by
  obtain ⟨h1, h2, st, h3, d, h4, h5, h6⟩ := h
  refine ⟨?_, ?_, st, k.sitesK _ st h3, d, k.devsK _ d h4, ?_, k.ipSome _ h6⟩
  · obtain ⟨x, hx⟩ := Option.isSome_iff_exists.mp h1
    rw [k.dtsK _ x hx]
    rfl
  · obtain ⟨x, hx⟩ := Option.isSome_iff_exists.mp h2
    rw [k.rolesK _ x hx]
    rfl
  · obtain ⟨x, hx⟩ := Option.isSome_iff_exists.mp h5
    rw [k.ifsK _ x hx]
    rfl

theorem CovSubnet_keeps {s t : NB} {tc : List Cidr} {ti : List Nat} (k : KeepsL s t tc ti)
    {cfg : SyncCfg} {sn : SubnetInfo} (h : CovSubnet cfg sn s) : CovSubnet cfg sn t :=
  ⟨fun c hc => CovPfx_keeps k (h.1 c hc),
   fun hne dev hdev => CovDevice_keeps k (h.2 hne dev hdev)⟩

theorem CovVnet_keeps {s t : NB} {tc : List Cidr} {ti : List Nat} (k : KeepsL s t tc ti)
    {cfg : SyncCfg} {v : VNetInfo} (h : CovVnet cfg v s) : CovVnet cfg v t :=
  ⟨CovTag_keeps k h.1, fun a ha => CovPfx_keeps k (h.2.1 a ha),
   fun hne sn hsn => CovSubnet_keeps k (h.2.2 hne sn hsn)⟩

theorem CovSub_keeps {s t : NB} {tc : List Cidr} {ti : List Nat} (k : KeepsL s t tc ti)
    {cfg : SyncCfg} {sub : SubData} (h : CovSub cfg sub s) : CovSub cfg sub t :=
  ⟨fun sl hsl => CovTag_keeps k (h.1 sl hsl), fun v hv => CovVnet_keeps k (h.2 v hv)⟩

theorem CovTopo_keeps {s t : NB} {tc : List Cidr} {ti : List Nat} (k : KeepsL s t tc ti)
    {cfg : SyncCfg} {topo : List SubData} (h : CovTopo cfg topo s) : CovTopo cfg topo t :=
  ⟨CovTag_keeps k h.1, fun sl hsl => CovTag_keeps k (h.2.1 sl hsl),
   fun sub hsub => CovSub_keeps k (h.2.2 sub hsub)⟩

theorem tag_covers (s : NB) (n sl d : Str) : CovTag (get_or_create_tag s n sl d).2.1 sl := by
  unfold CovTag
  rw [tag_resolves]
  rfl

theorem pfx_covers (s : NB) (c : Cidr) (d : PfxDefaults) (sn si : Str) :
    CovPfx (get_or_create_pfx s c d sn si []).2.1 c := by
  obtain ⟨r, hr, _⟩ := pfx_establishes s c d sn si
  unfold CovPfx
  rw [hr]
  rfl

theorem processDevice_covers (cfg : SyncCfg) (ids : List Nat) (dev : DeviceInfo) (s : NB) :
    CovDevice cfg dev (processDevice cfg ids dev s).1 := by
  unfold processDevice
  dsimp only
  rcases h1 : get_or_create_device_type s (devTypeModel cfg dev)
      cfg.mapping.manufacturer ids with ⟨dt, s1, ev1⟩
  rcases h2 : get_or_create_device_role s1 (devRoleName cfg dev) dev.kind.isVm ids with
    ⟨role, s2, ev2⟩
  rcases h3 : get_or_create_site s2 (devSiteName cfg dev)
      (str "Azure Region: " ++ dev.location) ids with ⟨site, s3, ev3⟩
  rcases h4 : deviceStep (devName cfg dev) dt.id role.id site.id ids s3 with ⟨d4, s4, ev4⟩
  rcases h5 : ifaceStep d4.id cfg.mapping.default_interface (macOf dev) ids s4 with
    ⟨i5, s5, ev5⟩
  rcases h6 : ipStep dev.ip_address (devName cfg dev) i5.id ids s5 with ⟨s6, ev6⟩
  have k2 := role_keeps s1 (devRoleName cfg dev) dev.kind.isVm ids [] [dev.ip_address]
  have k3 := site_keeps s2 (devSiteName cfg dev) (str "Azure Region: " ++ dev.location)
    ids [] [dev.ip_address]
  have k4 := dev_keeps (devName cfg dev) dt.id role.id site.id ids s3 [] [dev.ip_address]
  have k5 := iface_keeps d4.id cfg.mapping.default_interface (macOf dev) ids s4 []
    [dev.ip_address]
  have k6 := ip_keeps dev.ip_address (devName cfg dev) i5.id ids s5 [] [dev.ip_address]
    (List.mem_singleton_self _)
  rw [h2] at k2; rw [h3] at k3; rw [h4] at k4; rw [h5] at k5; rw [h6] at k6
  have f1 := dt_resolves_some s (devTypeModel cfg dev) cfg.mapping.manufacturer ids
  rw [h1] at f1
  have f2 := role_resolves_some s1 (devRoleName cfg dev) dev.kind.isVm ids
  rw [h2] at f2
  have f3 := site_resolves s2 (devSiteName cfg dev) (str "Azure Region: " ++ dev.location)
    ids
  rw [h3] at f3
  have f4 := dev_resolves (devName cfg dev) dt.id role.id site.id ids s3
  rw [h4] at f4
  have f5 := iface_resolves d4.id cfg.mapping.default_interface (macOf dev) ids s4
  rw [h5] at f5
  have f6 := ipStep_establishes dev.ip_address (devName cfg dev) i5.id ids s5
  rw [h6] at f6
  dsimp only at f1 f2 f3 f4 f5 f6
  have k6' : KeepsL s5 s6 ([] : List Cidr) [dev.ip_address] := k6
  have k56 := KeepsL_trans k5 k6'
  have k456 := KeepsL_trans k4 k56
  have k3456 := KeepsL_trans k3 k456
  have k23456 := KeepsL_trans k2 k3456
  refine ⟨?_, ?_, site, k456.sitesK _ site f3, d4, k56.devsK _ d4 f4, ?_, ?_⟩
  · obtain ⟨x, hx⟩ := Option.isSome_iff_exists.mp f1
    rw [k23456.dtsK _ x hx]
    rfl
  · obtain ⟨x, hx⟩ := Option.isSome_iff_exists.mp f2
    rw [k3456.rolesK _ x hx]
    rfl
  · rw [k6'.ifsK _ i5 f5]
    rfl
  · obtain ⟨r, hr, _⟩ := f6
    rw [hr]
    rfl

theorem processDevices_covers (cfg : SyncCfg) (ids : List Nat) (devs : List DeviceInfo)
    (s : NB) : ∀ d ∈ devs, CovDevice cfg d (processDevices cfg ids devs s).1 := by
  induction devs generalizing s with
  | nil => intro d hd; cases hd
  | cons d rest ih =>
      unfold processDevices
      dsimp only
      rcases h1 : processDevice cfg ids d s with ⟨s1, ev1⟩
      rcases h2 : processDevices cfg ids rest s1 with ⟨s2, ev2⟩
      intro x hx
      rcases List.mem_cons.mp hx with hx | hx
      · subst hx
        have c1 := processDevice_covers cfg ids x s
        rw [h1] at c1
        have k2 := processDevices_keeps cfg ids rest s1 []
          (rest.map (fun z => z.ip_address))
          (fun z hz => List.mem_map_of_mem _ hz)
        rw [h2] at k2
        exact CovDevice_keeps k2 c1
      · have := ih s1 x hx
        rw [h2] at this
        exact this

theorem processSubnet_covers (cfg : SyncCfg) (ids vt : List Nat) (sname sid vn : Str)
    (pid : Nat) (sn : SubnetInfo) (s : NB) :
    CovSubnet cfg sn (processSubnet cfg ids vt sname sid vn pid sn s).1 := by
  unfold processSubnet
  cases ha : sn.address_pfx with
  | none =>
      refine ⟨fun c hc => ?_, fun hne => ?_⟩
      · rw [ha] at hc; cases hc
      · rw [ha] at hne; cases hne rfl
  | some c =>
      dsimp only
      rcases h1 : get_or_create_pfx s c (subnetPfxDefaults vt sn.name vn pid) sname sid []
        with ⟨rc, s1, ev1⟩
      rcases h2 : processDevices cfg ids sn.devices s1 with ⟨s2, ev2⟩
      have c1 := pfx_covers s c (subnetPfxDefaults vt sn.name vn pid) sname sid
      rw [h1] at c1
      have k2 := processDevices_keeps cfg ids sn.devices s1 []
        (sn.devices.map (fun z => z.ip_address)) (fun z hz => List.mem_map_of_mem _ hz)
      rw [h2] at k2
      have c2 := processDevices_covers cfg ids sn.devices s1
      rw [h2] at c2
      refine ⟨fun c2' hc2 => ?_, fun _ dev hdev => c2 dev hdev⟩
      rw [ha] at hc2
      cases hc2
      exact CovPfx_keeps k2 c1

theorem processSubnets_covers (cfg : SyncCfg) (ids vt : List Nat) (sname sid vn : Str)
    (pid : Nat) (sns : List SubnetInfo) (s : NB) :
    ∀ sn ∈ sns, CovSubnet cfg sn (processSubnets cfg ids vt sname sid vn pid sns s).1 := by
  induction sns generalizing s with
  | nil => intro sn hsn; cases hsn
  | cons sn rest ih =>
      unfold processSubnets
      dsimp only
      rcases h1 : processSubnet cfg ids vt sname sid vn pid sn s with ⟨s1, ev1⟩
      rcases h2 : processSubnets cfg ids vt sname sid vn pid rest s1 with ⟨s2, ev2⟩
      intro x hx
      rcases List.mem_cons.mp hx with hx | hx
      · subst hx
        have c1 := processSubnet_covers cfg ids vt sname sid vn pid x s
        rw [h1] at c1
        have k2 := processSubnets_keeps cfg ids vt sname sid vn pid rest s1
          (rest.filterMap (fun z => z.address_pfx)) (rest.flatMap subnetIps)
          (fun z hz c hc => List.mem_filterMap.mpr ⟨z, hz, hc⟩)
          (fun z hz i hi => List.mem_flatMap.mpr ⟨z, hz, hi⟩)
        rw [h2] at k2
        exact CovSubnet_keeps k2 c1
      · have := ih s1 x hx
        rw [h2] at this
        exact this

theorem processAS_covers (cfg : SyncCfg) (ids vt : List Nat) (sname sid : Str)
    (v : VNetInfo) (a : Cidr) (s : NB) :
    CovPfx (processAS cfg ids vt sname sid v a s).1 a ∧
    ∀ sn ∈ v.subnets, CovSubnet cfg sn (processAS cfg ids vt sname sid v a s).1 := by
  unfold processAS
  dsimp only
  rcases h1 : get_or_create_pfx s a (vnetPfxDefaults vt v.name sid) sname sid [] with
    ⟨rc, s1, ev1⟩
  rcases h2 : processSubnets cfg ids vt sname sid v.name rc.1.id v.subnets s1 with
    ⟨s2, ev2⟩
  have c1 := pfx_covers s a (vnetPfxDefaults vt v.name sid) sname sid
  rw [h1] at c1
  have k2 := processSubnets_keeps cfg ids vt sname sid v.name rc.1.id v.subnets s1
    (v.subnets.filterMap (fun z => z.address_pfx)) (v.subnets.flatMap subnetIps)
    (fun z hz c hc => List.mem_filterMap.mpr ⟨z, hz, hc⟩)
    (fun z hz i hi => List.mem_flatMap.mpr ⟨z, hz, hi⟩)
  rw [h2] at k2
  have c2 := processSubnets_covers cfg ids vt sname sid v.name rc.1.id v.subnets s1
  rw [h2] at c2
  exact ⟨CovPfx_keeps k2 c1, c2⟩

theorem processASList_covers (cfg : SyncCfg) (ids vt : List Nat) (sname sid : Str)
    (v : VNetInfo) (las : List Cidr) (s : NB) :
    (∀ a ∈ las, CovPfx (processASList cfg ids vt sname sid v las s).1 a) ∧
    (las ≠ [] →
      ∀ sn ∈ v.subnets, CovSubnet cfg sn (processASList cfg ids vt sname sid v las s).1) := by
  induction las generalizing s with
  | nil => exact ⟨fun a ha => absurd ha (List.not_mem_nil a), fun hne => absurd rfl hne⟩
  | cons a rest ih =>
      unfold processASList
      dsimp only
      rcases h1 : processAS cfg ids vt sname sid v a s with ⟨s1, ev1⟩
      rcases h2 : processASList cfg ids vt sname sid v rest s1 with ⟨s2, ev2⟩
      have c1 := processAS_covers cfg ids vt sname sid v a s
      rw [h1] at c1
      have k2 := processASList_keeps cfg ids vt sname sid v rest s1
        (rest ++ v.subnets.filterMap (fun z => z.address_pfx)) (v.subnets.flatMap subnetIps)
        (fun z hz => List.mem_append_left _ hz)
        (fun c hc => List.mem_append_right _ hc)
        (fun i hi => hi)
      rw [h2] at k2
      have ihr := ih s1
      rw [h2] at ihr
      refine ⟨fun x hx => ?_, fun _ sn hsn => ?_⟩
      · rcases List.mem_cons.mp hx with hx | hx
        · subst hx
          exact CovPfx_keeps k2 c1.1
        · exact ihr.1 x hx
      · exact CovSubnet_keeps k2 (c1.2 sn hsn)

theorem processVnet_covers (cfg : SyncCfg) (ids st : List Nat) (sname sid : Str)
    (v : VNetInfo) (s : NB) : CovVnet cfg v (processVnet cfg ids st sname sid v s).1 := by
  unfold processVnet
  dsimp only
  rcases h1 : get_or_create_tag s (pyCapitalize (locSlugOf v.location))
      (locSlugOf v.location) (str "Azure region: " ++ v.location) with ⟨t, s1, ev1⟩
  rcases h2 : processASList cfg ids (st ++ [t.id]) sname sid v v.address_space s1 with
    ⟨s2, ev2⟩
  have c1 := tag_covers s (pyCapitalize (locSlugOf v.location)) (locSlugOf v.location)
    (str "Azure region: " ++ v.location)
  rw [h1] at c1
  have k2 := processASList_keeps cfg ids (st ++ [t.id]) sname sid v v.address_space s1
    (vnetCidrs v) (vnetIps v)
    (fun a ha => by unfold vnetCidrs; exact List.mem_append_left _ ha)
    (fun c hc => by unfold vnetCidrs; exact List.mem_append_right _ hc)
    (fun i hi => hi)
  rw [h2] at k2
  have c2 := processASList_covers cfg ids (st ++ [t.id]) sname sid v v.address_space s1
  rw [h2] at c2
  exact ⟨CovTag_keeps k2 c1, c2.1, c2.2⟩

theorem processVnets_covers (cfg : SyncCfg) (ids st : List Nat) (sname sid : Str)
    (vs : List VNetInfo) (s : NB) :
    ∀ v ∈ vs, CovVnet cfg v (processVnets cfg ids st sname sid vs s).1 := by
  induction vs generalizing s with
  | nil => intro v hv; cases hv
  | cons v rest ih =>
      unfold processVnets
      dsimp only
      rcases h1 : processVnet cfg ids st sname sid v s with ⟨s1, ev1⟩
      rcases h2 : processVnets cfg ids st sname sid rest s1 with ⟨s2, ev2⟩
      intro x hx
      rcases List.mem_cons.mp hx with hx | hx
      · subst hx
        have c1 := processVnet_covers cfg ids st sname sid x s
        rw [h1] at c1
        have k2 := processVnets_keeps cfg ids st sname sid rest s1
          (rest.flatMap vnetCidrs) (rest.flatMap vnetIps)
          (fun c hc => hc) (fun i hi => hi)
        rw [h2] at k2
        exact CovVnet_keeps k2 c1
      · have := ih s1 x hx
        rw [h2] at this
        exact this

theorem processSub_covers (cfg : SyncCfg) (ids addIds : List Nat) (sub : SubData)
    (s : NB) : CovSub cfg sub (processSub cfg ids addIds sub s).1 := by
  unfold processSub
  cases he : detect_env sub.subscription_name with
  | none =>
      dsimp only
      rcases h2 : processVnets cfg ids (ids ++ addIds ++ []) sub.subscription_name
          sub.subscription_id sub.vnets s with ⟨s2, ev2⟩
      have c2 := processVnets_covers cfg ids (ids ++ addIds ++ [])
        sub.subscription_name sub.subscription_id sub.vnets s
      rw [h2] at c2
      refine ⟨fun sl hsl => ?_, c2⟩
      rw [he] at hsl
      cases hsl
  | some sl =>
      dsimp only
      rcases h1 : get_or_create_tag s (pyUpper sl) sl (str "Environment: " ++ pyUpper sl)
        with ⟨t, s1, ev1⟩
      dsimp only
      rcases h2 : processVnets cfg ids (ids ++ addIds ++ [t.id]) sub.subscription_name
          sub.subscription_id sub.vnets s1 with ⟨s2, ev2⟩
      have c1 := tag_covers s (pyUpper sl) sl (str "Environment: " ++ pyUpper sl)
      rw [h1] at c1
      have k2 := processVnets_keeps cfg ids (ids ++ addIds ++ [t.id])
        sub.subscription_name sub.subscription_id sub.vnets s1
        (sub.vnets.flatMap vnetCidrs) (sub.vnets.flatMap vnetIps)
        (fun c hc => hc) (fun i hi => hi)
      rw [h2] at k2
      have c2 := processVnets_covers cfg ids (ids ++ addIds ++ [t.id])
        sub.subscription_name sub.subscription_id sub.vnets s1
      rw [h2] at c2
      refine ⟨fun sl2 hsl2 => ?_, c2⟩
      rw [he] at hsl2
      cases hsl2
      exact CovTag_keeps k2 c1

theorem processSubs_covers (cfg : SyncCfg) (ids addIds : List Nat) (subs : List SubData)
    (s : NB) : ∀ sub ∈ subs, CovSub cfg sub (processSubs cfg ids addIds subs s).1 := by
  induction subs generalizing s with
  | nil => intro x hx; cases hx
  | cons sub rest ih =>
      unfold processSubs
      dsimp only
      rcases h1 : processSub cfg ids addIds sub s with ⟨s1, ev1⟩
      rcases h2 : processSubs cfg ids addIds rest s1 with ⟨s2, ev2⟩
      intro x hx
      rcases List.mem_cons.mp hx with hx | hx
      · subst hx
        have c1 := processSub_covers cfg ids addIds x s
        rw [h1] at c1
        have k2 := processSubs_keeps cfg ids addIds rest s1 (topoCidrs rest)
          (topoIps rest) (fun c hc => hc) (fun i hi => hi)
        rw [h2] at k2
        exact CovSub_keeps k2 c1
      · have := ih s1 x hx
        rw [h2] at this
        exact this

theorem createAdditionalTags_covers (s : NB) (slugs : List Str) :
    ∀ sl ∈ slugs, CovTag (createAdditionalTags s slugs).2.1 sl := by
  induction slugs generalizing s with
  | nil => intro x hx; cases hx
  | cons sl rest ih =>
      unfold createAdditionalTags
      dsimp only
      rcases h1 : get_or_create_tag s (pyCapitalize sl) sl (str "Additional tag: " ++ sl)
        with ⟨t, s1, ev1⟩
      rcases h2 : createAdditionalTags s1 rest with ⟨ids2, s2, ev2⟩
      intro x hx
      rcases List.mem_cons.mp hx with hx | hx
      · subst hx
        have c1 := tag_covers s (pyCapitalize x) x (str "Additional tag: " ++ x)
        rw [h1] at c1
        have k2 := createAdditionalTags_keeps s1 rest [] []
        rw [h2] at k2
        exact CovTag_keeps k2 c1
      · have := ih s1 x hx
        rw [h2] at this
        exact this

/-- After one run, every lookup key the engine uses for this topology resolves:
the second run finds everything. -/
theorem sync_covers (topo : List SubData) (cfg : SyncCfg) (s : NB) :
    CovTopo cfg topo (sync_to_netbox topo cfg s).1 := by
  unfold sync_to_netbox
  dsimp only
  rcases h1 : get_or_create_tag s cfg.tags.sync_tag_name (slugOf cfg.tags.sync_tag_name)
    cfg.tags.sync_tag_description with ⟨t, s1, ev1⟩
  rcases h2 : createAdditionalTags s1 cfg.tags.additional_tags with ⟨addIds, s2, ev2⟩
  rcases h3 : processSubs cfg [t.id] addIds topo s2 with ⟨s3, ev3⟩
  have c1 := tag_covers s cfg.tags.sync_tag_name (slugOf cfg.tags.sync_tag_name)
    cfg.tags.sync_tag_description
  rw [h1] at c1
  have c2 := createAdditionalTags_covers s1 cfg.tags.additional_tags
  rw [h2] at c2
  have c3 := processSubs_covers cfg [t.id] addIds topo s2
  rw [h3] at c3
  have k2 := createAdditionalTags_keeps s1 cfg.tags.additional_tags [] []
  rw [h2] at k2
  have k3 := processSubs_keeps cfg [t.id] addIds topo s2 (topoCidrs topo) (topoIps topo)
    (fun c hc => hc) (fun i hi => hi)
  rw [h3] at k3
  exact ⟨CovTag_keeps k3 (CovTag_keeps k2 c1),
    fun sl hsl => CovTag_keeps k3 (c2 sl hsl), c3⟩

/-! ## C1 Phase A: a fully covered run creates nothing -/

theorem tag_nocreate {s : NB} {sl : Str} (h : CovTag s sl) (n d : Str) :
    ∀ e ∈ (get_or_create_tag s n sl d).2.2, e.isCreate = false := by
  unfold CovTag at h
  obtain ⟨t, ht⟩ := Option.isSome_iff_exists.mp h
  rw [tag_silent n d ht]
  intro e he
  simp only [List.mem_singleton] at he
  subst he
  rfl

theorem pfx_nocreate {s : NB} {c : Cidr} (h : CovPfx s c) (d : PfxDefaults) (sn si : Str) :
    ∀ e ∈ (get_or_create_pfx s c d sn si []).2.2, e.isCreate = false := by
  unfold CovPfx at h
  rcases pfx_spec s c d sn si with ⟨p, r, q, hs, hn, he⟩ | ⟨p, r, q, hs, hn, he⟩ |
    ⟨hs, he⟩ <;> rw [he]
  · intro e he2
    simp only [List.mem_singleton] at he2
    subst he2
    rfl
  · intro e he2
    simp only [List.mem_singleton] at he2
    subst he2
    rfl
  · rw [find1_eq_none.mpr hs] at h
    simp at h

theorem processDevice_nocreate (cfg : SyncCfg) (ids : List Nat) (dev : DeviceInfo)
    (s : NB) (h : CovDevice cfg dev s) :
    ∀ e ∈ (processDevice cfg ids dev s).2, e.isCreate = false := by
  obtain ⟨h1, h2, st, h3, d, h4, h5, h6⟩ := h
  obtain ⟨dt, hdt, hdte⟩ := dt_silent cfg.mapping.manufacturer ids h1
  obtain ⟨role, hrole, hrolee⟩ := role_silent dev.kind.isVm ids h2
  obtain ⟨i, hi⟩ := Option.isSome_iff_exists.mp h5
  unfold processDevice
  dsimp only
  rw [hdte]
  dsimp only
  rw [hrolee]
  dsimp only
  rw [site_silent (str "Azure Region: " ++ dev.location) ids h3]
  dsimp only
  rw [dev_silent dt.id role.id ids h4]
  dsimp only
  rw [iface_silent (macOf dev) ids hi]
  dsimp only
  rcases ip_spec dev.ip_address (devName cfg dev) i.id ids s with
    ⟨p, r, q, hs, hcond, he⟩ | ⟨p, r, q, hs, hA, hB, he⟩ | ⟨hs, he⟩ <;> rw [he]
  · intro e he2
    simp only [List.mem_append, List.mem_singleton] at he2
    rcases he2 with ((((g | g) | g) | g) | g) | g <;> subst g <;> rfl
  · intro e he2
    simp only [List.mem_append, List.mem_singleton] at he2
    rcases he2 with ((((g | g) | g) | g) | g) | g <;> subst g <;> rfl
  · rw [find1_eq_none.mpr hs] at h6
    simp at h6

theorem processDevices_nocreate (cfg : SyncCfg) (ids : List Nat) (devs : List DeviceInfo)
    (s : NB) (h : ∀ d ∈ devs, CovDevice cfg d s) :
    ∀ e ∈ (processDevices cfg ids devs s).2, e.isCreate = false := by
  induction devs generalizing s with
  | nil => intro e he; cases he
  | cons d rest ih =>
      unfold processDevices
      dsimp only
      rcases h1 : processDevice cfg ids d s with ⟨s1, ev1⟩
      rcases h2 : processDevices cfg ids rest s1 with ⟨s2, ev2⟩
      have n1 := processDevice_nocreate cfg ids d s (h d (List.mem_cons_self d rest))
      rw [h1] at n1
      have k1 := processDevice_keeps cfg ids d s [] [d.ip_address]
        (List.mem_singleton_self _)
      rw [h1] at k1
      have n2 := ih s1 (fun x hx => CovDevice_keeps k1 (h x (List.mem_cons_of_mem d hx)))
      rw [h2] at n2
      intro e he
      rcases List.mem_append.mp he with g | g
      · exact n1 e g
      · exact n2 e g

theorem processSubnet_nocreate (cfg : SyncCfg) (ids vt : List Nat) (sname sid vn : Str)
    (pid : Nat) (sn : SubnetInfo) (s : NB) (h : CovSubnet cfg sn s) :
    ∀ e ∈ (processSubnet cfg ids vt sname sid vn pid sn s).2, e.isCreate = false := by
  unfold processSubnet
  cases ha : sn.address_pfx with
  | none => intro e he; cases he
  | some c =>
      dsimp only
      rcases h1 : get_or_create_pfx s c (subnetPfxDefaults vt sn.name vn pid) sname sid []
        with ⟨rc, s1, ev1⟩
      rcases h2 : processDevices cfg ids sn.devices s1 with ⟨s2, ev2⟩
      have n1 := pfx_nocreate (h.1 c ha) (subnetPfxDefaults vt sn.name vn pid) sname sid
      rw [h1] at n1
      have k1 := pfx_keeps s c (subnetPfxDefaults vt sn.name vn pid) sname sid [c] []
        (List.mem_singleton_self _)
      rw [h1] at k1
      have n2 := processDevices_nocreate cfg ids sn.devices s1
        (fun x hx => CovDevice_keeps k1 (h.2 (by rw [ha]; exact Option.noConfusion) x hx))
      rw [h2] at n2
      intro e he
      rcases List.mem_append.mp he with g | g
      · exact n1 e g
      · exact n2 e g

theorem processSubnets_nocreate (cfg : SyncCfg) (ids vt : List Nat) (sname sid vn : Str)
    (pid : Nat) (sns : List SubnetInfo) (s : NB) (h : ∀ sn ∈ sns, CovSubnet cfg sn s) :
    ∀ e ∈ (processSubnets cfg ids vt sname sid vn pid sns s).2, e.isCreate = false := by
  induction sns generalizing s with
  | nil => intro e he; cases he
  | cons sn rest ih =>
      unfold processSubnets
      dsimp only
      rcases h1 : processSubnet cfg ids vt sname sid vn pid sn s with ⟨s1, ev1⟩
      rcases h2 : processSubnets cfg ids vt sname sid vn pid rest s1 with ⟨s2, ev2⟩
      have n1 := processSubnet_nocreate cfg ids vt sname sid vn pid sn s
        (h sn (List.mem_cons_self sn rest))
      rw [h1] at n1
      have k1 := processSubnet_keeps cfg ids vt sname sid vn pid sn s
        (sn.address_pfx.toList) (subnetIps sn)
        (fun c hc => by rw [hc]; simp) (fun i hi => hi)
      rw [h1] at k1
      have n2 := ih s1 (fun x hx => CovSubnet_keeps k1 (h x (List.mem_cons_of_mem sn hx)))
      rw [h2] at n2
      intro e he
      rcases List.mem_append.mp he with g | g
      · exact n1 e g
      · exact n2 e g

theorem processAS_nocreate (cfg : SyncCfg) (ids vt : List Nat) (sname sid : Str)
    (v : VNetInfo) (a : Cidr) (s : NB) (h1 : CovPfx s a)
    (h2 : ∀ sn ∈ v.subnets, CovSubnet cfg sn s) :
    ∀ e ∈ (processAS cfg ids vt sname sid v a s).2, e.isCreate = false := by
  unfold processAS
  dsimp only
  rcases hA : get_or_create_pfx s a (vnetPfxDefaults vt v.name sid) sname sid [] with
    ⟨rc, s1, ev1⟩
  rcases hB : processSubnets cfg ids vt sname sid v.name rc.1.id v.subnets s1 with
    ⟨s2, ev2⟩
  have n1 := pfx_nocreate h1 (vnetPfxDefaults vt v.name sid) sname sid
  rw [hA] at n1
  have k1 := pfx_keeps s a (vnetPfxDefaults vt v.name sid) sname sid [a] []
    (List.mem_singleton_self _)
  rw [hA] at k1
  have n2 := processSubnets_nocreate cfg ids vt sname sid v.name rc.1.id v.subnets s1
    (fun x hx => CovSubnet_keeps k1 (h2 x hx))
  rw [hB] at n2
  intro e he
  rcases List.mem_append.mp he with g | g
  · exact n1 e g
  · exact n2 e g

theorem processASList_nocreate (cfg : SyncCfg) (ids vt : List Nat) (sname sid : Str)
    (v : VNetInfo) (las : List Cidr) (s : NB) (h1 : ∀ a ∈ las, CovPfx s a)
    (h2 : las ≠ [] → ∀ sn ∈ v.subnets, CovSubnet cfg sn s) :
    ∀ e ∈ (processASList cfg ids vt sname sid v las s).2, e.isCreate = false := by
  induction las generalizing s with
  | nil => intro e he; cases he
  | cons a rest ih =>
      unfold processASList
      dsimp only
      rcases hA : processAS cfg ids vt sname sid v a s with ⟨s1, ev1⟩
      rcases hB : processASList cfg ids vt sname sid v rest s1 with ⟨s2, ev2⟩
      have hsub := h2 (by simp)
      have n1 := processAS_nocreate cfg ids vt sname sid v a s
        (h1 a (List.mem_cons_self a rest)) hsub
      rw [hA] at n1
      have k1 := processAS_keeps cfg ids vt sname sid v a s
        (a :: subnetCidrs v) (vnetIps v)
        (List.mem_cons_self _ _)
        (fun c hc => List.mem_cons_of_mem _ hc)
        (fun i hi => hi)
      rw [hA] at k1
      have n2 := ih s1 (fun x hx => CovPfx_keeps k1 (h1 x (List.mem_cons_of_mem a hx)))
        (fun _ sn hsn => CovSubnet_keeps k1 (hsub sn hsn))
      rw [hB] at n2
      intro e he
      rcases List.mem_append.mp he with g | g
      · exact n1 e g
      · exact n2 e g

theorem processVnet_nocreate (cfg : SyncCfg) (ids st : List Nat) (sname sid : Str)
    (v : VNetInfo) (s : NB) (h : CovVnet cfg v s) :
    ∀ e ∈ (processVnet cfg ids st sname sid v s).2, e.isCreate = false := by
  obtain ⟨h1, h2, h3⟩ := h
  unfold CovTag at h1
  obtain ⟨t, ht⟩ := Option.isSome_iff_exists.mp h1
  unfold processVnet
  rw [tag_silent (pyCapitalize (locSlugOf v.location))
    (str "Azure region: " ++ v.location) ht]
  dsimp only
  rcases hB : processASList cfg ids (st ++ [t.id]) sname sid v v.address_space s with
    ⟨s2, ev2⟩
  have n2 := processASList_nocreate cfg ids (st ++ [t.id]) sname sid v v.address_space s
    h2 h3
  rw [hB] at n2
  intro e he
  rcases List.mem_append.mp he with g | g
  · simp only [List.mem_singleton] at g
    subst g
    rfl
  · exact n2 e g

theorem processVnets_nocreate (cfg : SyncCfg) (ids st : List Nat) (sname sid : Str)
    (vs : List VNetInfo) (s : NB) (h : ∀ v ∈ vs, CovVnet cfg v s) :
    ∀ e ∈ (processVnets cfg ids st sname sid vs s).2, e.isCreate = false := by
  induction vs generalizing s with
  | nil => intro e he; cases he
  | cons v rest ih =>
      unfold processVnets
      dsimp only
      rcases h1 : processVnet cfg ids st sname sid v s with ⟨s1, ev1⟩
      rcases h2 : processVnets cfg ids st sname sid rest s1 with ⟨s2, ev2⟩
      have n1 := processVnet_nocreate cfg ids st sname sid v s
        (h v (List.mem_cons_self v rest))
      rw [h1] at n1
      have k1 := processVnet_keeps cfg ids st sname sid v s (vnetCidrs v) (vnetIps v)
        (fun c hc => hc) (fun i hi => hi)
      rw [h1] at k1
      have n2 := ih s1 (fun x hx => CovVnet_keeps k1 (h x (List.mem_cons_of_mem v hx)))
      rw [h2] at n2
      intro e he
      rcases List.mem_append.mp he with g | g
      · exact n1 e g
      · exact n2 e g

theorem processSub_nocreate (cfg : SyncCfg) (ids addIds : List Nat) (sub : SubData)
    (s : NB) (h : CovSub cfg sub s) :
    ∀ e ∈ (processSub cfg ids addIds sub s).2, e.isCreate = false := by
  unfold processSub
  cases he : detect_env sub.subscription_name with
  | none =>
      dsimp only
      rcases h2 : processVnets cfg ids (ids ++ addIds ++ []) sub.subscription_name
          sub.subscription_id sub.vnets s with ⟨s2, ev2⟩
      have n2 := processVnets_nocreate cfg ids (ids ++ addIds ++ [])
        sub.subscription_name sub.subscription_id sub.vnets s h.2
      rw [h2] at n2
      intro e he2
      rcases List.mem_append.mp he2 with g | g
      · cases g
      · exact n2 e g
  | some sl =>
      have hct := h.1 sl he
      unfold CovTag at hct
      obtain ⟨t, ht⟩ := Option.isSome_iff_exists.mp hct
      dsimp only
      rw [tag_silent (pyUpper sl) (str "Environment: " ++ pyUpper sl) ht]
      dsimp only
      rcases h2 : processVnets cfg ids (ids ++ addIds ++ [t.id]) sub.subscription_name
          sub.subscription_id sub.vnets s with ⟨s2, ev2⟩
      have n2 := processVnets_nocreate cfg ids (ids ++ addIds ++ [t.id])
        sub.subscription_name sub.subscription_id sub.vnets s h.2
      rw [h2] at n2
      intro e he2
      rcases List.mem_append.mp he2 with g | g
      · simp only [List.mem_singleton] at g
        subst g
        rfl
      · exact n2 e g

theorem processSubs_nocreate (cfg : SyncCfg) (ids addIds : List Nat) (subs : List SubData)
    (s : NB) (h : ∀ sub ∈ subs, CovSub cfg sub s) :
    ∀ e ∈ (processSubs cfg ids addIds subs s).2, e.isCreate = false := by
  induction subs generalizing s with
  | nil => intro e he; cases he
  | cons sub rest ih =>
      unfold processSubs
      dsimp only
      rcases h1 : processSub cfg ids addIds sub s with ⟨s1, ev1⟩
      rcases h2 : processSubs cfg ids addIds rest s1 with ⟨s2, ev2⟩
      have n1 := processSub_nocreate cfg ids addIds sub s
        (h sub (List.mem_cons_self sub rest))
      rw [h1] at n1
      have k1 := processSub_keeps cfg ids addIds sub s
        (sub.vnets.flatMap vnetCidrs) (sub.vnets.flatMap vnetIps)
        (fun c hc => hc) (fun i hi => hi)
      rw [h1] at k1
      have n2 := ih s1 (fun x hx => CovSub_keeps k1 (h x (List.mem_cons_of_mem sub hx)))
      rw [h2] at n2
      intro e he
      rcases List.mem_append.mp he with g | g
      · exact n1 e g
      · exact n2 e g

theorem createAdditionalTags_nocreate (s : NB) (slugs : List Str)
    (h : ∀ sl ∈ slugs, CovTag s sl) :
    (createAdditionalTags s slugs).2.1 = s ∧
    ∀ e ∈ (createAdditionalTags s slugs).2.2, e.isCreate = false := by
  induction slugs with
  | nil => exact ⟨rfl, fun e he => absurd he (List.not_mem_nil e)⟩
  | cons sl rest ih =>
      have hct := h sl (List.mem_cons_self sl rest)
      unfold CovTag at hct
      obtain ⟨t, ht⟩ := Option.isSome_iff_exists.mp hct
      unfold createAdditionalTags
      rw [tag_silent (pyCapitalize sl) (str "Additional tag: " ++ sl) ht]
      dsimp only
      obtain ⟨hst, hev⟩ := ih (fun x hx => h x (List.mem_cons_of_mem sl hx))
      rcases h2 : createAdditionalTags s rest with ⟨ids2, s2, ev2⟩
      rw [h2] at hst hev
      dsimp only at hst hev ⊢
      refine ⟨hst, fun e he => ?_⟩
      rcases List.mem_append.mp he with g | g
      · simp only [List.mem_singleton] at g
        subst g
        rfl
      · exact hev e g

/-- A run over a fully covered topology performs no create at all. -/
theorem sync_nocreate (topo : List SubData) (cfg : SyncCfg) (s : NB)
    (h : CovTopo cfg topo s) :
    ∀ e ∈ (sync_to_netbox topo cfg s).2, e.isCreate = false := by
  obtain ⟨h1, h2, h3⟩ := h
  unfold CovTag at h1
  obtain ⟨t, ht⟩ := Option.isSome_iff_exists.mp h1
  unfold sync_to_netbox
  rw [tag_silent cfg.tags.sync_tag_name cfg.tags.sync_tag_description ht]
  dsimp only
  obtain ⟨hst, hev2⟩ := createAdditionalTags_nocreate s cfg.tags.additional_tags h2
  rcases hA : createAdditionalTags s cfg.tags.additional_tags with ⟨addIds, s2, ev2⟩
  rw [hA] at hst hev2
  dsimp only at hst hev2 ⊢
  rw [hst]
  rcases hB : processSubs cfg [t.id] addIds topo s with ⟨s3, ev3⟩
  have n3 := processSubs_nocreate cfg [t.id] addIds topo s h3
  rw [hB] at n3
  intro e he
  rcases List.mem_append.mp he with g | g
  · rcases List.mem_append.mp g with g2 | g2
    · simp only [List.mem_singleton] at g2
      subst g2
      rfl
    · exact hev2 e g2
  · exact n3 e g

/-! ## C1 Phase B: an exact state makes the run a pure read -/

theorem processDevice_silent (cfg : SyncCfg) (ids : List Nat) (dev : DeviceInfo) (s : NB)
    (h : ExactDevice cfg dev s) :
    (processDevice cfg ids dev s).1 = s ∧
    ∀ e ∈ (processDevice cfg ids dev s).2, e.isCreate = false ∧ e.isUpdate = false := by
  obtain ⟨h1, h2, st, h3, d, h4, i, h5, r, h6, ha1, ha2⟩ := h
  obtain ⟨dt, hdt, hdte⟩ := dt_silent cfg.mapping.manufacturer ids h1
  obtain ⟨role, hrole, hrolee⟩ := role_silent dev.kind.isVm ids h2
  unfold processDevice
  dsimp only
  rw [hdte]
  dsimp only
  rw [hrolee]
  dsimp only
  rw [site_silent (str "Azure Region: " ++ dev.location) ids h3]
  dsimp only
  rw [dev_silent dt.id role.id ids h4]
  dsimp only
  rw [iface_silent (macOf dev) ids h5]
  dsimp only
  rw [ip_silent (devName cfg dev) ids h6 ha1 ha2]
  refine ⟨rfl, ?_⟩
  intro e he
  simp only [List.mem_append, List.mem_singleton] at he
  rcases he with ((((g | g) | g) | g) | g) | g <;> subst g <;> exact ⟨rfl, rfl⟩

theorem processDevices_silent (cfg : SyncCfg) (ids : List Nat) (devs : List DeviceInfo)
    (s : NB) (h : ∀ d ∈ devs, ExactDevice cfg d s) :
    (processDevices cfg ids devs s).1 = s ∧
    ∀ e ∈ (processDevices cfg ids devs s).2, e.isCreate = false ∧ e.isUpdate = false := by
  induction devs with
  | nil => exact ⟨rfl, fun e he => absurd he (List.not_mem_nil e)⟩
  | cons d rest ih =>
      unfold processDevices
      dsimp only
      obtain ⟨hs1, hev1⟩ := processDevice_silent cfg ids d s
        (h d (List.mem_cons_self d rest))
      rcases h1 : processDevice cfg ids d s with ⟨s1, ev1⟩
      rw [h1] at hs1 hev1
      dsimp only at hs1 hev1
      rw [hs1]
      obtain ⟨hs2, hev2⟩ := ih (fun x hx => h x (List.mem_cons_of_mem d hx))
      rcases h2 : processDevices cfg ids rest s with ⟨s2, ev2⟩
      rw [h2] at hs2 hev2
      dsimp only at hs2 hev2
      refine ⟨hs2, fun e he => ?_⟩
      rcases List.mem_append.mp he with g | g
      · exact hev1 e g
      · exact hev2 e g

theorem processSubnet_silent (cfg : SyncCfg) (ids vt : List Nat) (sname sid vn : Str)
    (pid : Nat) (sn : SubnetInfo) (s : NB)
    (h : ExactSubnet cfg vt sname sid vn pid sn s) :
    (processSubnet cfg ids vt sname sid vn pid sn s).1 = s ∧
    ∀ e ∈ (processSubnet cfg ids vt sname sid vn pid sn s).2,
      e.isCreate = false ∧ e.isUpdate = false := by
  unfold processSubnet
  unfold ExactSubnet at h
  cases ha : sn.address_pfx with
  | none => exact ⟨rfl, fun e he => absurd he (List.not_mem_nil e)⟩
  | some c =>
      rw [ha] at h
      dsimp only at h
      obtain ⟨r, hr, hconf, hdevs⟩ := h
      dsimp only
      rw [pfx_silent hr hconf]
      dsimp only
      obtain ⟨hs2, hev2⟩ := processDevices_silent cfg ids sn.devices s hdevs
      rcases h2 : processDevices cfg ids sn.devices s with ⟨s2, ev2⟩
      rw [h2] at hs2 hev2
      dsimp only at hs2 hev2
      refine ⟨hs2, fun e he => ?_⟩
      rcases List.mem_append.mp he with g | g
      · simp only [List.mem_singleton] at g
        subst g
        exact ⟨rfl, rfl⟩
      · exact hev2 e g

theorem processSubnets_silent (cfg : SyncCfg) (ids vt : List Nat) (sname sid vn : Str)
    (pid : Nat) (sns : List SubnetInfo) (s : NB)
    (h : ∀ sn ∈ sns, ExactSubnet cfg vt sname sid vn pid sn s) :
    (processSubnets cfg ids vt sname sid vn pid sns s).1 = s ∧
    ∀ e ∈ (processSubnets cfg ids vt sname sid vn pid sns s).2,
      e.isCreate = false ∧ e.isUpdate = false := by
  induction sns with
  | nil => exact ⟨rfl, fun e he => absurd he (List.not_mem_nil e)⟩
  | cons sn rest ih =>
      unfold processSubnets
      dsimp only
      obtain ⟨hs1, hev1⟩ := processSubnet_silent cfg ids vt sname sid vn pid sn s
        (h sn (List.mem_cons_self sn rest))
      rcases h1 : processSubnet cfg ids vt sname sid vn pid sn s with ⟨s1, ev1⟩
      rw [h1] at hs1 hev1
      dsimp only at hs1 hev1
      rw [hs1]
      obtain ⟨hs2, hev2⟩ := ih (fun x hx => h x (List.mem_cons_of_mem sn hx))
      rcases h2 : processSubnets cfg ids vt sname sid vn pid rest s with ⟨s2, ev2⟩
      rw [h2] at hs2 hev2
      dsimp only at hs2 hev2
      refine ⟨hs2, fun e he => ?_⟩
      rcases List.mem_append.mp he with g | g
      · exact hev1 e g
      · exact hev2 e g

theorem processAS_silent (cfg : SyncCfg) (ids vt : List Nat) (sname sid : Str)
    (v : VNetInfo) (a : Cidr) (s : NB) (h : ExactAS cfg vt sname sid v a s) :
    (processAS cfg ids vt sname sid v a s).1 = s ∧
    ∀ e ∈ (processAS cfg ids vt sname sid v a s).2,
      e.isCreate = false ∧ e.isUpdate = false := by
  obtain ⟨r, hr, hconf, hsubs⟩ := h
  unfold processAS
  dsimp only
  rw [pfx_silent hr hconf]
  dsimp only
  rw [pfxApply_id]
  obtain ⟨hs2, hev2⟩ := processSubnets_silent cfg ids vt sname sid v.name r.id v.subnets s
    hsubs
  rcases h2 : processSubnets cfg ids vt sname sid v.name r.id v.subnets s with ⟨s2, ev2⟩
  rw [h2] at hs2 hev2
  dsimp only at hs2 hev2
  refine ⟨hs2, fun e he => ?_⟩
  rcases List.mem_append.mp he with g | g
  · simp only [List.mem_singleton] at g
    subst g
    exact ⟨rfl, rfl⟩
  · exact hev2 e g

theorem processASList_silent (cfg : SyncCfg) (ids vt : List Nat) (sname sid : Str)
    (v : VNetInfo) (las : List Cidr) (s : NB)
    (h : ∀ a ∈ las, ExactAS cfg vt sname sid v a s) :
    (processASList cfg ids vt sname sid v las s).1 = s ∧
    ∀ e ∈ (processASList cfg ids vt sname sid v las s).2,
      e.isCreate = false ∧ e.isUpdate = false := by
  induction las with
  | nil => exact ⟨rfl, fun e he => absurd he (List.not_mem_nil e)⟩
  | cons a rest ih =>
      unfold processASList
      dsimp only
      obtain ⟨hs1, hev1⟩ := processAS_silent cfg ids vt sname sid v a s
        (h a (List.mem_cons_self a rest))
      rcases h1 : processAS cfg ids vt sname sid v a s with ⟨s1, ev1⟩
      rw [h1] at hs1 hev1
      dsimp only at hs1 hev1
      rw [hs1]
      obtain ⟨hs2, hev2⟩ := ih (fun x hx => h x (List.mem_cons_of_mem a hx))
      rcases h2 : processASList cfg ids vt sname sid v rest s with ⟨s2, ev2⟩
      rw [h2] at hs2 hev2
      dsimp only at hs2 hev2
      refine ⟨hs2, fun e he => ?_⟩
      rcases List.mem_append.mp he with g | g
      · exact hev1 e g
      · exact hev2 e g

theorem processVnet_silent (cfg : SyncCfg) (ids st : List Nat) (sname sid : Str)
    (v : VNetInfo) (s : NB) (h : ExactVnet cfg st sname sid v s) :
    (processVnet cfg ids st sname sid v s).1 = s ∧
    ∀ e ∈ (processVnet cfg ids st sname sid v s).2,
      e.isCreate = false ∧ e.isUpdate = false := by
  obtain ⟨t, ht, hAS⟩ := h
  unfold processVnet
  dsimp only
  rw [tag_silent (pyCapitalize (locSlugOf v.location))
    (str "Azure region: " ++ v.location) ht]
  dsimp only
  obtain ⟨hs2, hev2⟩ := processASList_silent cfg ids (st ++ [t.id]) sname sid v
    v.address_space s hAS
  rcases h2 : processASList cfg ids (st ++ [t.id]) sname sid v v.address_space s with
    ⟨s2, ev2⟩
  rw [h2] at hs2 hev2
  dsimp only at hs2 hev2
  refine ⟨hs2, fun e he => ?_⟩
  rcases List.mem_append.mp he with g | g
  · simp only [List.mem_singleton] at g
    subst g
    exact ⟨rfl, rfl⟩
  · exact hev2 e g

theorem processVnets_silent (cfg : SyncCfg) (ids st : List Nat) (sname sid : Str)
    (vs : List VNetInfo) (s : NB) (h : ∀ v ∈ vs, ExactVnet cfg st sname sid v s) :
    (processVnets cfg ids st sname sid vs s).1 = s ∧
    ∀ e ∈ (processVnets cfg ids st sname sid vs s).2,
      e.isCreate = false ∧ e.isUpdate = false := by
  induction vs with
  | nil => exact ⟨rfl, fun e he => absurd he (List.not_mem_nil e)⟩
  | cons v rest ih =>
      unfold processVnets
      dsimp only
      obtain ⟨hs1, hev1⟩ := processVnet_silent cfg ids st sname sid v s
        (h v (List.mem_cons_self v rest))
      rcases h1 : processVnet cfg ids st sname sid v s with ⟨s1, ev1⟩
      rw [h1] at hs1 hev1
      dsimp only at hs1 hev1
      rw [hs1]
      obtain ⟨hs2, hev2⟩ := ih (fun x hx => h x (List.mem_cons_of_mem v hx))
      rcases h2 : processVnets cfg ids st sname sid rest s with ⟨s2, ev2⟩
      rw [h2] at hs2 hev2
      dsimp only at hs2 hev2
      refine ⟨hs2, fun e he => ?_⟩
      rcases List.mem_append.mp he with g | g
      · exact hev1 e g
      · exact hev2 e g

theorem processSub_silent (cfg : SyncCfg) (ids addIds : List Nat) (sub : SubData)
    (s : NB) (h : ExactSub cfg ids addIds sub s) :
    (processSub cfg ids addIds sub s).1 = s ∧
    ∀ e ∈ (processSub cfg ids addIds sub s).2, e.isCreate = false ∧ e.isUpdate = false := by
  obtain ⟨envIds, henv, hv⟩ := h
  unfold envResolved at henv
  unfold processSub
  cases he : detect_env sub.subscription_name with
  | none =>
      rw [he] at henv
      dsimp only at henv
      subst henv
      dsimp only
      obtain ⟨hs2, hev2⟩ := processVnets_silent cfg ids (ids ++ addIds ++ [])
        sub.subscription_name sub.subscription_id sub.vnets s hv
      rcases h2 : processVnets cfg ids (ids ++ addIds ++ []) sub.subscription_name
          sub.subscription_id sub.vnets s with ⟨s2, ev2⟩
      rw [h2] at hs2 hev2
      dsimp only at hs2 hev2
      refine ⟨hs2, fun e he2 => ?_⟩
      rcases List.mem_append.mp he2 with g | g
      · cases g
      · exact hev2 e g
  | some sl =>
      rw [he] at henv
      dsimp only at henv
      obtain ⟨t, ht, hids⟩ := henv
      subst hids
      dsimp only
      rw [tag_silent (pyUpper sl) (str "Environment: " ++ pyUpper sl) ht]
      dsimp only
      obtain ⟨hs2, hev2⟩ := processVnets_silent cfg ids (ids ++ addIds ++ [t.id])
        sub.subscription_name sub.subscription_id sub.vnets s hv
      rcases h2 : processVnets cfg ids (ids ++ addIds ++ [t.id]) sub.subscription_name
          sub.subscription_id sub.vnets s with ⟨s2, ev2⟩
      rw [h2] at hs2 hev2
      dsimp only at hs2 hev2
      refine ⟨hs2, fun e he2 => ?_⟩
      rcases List.mem_append.mp he2 with g | g
      · simp only [List.mem_singleton] at g
        subst g
        exact ⟨rfl, rfl⟩
      · exact hev2 e g

theorem processSubs_silent (cfg : SyncCfg) (ids addIds : List Nat) (subs : List SubData)
    (s : NB) (h : ∀ sub ∈ subs, ExactSub cfg ids addIds sub s) :
    (processSubs cfg ids addIds subs s).1 = s ∧
    ∀ e ∈ (processSubs cfg ids addIds subs s).2,
      e.isCreate = false ∧ e.isUpdate = false := by
  induction subs with
  | nil => exact ⟨rfl, fun e he => absurd he (List.not_mem_nil e)⟩
  | cons sub rest ih =>
      unfold processSubs
      dsimp only
      obtain ⟨hs1, hev1⟩ := processSub_silent cfg ids addIds sub s
        (h sub (List.mem_cons_self sub rest))
      rcases h1 : processSub cfg ids addIds sub s with ⟨s1, ev1⟩
      rw [h1] at hs1 hev1
      dsimp only at hs1 hev1
      rw [hs1]
      obtain ⟨hs2, hev2⟩ := ih (fun x hx => h x (List.mem_cons_of_mem sub hx))
      rcases h2 : processSubs cfg ids addIds rest s with ⟨s2, ev2⟩
      rw [h2] at hs2 hev2
      dsimp only at hs2 hev2
      refine ⟨hs2, fun e he => ?_⟩
      rcases List.mem_append.mp he with g | g
      · exact hev1 e g
      · exact hev2 e g

theorem createAdditionalTags_silent (s : NB) (slugs : List Str) (ids0 : List Nat)
    (h : addResolved s slugs ids0) :
    (createAdditionalTags s slugs).1 = ids0 ∧ (createAdditionalTags s slugs).2.1 = s ∧
    ∀ e ∈ (createAdditionalTags s slugs).2.2, e.isCreate = false ∧ e.isUpdate = false := by
  induction slugs generalizing ids0 with
  | nil =>
      cases ids0 with
      | nil => exact ⟨rfl, rfl, fun e he => absurd he (List.not_mem_nil e)⟩
      | cons i irest => exact absurd h (by unfold addResolved; exact id)
  | cons sl rest ih =>
      cases ids0 with
      | nil => exact absurd h (by unfold addResolved; exact id)
      | cons i irest =>
          unfold addResolved at h
          obtain ⟨⟨t, ht, hid⟩, hrest⟩ := h
          unfold createAdditionalTags
          rw [tag_silent (pyCapitalize sl) (str "Additional tag: " ++ sl) ht]
          dsimp only
          obtain ⟨hids, hst, hev⟩ := ih irest hrest
          rcases h2 : createAdditionalTags s rest with ⟨ids2, s2, ev2⟩
          rw [h2] at hids hst hev
          dsimp only at hids hst hev ⊢
          rw [hids, hid, hst]
          refine ⟨rfl, rfl, fun e he => ?_⟩
          rcases List.mem_append.mp he with g | g
          · simp only [List.mem_singleton] at g
            subst g
            exact ⟨rfl, rfl⟩
          · exact hev e g

/-- Over an exact state the whole run is a pure read: the state is returned
unchanged and every event reports neither a create nor an update. -/
theorem sync_silent (topo : List SubData) (cfg : SyncCfg) (s : NB)
    (h : ExactTopo cfg topo s) :
    (sync_to_netbox topo cfg s).1 = s ∧
    ∀ e ∈ (sync_to_netbox topo cfg s).2, e.isCreate = false ∧ e.isUpdate = false := by
  obtain ⟨t0, ht0, addIds, haddR, hsubs⟩ := h
  unfold sync_to_netbox
  rw [tag_silent cfg.tags.sync_tag_name cfg.tags.sync_tag_description ht0]
  dsimp only
  obtain ⟨hids, hst, hev2⟩ := createAdditionalTags_silent s cfg.tags.additional_tags
    addIds haddR
  rcases hA : createAdditionalTags s cfg.tags.additional_tags with ⟨ids2, s2, ev2⟩
  rw [hA] at hids hst hev2
  dsimp only at hids hst hev2 ⊢
  rw [hids, hst]
  obtain ⟨hs3, hev3⟩ := processSubs_silent cfg [t0.id] addIds topo s hsubs
  rcases hB : processSubs cfg [t0.id] addIds topo s with ⟨s3, ev3⟩
  rw [hB] at hs3 hev3
  dsimp only at hs3 hev3
  refine ⟨hs3, fun e he => ?_⟩
  rcases List.mem_append.mp he with g | g
  · rcases List.mem_append.mp g with g2 | g2
    · simp only [List.mem_singleton] at g2
      subst g2
      exact ⟨rfl, rfl⟩
    · exact hev2 e g2
  · exact hev3 e g

/-! ## C1 Phase B: exactness survives the untouched remainder of the run -/

theorem ExactDevice_keeps {s t : NB} {tc : List Cidr} {ti : List Nat}
    (k : KeepsL s t tc ti) {cfg : SyncCfg} {dev : DeviceInfo}
    (hip : dev.ip_address ∉ ti) (h : ExactDevice cfg dev s) : ExactDevice cfg dev t := by
  obtain ⟨h1, h2, st, h3, d, h4, i, h5, r, h6, ha1, ha2⟩ := h
  refine ⟨?_, ?_, st, k.sitesK _ st h3, d, k.devsK _ d h4, i, k.ifsK _ i h5, r,
    k.ipEq _ hip r h6, ha1, ha2⟩
  · obtain ⟨x, hx⟩ := Option.isSome_iff_exists.mp h1
    rw [k.dtsK _ x hx]
    rfl
  · obtain ⟨x, hx⟩ := Option.isSome_iff_exists.mp h2
    rw [k.rolesK _ x hx]
    rfl

theorem ExactSubnet_keeps {s t : NB} {tc : List Cidr} {ti : List Nat}
    (k : KeepsL s t tc ti) {cfg : SyncCfg} {vt : List Nat} {sname sid vn : Str} {pid : Nat}
    {sn : SubnetInfo} (hc : ∀ c, sn.address_pfx = some c → c ∉ tc)
    (hip : ∀ i ∈ subnetIps sn, i ∉ ti)
    (h : ExactSubnet cfg vt sname sid vn pid sn s) :
    ExactSubnet cfg vt sname sid vn pid sn t := by
  unfold ExactSubnet at h ⊢
  cases ha : sn.address_pfx with
  | none => trivial
  | some c =>
      rw [ha] at h
      dsimp only at h ⊢
      obtain ⟨r, hr, hconf, hdevs⟩ := h
      exact ⟨r, k.pfxEq c (hc c ha) r hr, hconf,
        fun dev hdev =>
          ExactDevice_keeps k (hip dev.ip_address (mem_subnetIps ha hdev))
            (hdevs dev hdev)⟩

theorem ExactAS_keeps {s t : NB} {tc : List Cidr} {ti : List Nat}
    (k : KeepsL s t tc ti) {cfg : SyncCfg} {vt : List Nat} {sname sid : Str}
    {v : VNetInfo} {a : Cidr} (ha : a ∉ tc) (hc : ∀ c ∈ subnetCidrs v, c ∉ tc)
    (hip : ∀ i ∈ vnetIps v, i ∉ ti) (h : ExactAS cfg vt sname sid v a s) :
    ExactAS cfg vt sname sid v a t := by
  obtain ⟨r, hr, hconf, hsubs⟩ := h
  exact ⟨r, k.pfxEq a ha r hr, hconf,
    fun sn hsn =>
      ExactSubnet_keeps k (fun c hac => hc c (mem_subnetCidrs hsn hac))
        (fun i hi => hip i (mem_vnetIps hsn hi)) (hsubs sn hsn)⟩

theorem ExactVnet_keeps {s t : NB} {tc : List Cidr} {ti : List Nat}
    (k : KeepsL s t tc ti) {cfg : SyncCfg} {st : List Nat} {sname sid : Str}
    {v : VNetInfo} (hc : ∀ c ∈ vnetCidrs v, c ∉ tc) (hip : ∀ i ∈ vnetIps v, i ∉ ti)
    (h : ExactVnet cfg st sname sid v s) : ExactVnet cfg st sname sid v t := by
  obtain ⟨t2, ht2, hAS⟩ := h
  refine ⟨t2, k.tagsK _ t2 ht2, fun a haS => ?_⟩
  refine ExactAS_keeps k ?_ ?_ hip (hAS a haS)
  · exact hc a (by unfold vnetCidrs; exact List.mem_append_left _ haS)
  · exact fun c hcs => hc c (by unfold vnetCidrs; exact List.mem_append_right _ hcs)

theorem envResolved_keeps {s t : NB} {tc : List Cidr} {ti : List Nat}
    (k : KeepsL s t tc ti) {nm : Str} {ids0 : List Nat} (h : envResolved nm s ids0) :
    envResolved nm t ids0 := by
  unfold envResolved at h ⊢
  cases he : detect_env nm with
  | none =>
      rw [he] at h
      exact h
  | some sl =>
      rw [he] at h
      dsimp only at h ⊢
      obtain ⟨t2, ht2, hids⟩ := h
      exact ⟨t2, k.tagsK _ t2 ht2, hids⟩

theorem ExactSub_keeps {s t : NB} {tc : List Cidr} {ti : List Nat}
    (k : KeepsL s t tc ti) {cfg : SyncCfg} {ids addIds : List Nat} {sub : SubData}
    (hc : ∀ c ∈ sub.vnets.flatMap vnetCidrs, c ∉ tc)
    (hip : ∀ i ∈ sub.vnets.flatMap vnetIps, i ∉ ti)
    (h : ExactSub cfg ids addIds sub s) : ExactSub cfg ids addIds sub t := by
  obtain ⟨envIds, henv, hv⟩ := h
  refine ⟨envIds, envResolved_keeps k henv, fun v hvm => ?_⟩
  refine ExactVnet_keeps k ?_ ?_ (hv v hvm)
  · exact fun c hcm => hc c (List.mem_flatMap.mpr ⟨v, hvm, hcm⟩)
  · exact fun i him => hip i (List.mem_flatMap.mpr ⟨v, hvm, him⟩)

theorem addResolved_keeps {s t : NB} {tc : List Cidr} {ti : List Nat}
    (k : KeepsL s t tc ti) {slugs : List Str} {ids0 : List Nat}
    (h : addResolved s slugs ids0) : addResolved t slugs ids0 := by
  induction slugs generalizing ids0 with
  | nil =>
      cases ids0 with
      | nil => trivial
      | cons i irest => exact absurd h (by unfold addResolved; exact id)
  | cons sl rest ih =>
      cases ids0 with
      | nil => exact absurd h (by unfold addResolved; exact id)
      | cons i irest =>
          unfold addResolved at h ⊢
          obtain ⟨⟨t2, ht2, hid⟩, hrest⟩ := h
          exact ⟨⟨t2, k.tagsK _ t2 ht2, hid⟩, ih hrest⟩

theorem processDevice_exact (cfg : SyncCfg) (ids : List Nat) (dev : DeviceInfo) (s : NB) :
    ExactDevice cfg dev (processDevice cfg ids dev s).1 := by
  unfold processDevice
  dsimp only
  rcases h1 : get_or_create_device_type s (devTypeModel cfg dev)
      cfg.mapping.manufacturer ids with ⟨dt, s1, ev1⟩
  rcases h2 : get_or_create_device_role s1 (devRoleName cfg dev) dev.kind.isVm ids with
    ⟨role, s2, ev2⟩
  rcases h3 : get_or_create_site s2 (devSiteName cfg dev)
      (str "Azure Region: " ++ dev.location) ids with ⟨site, s3, ev3⟩
  rcases h4 : deviceStep (devName cfg dev) dt.id role.id site.id ids s3 with ⟨d4, s4, ev4⟩
  rcases h5 : ifaceStep d4.id cfg.mapping.default_interface (macOf dev) ids s4 with
    ⟨i5, s5, ev5⟩
  rcases h6 : ipStep dev.ip_address (devName cfg dev) i5.id ids s5 with ⟨s6, ev6⟩
  have k2 := role_keeps s1 (devRoleName cfg dev) dev.kind.isVm ids [] [dev.ip_address]
  have k3 := site_keeps s2 (devSiteName cfg dev) (str "Azure Region: " ++ dev.location)
    ids [] [dev.ip_address]
  have k4 := dev_keeps (devName cfg dev) dt.id role.id site.id ids s3 [] [dev.ip_address]
  have k5 := iface_keeps d4.id cfg.mapping.default_interface (macOf dev) ids s4 []
    [dev.ip_address]
  have k6 := ip_keeps dev.ip_address (devName cfg dev) i5.id ids s5 [] [dev.ip_address]
    (List.mem_singleton_self _)
  rw [h2] at k2; rw [h3] at k3; rw [h4] at k4; rw [h5] at k5; rw [h6] at k6
  have f1 := dt_resolves_some s (devTypeModel cfg dev) cfg.mapping.manufacturer ids
  rw [h1] at f1
  have f2 := role_resolves_some s1 (devRoleName cfg dev) dev.kind.isVm ids
  rw [h2] at f2
  have f3 := site_resolves s2 (devSiteName cfg dev) (str "Azure Region: " ++ dev.location)
    ids
  rw [h3] at f3
  have f4 := dev_resolves (devName cfg dev) dt.id role.id site.id ids s3
  rw [h4] at f4
  have f5 := iface_resolves d4.id cfg.mapping.default_interface (macOf dev) ids s4
  rw [h5] at f5
  have f6 := ipStep_establishes dev.ip_address (devName cfg dev) i5.id ids s5
  rw [h6] at f6
  dsimp only at f1 f2 f3 f4 f5 f6
  have k6' : KeepsL s5 s6 ([] : List Cidr) [dev.ip_address] := k6
  have k56 := KeepsL_trans k5 k6'
  have k456 := KeepsL_trans k4 k56
  have k3456 := KeepsL_trans k3 k456
  obtain ⟨r, hr, hra1, hra2⟩ := f6
  refine ⟨?_, ?_, site, k456.sitesK _ site f3, d4, k56.devsK _ d4 f4, i5,
    k6'.ifsK _ i5 f5, r, hr, hra1, hra2⟩
  · obtain ⟨x, hx⟩ := Option.isSome_iff_exists.mp f1
    rw [(KeepsL_trans k2 k3456).dtsK _ x hx]
    rfl
  · obtain ⟨x, hx⟩ := Option.isSome_iff_exists.mp f2
    rw [k3456.rolesK _ x hx]
    rfl

theorem processDevices_exact (cfg : SyncCfg) (ids : List Nat) (devs : List DeviceInfo)
    (s : NB) (hN : (devs.map (fun z => z.ip_address)).Nodup) :
    ∀ d ∈ devs, ExactDevice cfg d (processDevices cfg ids devs s).1 := by
  induction devs generalizing s with
  | nil => intro d hd; cases hd
  | cons d rest ih =>
      unfold processDevices
      dsimp only
      rcases h1 : processDevice cfg ids d s with ⟨s1, ev1⟩
      rcases h2 : processDevices cfg ids rest s1 with ⟨s2, ev2⟩
      rw [List.map_cons, List.nodup_cons] at hN
      intro x hx
      rcases List.mem_cons.mp hx with hx | hx
      · subst hx
        have e1 := processDevice_exact cfg ids x s
        rw [h1] at e1
        have k2 := processDevices_keeps cfg ids rest s1 []
          (rest.map (fun z => z.ip_address)) (fun z hz => List.mem_map_of_mem _ hz)
        rw [h2] at k2
        exact ExactDevice_keeps k2 hN.1 e1
      · have := ih s1 hN.2 x hx
        rw [h2] at this
        exact this

theorem processSubnet_exact (cfg : SyncCfg) (ids vt : List Nat) (sname sid vn : Str)
    (pid : Nat) (sn : SubnetInfo) (s : NB) (hN : (subnetIps sn).Nodup) :
    ExactSubnet cfg vt sname sid vn pid sn
      (processSubnet cfg ids vt sname sid vn pid sn s).1 := by
  unfold processSubnet
  unfold ExactSubnet
  cases ha : sn.address_pfx with
  | none => trivial
  | some c =>
      dsimp only
      rcases h1 : get_or_create_pfx s c (subnetPfxDefaults vt sn.name vn pid) sname sid []
        with ⟨rc, s1, ev1⟩
      rcases h2 : processDevices cfg ids sn.devices s1 with ⟨s2, ev2⟩
      have e1 := pfx_establishes s c (subnetPfxDefaults vt sn.name vn pid) sname sid
      rw [h1] at e1
      dsimp only at e1
      obtain ⟨r, hr, hconf, hid⟩ := e1
      have k2 := processDevices_keeps cfg ids sn.devices s1 []
        (sn.devices.map (fun z => z.ip_address)) (fun z hz => List.mem_map_of_mem _ hz)
      rw [h2] at k2
      have hNd : (sn.devices.map (fun z => z.ip_address)).Nodup := by
        unfold subnetIps at hN
        rw [ha] at hN
        exact hN
      have e2 := processDevices_exact cfg ids sn.devices s1 hNd
      rw [h2] at e2
      exact ⟨r, k2.pfxEq c (List.not_mem_nil c) r hr, hconf, e2⟩

theorem processSubnets_exact (cfg : SyncCfg) (ids vt : List Nat) (sname sid vn : Str)
    (pid : Nat) (sns : List SubnetInfo) (s : NB)
    (hcN : (sns.filterMap (fun z => z.address_pfx)).Nodup)
    (hiN : (sns.flatMap subnetIps).Nodup) :
    ∀ sn ∈ sns, ExactSubnet cfg vt sname sid vn pid sn
      (processSubnets cfg ids vt sname sid vn pid sns s).1 := by
  induction sns generalizing s with
  | nil => intro x hx; cases hx
  | cons sn rest ih =>
      unfold processSubnets
      dsimp only
      rcases h1 : processSubnet cfg ids vt sname sid vn pid sn s with ⟨s1, ev1⟩
      rcases h2 : processSubnets cfg ids vt sname sid vn pid rest s1 with ⟨s2, ev2⟩
      rw [List.flatMap_cons, List.nodup_append] at hiN
      obtain ⟨hiHead, hiRest, hiDisj⟩ := hiN
      have hcRest : (rest.filterMap (fun z => z.address_pfx)).Nodup := by
        cases hA : sn.address_pfx with
        | none => simpa [List.filterMap_cons, hA] using hcN
        | some c =>
            simp only [List.filterMap_cons, hA] at hcN
            exact (List.nodup_cons.mp hcN).2
      have hcHead : ∀ c, sn.address_pfx = some c →
          c ∉ rest.filterMap (fun z => z.address_pfx) := by
        intro c hA
        simp only [List.filterMap_cons, hA] at hcN
        exact (List.nodup_cons.mp hcN).1
      intro x hx
      rcases List.mem_cons.mp hx with hx | hx
      · subst hx
        have e1 := processSubnet_exact cfg ids vt sname sid vn pid x s hiHead
        rw [h1] at e1
        have k2 := processSubnets_keeps cfg ids vt sname sid vn pid rest s1
          (rest.filterMap (fun z => z.address_pfx)) (rest.flatMap subnetIps)
          (fun z hz c hc => List.mem_filterMap.mpr ⟨z, hz, hc⟩)
          (fun z hz i hi => List.mem_flatMap.mpr ⟨z, hz, hi⟩)
        rw [h2] at k2
        exact ExactSubnet_keeps k2 hcHead (fun i hi => hiDisj hi) e1
      · have := ih s1 hcRest hiRest x hx
        rw [h2] at this
        exact this

theorem processAS_exact (cfg : SyncCfg) (ids vt : List Nat) (sname sid : Str)
    (v : VNetInfo) (a : Cidr) (s : NB) (hna : a ∉ subnetCidrs v)
    (hcN : (subnetCidrs v).Nodup) (hiN : (vnetIps v).Nodup) :
    ExactAS cfg vt sname sid v a (processAS cfg ids vt sname sid v a s).1 := by
  unfold processAS
  dsimp only
  rcases h1 : get_or_create_pfx s a (vnetPfxDefaults vt v.name sid) sname sid [] with
    ⟨rc, s1, ev1⟩
  rcases h2 : processSubnets cfg ids vt sname sid v.name rc.1.id v.subnets s1 with
    ⟨s2, ev2⟩
  have e1 := pfx_establishes s a (vnetPfxDefaults vt v.name sid) sname sid
  rw [h1] at e1
  dsimp only at e1
  obtain ⟨r, hr, hconf, hid⟩ := e1
  have k2 := processSubnets_keeps cfg ids vt sname sid v.name rc.1.id v.subnets s1
    (subnetCidrs v) (vnetIps v)
    (fun z hz c hc => mem_subnetCidrs hz hc) (fun z hz i hi => mem_vnetIps hz hi)
  rw [h2] at k2
  have hcN' : (v.subnets.filterMap (fun z => z.address_pfx)).Nodup := hcN
  have hiN' : (v.subnets.flatMap subnetIps).Nodup := hiN
  have e2 := processSubnets_exact cfg ids vt sname sid v.name rc.1.id v.subnets s1
    hcN' hiN'
  rw [h2] at e2
  refine ⟨r, k2.pfxEq a hna r hr, hconf, ?_⟩
  rw [hid]
  exact e2

theorem processVnet_exact (cfg : SyncCfg) (ids st : List Nat) (sname sid : Str)
    (v : VNetInfo) (s : NB) (hlen : v.address_space.length ≤ 1)
    (hcN : (vnetCidrs v).Nodup) (hiN : (vnetIps v).Nodup) :
    ExactVnet cfg st sname sid v (processVnet cfg ids st sname sid v s).1 := by
  unfold processVnet
  dsimp only
  rcases h1 : get_or_create_tag s (pyCapitalize (locSlugOf v.location))
      (locSlugOf v.location) (str "Azure region: " ++ v.location) with ⟨t, s1, ev1⟩
  have f1 := tag_resolves s (pyCapitalize (locSlugOf v.location)) (locSlugOf v.location)
    (str "Azure region: " ++ v.location)
  rw [h1] at f1
  dsimp only at f1
  unfold vnetCidrs at hcN
  rcases hAS : v.address_space with _ | ⟨a, rest⟩
  · dsimp only [processASList]
    refine ⟨t, f1, fun a2 ha2 => ?_⟩
    rw [hAS] at ha2
    cases ha2
  · rw [hAS] at hlen
    have hrest : rest = [] := by
      simp only [List.length_cons] at hlen
      exact List.eq_nil_of_length_eq_zero (by omega)
    subst hrest
    dsimp only [processASList]
    rcases h2 : processAS cfg ids (st ++ [t.id]) sname sid v a s1 with ⟨s2, ev2⟩
    rw [hAS] at hcN
    rw [List.nodup_append] at hcN
    obtain ⟨haN, hsubN, hdisj⟩ := hcN
    have hna : a ∉ subnetCidrs v :=
      fun hmem => hdisj (List.mem_singleton_self a) hmem
    have e2 := processAS_exact cfg ids (st ++ [t.id]) sname sid v a s1 hna hsubN hiN
    rw [h2] at e2
    have k2 := processAS_keeps cfg ids (st ++ [t.id]) sname sid v a s1
      (a :: subnetCidrs v) (vnetIps v) (List.mem_cons_self _ _)
      (fun c hc => List.mem_cons_of_mem _ hc) (fun i hi => hi)
    rw [h2] at k2
    refine ⟨t, k2.tagsK _ t f1, fun a2 ha2 => ?_⟩
    rw [hAS] at ha2
    rcases List.mem_singleton.mp ha2 with rfl
    exact e2

theorem processVnets_exact (cfg : SyncCfg) (ids st : List Nat) (sname sid : Str)
    (vs : List VNetInfo) (s : NB) (hlen : ∀ v ∈ vs, v.address_space.length ≤ 1)
    (hcN : (vs.flatMap vnetCidrs).Nodup) (hiN : (vs.flatMap vnetIps).Nodup) :
    ∀ v ∈ vs, ExactVnet cfg st sname sid v (processVnets cfg ids st sname sid vs s).1 := by
  induction vs generalizing s with
  | nil => intro x hx; cases hx
  | cons v rest ih =>
      unfold processVnets
      dsimp only
      rcases h1 : processVnet cfg ids st sname sid v s with ⟨s1, ev1⟩
      rcases h2 : processVnets cfg ids st sname sid rest s1 with ⟨s2, ev2⟩
      rw [List.flatMap_cons, List.nodup_append] at hcN hiN
      obtain ⟨hcHead, hcRest, hcDisj⟩ := hcN
      obtain ⟨hiHead, hiRest, hiDisj⟩ := hiN
      intro x hx
      rcases List.mem_cons.mp hx with hx | hx
      · subst hx
        have e1 := processVnet_exact cfg ids st sname sid x s
          (hlen x (List.mem_cons_self x rest)) hcHead hiHead
        rw [h1] at e1
        have k2 := processVnets_keeps cfg ids st sname sid rest s1
          (rest.flatMap vnetCidrs) (rest.flatMap vnetIps)
          (fun c hc => hc) (fun i hi => hi)
        rw [h2] at k2
        exact ExactVnet_keeps k2 (fun c hc => hcDisj hc) (fun i hi => hiDisj hi) e1
      · have := ih s1 (fun z hz => hlen z (List.mem_cons_of_mem v hz)) hcRest hiRest x hx
        rw [h2] at this
        exact this

theorem processSub_exact (cfg : SyncCfg) (ids addIds : List Nat) (sub : SubData) (s : NB)
    (hlen : ∀ v ∈ sub.vnets, v.address_space.length ≤ 1)
    (hcN : (sub.vnets.flatMap vnetCidrs).Nodup)
    (hiN : (sub.vnets.flatMap vnetIps).Nodup) :
    ExactSub cfg ids addIds sub (processSub cfg ids addIds sub s).1 := by
  unfold processSub
  cases he : detect_env sub.subscription_name with
  | none =>
      dsimp only
      rcases h2 : processVnets cfg ids (ids ++ addIds ++ []) sub.subscription_name
          sub.subscription_id sub.vnets s with ⟨s2, ev2⟩
      have e2 := processVnets_exact cfg ids (ids ++ addIds ++ []) sub.subscription_name
        sub.subscription_id sub.vnets s hlen hcN hiN
      rw [h2] at e2
      refine ⟨[], ?_, e2⟩
      unfold envResolved
      rw [he]
  | some sl =>
      dsimp only
      rcases h1 : get_or_create_tag s (pyUpper sl) sl (str "Environment: " ++ pyUpper sl)
        with ⟨t, s1, ev1⟩
      have f1 := tag_resolves s (pyUpper sl) sl (str "Environment: " ++ pyUpper sl)
      rw [h1] at f1
      dsimp only at f1
      dsimp only
      rcases h2 : processVnets cfg ids (ids ++ addIds ++ [t.id]) sub.subscription_name
          sub.subscription_id sub.vnets s1 with ⟨s2, ev2⟩
      have e2 := processVnets_exact cfg ids (ids ++ addIds ++ [t.id])
        sub.subscription_name sub.subscription_id sub.vnets s1 hlen hcN hiN
      rw [h2] at e2
      have k2 := processVnets_keeps cfg ids (ids ++ addIds ++ [t.id])
        sub.subscription_name sub.subscription_id sub.vnets s1
        (sub.vnets.flatMap vnetCidrs) (sub.vnets.flatMap vnetIps)
        (fun c hc => hc) (fun i hi => hi)
      rw [h2] at k2
      refine ⟨[t.id], ?_, e2⟩
      unfold envResolved
      rw [he]
      exact ⟨t, k2.tagsK _ t f1, rfl⟩

theorem processSubs_exact (cfg : SyncCfg) (ids addIds : List Nat) (subs : List SubData)
    (s : NB) (hlen : ∀ sub ∈ subs, ∀ v ∈ sub.vnets, v.address_space.length ≤ 1)
    (hcN : (topoCidrs subs).Nodup) (hiN : (topoIps subs).Nodup) :
    ∀ sub ∈ subs, ExactSub cfg ids addIds sub (processSubs cfg ids addIds subs s).1 := by
  induction subs generalizing s with
  | nil => intro x hx; cases hx
  | cons sub rest ih =>
      unfold processSubs
      dsimp only
      rcases h1 : processSub cfg ids addIds sub s with ⟨s1, ev1⟩
      rcases h2 : processSubs cfg ids addIds rest s1 with ⟨s2, ev2⟩
      unfold topoCidrs at hcN
      unfold topoIps at hiN
      rw [List.flatMap_cons, List.nodup_append] at hcN hiN
      obtain ⟨hcHead, hcRest, hcDisj⟩ := hcN
      obtain ⟨hiHead, hiRest, hiDisj⟩ := hiN
      intro x hx
      rcases List.mem_cons.mp hx with hx | hx
      · subst hx
        have e1 := processSub_exact cfg ids addIds x s
          (hlen x (List.mem_cons_self x rest)) hcHead hiHead
        rw [h1] at e1
        have k2 := processSubs_keeps cfg ids addIds rest s1
          (rest.flatMap (fun z => z.vnets.flatMap vnetCidrs))
          (rest.flatMap (fun z => z.vnets.flatMap vnetIps))
          (fun c hc => hc) (fun i hi => hi)
        rw [h2] at k2
        exact ExactSub_keeps k2 (fun c hc => hcDisj hc) (fun i hi => hiDisj hi) e1
      · have := ih s1 (fun z hz => hlen z (List.mem_cons_of_mem sub hz)) hcRest hiRest x hx
        rw [h2] at this
        exact this

theorem createAdditionalTags_resolves (s : NB) (slugs : List Str) :
    addResolved (createAdditionalTags s slugs).2.1 slugs (createAdditionalTags s slugs).1 := by
  induction slugs generalizing s with
  | nil => exact trivial
  | cons sl rest ih =>
      unfold createAdditionalTags
      dsimp only
      rcases h1 : get_or_create_tag s (pyCapitalize sl) sl (str "Additional tag: " ++ sl)
        with ⟨t, s1, ev1⟩
      rcases h2 : createAdditionalTags s1 rest with ⟨ids2, s2, ev2⟩
      have f1 := tag_resolves s (pyCapitalize sl) sl (str "Additional tag: " ++ sl)
      rw [h1] at f1
      dsimp only at f1
      have k2 := createAdditionalTags_keeps s1 rest [] []
      rw [h2] at k2
      dsimp only at k2
      have ihr := ih s1
      rw [h2] at ihr
      dsimp only at ihr
      unfold addResolved
      exact ⟨⟨t, k2.tagsK _ t f1, rfl⟩, ihr⟩

/-- After one run over a well-behaved topology (single address space per
network, pairwise-distinct CIDRs and device IPs) the state is exact: every
record the engine would touch already holds the values the engine would
write. -/
theorem sync_exact (topo : List SubData) (cfg : SyncCfg) (s : NB) (hg : GoodTopo topo) :
    ExactTopo cfg topo (sync_to_netbox topo cfg s).1 := by
  obtain ⟨hlen, hcN, hiN⟩ := hg
  unfold sync_to_netbox
  dsimp only
  rcases h1 : get_or_create_tag s cfg.tags.sync_tag_name (slugOf cfg.tags.sync_tag_name)
    cfg.tags.sync_tag_description with ⟨t, s1, ev1⟩
  rcases h2 : createAdditionalTags s1 cfg.tags.additional_tags with ⟨addIds, s2, ev2⟩
  rcases h3 : processSubs cfg [t.id] addIds topo s2 with ⟨s3, ev3⟩
  have f1 := tag_resolves s cfg.tags.sync_tag_name (slugOf cfg.tags.sync_tag_name)
    cfg.tags.sync_tag_description
  rw [h1] at f1
  dsimp only at f1
  have k2 := createAdditionalTags_keeps s1 cfg.tags.additional_tags [] []
  rw [h2] at k2
  dsimp only at k2
  have k3 := processSubs_keeps cfg [t.id] addIds topo s2 (topoCidrs topo) (topoIps topo)
    (fun c hc => hc) (fun i hi => hi)
  rw [h3] at k3
  have fadd := createAdditionalTags_resolves s1 cfg.tags.additional_tags
  rw [h2] at fadd
  dsimp only at fadd
  have e3 := processSubs_exact cfg [t.id] addIds topo s2 hlen hcN hiN
  rw [h3] at e3
  exact ⟨t, k3.tagsK _ t (k2.tagsK _ t f1), addIds, addResolved_keeps k3 fadd, e3⟩

/-- C1 (amended): running `sync_to_netbox` a second time on the unchanged
topology and the state left by the first run performs zero additional creates,
unconditionally.  When moreover every network has at most one address-space
entry and the topology's CIDRs and device IPs are pairwise distinct
(`GoodTopo`), the second run also reports no update in any operation and
returns the state unchanged (the first run's state is a fixpoint). -/
theorem C1_second_run_idempotent (topo : List SubData) (cfg : SyncCfg) (s0 : NB) :
    ((sync_to_netbox topo cfg (sync_to_netbox topo cfg s0).1).2.all
      (fun e => !e.isCreate)) = true ∧
    (GoodTopo topo →
      ((sync_to_netbox topo cfg (sync_to_netbox topo cfg s0).1).2.all
        (fun e => !e.isCreate && !e.isUpdate)) = true ∧
      (sync_to_netbox topo cfg (sync_to_netbox topo cfg s0).1).1 =
        (sync_to_netbox topo cfg s0).1) := by
  constructor
  · rw [List.all_eq_true]
    intro e he
    have h := sync_nocreate topo cfg (sync_to_netbox topo cfg s0).1
      (sync_covers topo cfg s0) e he
    rw [h]
    rfl
  · intro hg
    have hex2 := sync_exact topo cfg s0 hg
    obtain ⟨hst, hev⟩ := sync_silent topo cfg (sync_to_netbox topo cfg s0).1 hex2
    refine ⟨?_, hst⟩
    rw [List.all_eq_true]
    intro e he
    obtain ⟨hc, hu⟩ := hev e he
    rw [hc, hu]
    rfl

/-- C1 witness: on a concrete well-behaved topology the second run is fully
silent and leaves the state untouched. -/
theorem C1_witness :
    GoodTopo exTopoGood ∧
    (((sync_to_netbox exTopoGood exCfg (sync_to_netbox exTopoGood exCfg NB.empty).1).2.all
      (fun e => !e.isCreate && !e.isUpdate)) = true ∧
    (sync_to_netbox exTopoGood exCfg (sync_to_netbox exTopoGood exCfg NB.empty).1).1 =
      (sync_to_netbox exTopoGood exCfg NB.empty).1) :=
  have hg : GoodTopo exTopoGood := by
    unfold GoodTopo
    refine ⟨?_, ?_, ?_⟩ <;> decide
  ⟨hg, (C1_second_run_idempotent exTopoGood exCfg NB.empty).2 hg⟩

/-- C1 counterexample to the claim as stated: with two address-space entries on
one network, the second run still reports an update (the subnet prefix's parent
is flipped between the two network prefixes on every run), so the second run is
not update-free in general. -/
theorem C1_counterexample :
    ((sync_to_netbox exTopoTwoAS exCfg (sync_to_netbox exTopoTwoAS exCfg NB.empty).1).2.all
      (fun e => !e.isUpdate)) = false := by
  decide

end AzureSync
